import Mathlib

/-!
# Distributed-calculations: the orchestrator's reduction and result path

A shallow embedding of `internal/orch/orch.go`, `internal/db/db.go` and
`internal/agent/agent.go`.

* `float64` values are the elements of a type `F` carrying the operations the
  code applies to them (`Float64 F`); nothing is assumed about rounding.
* The SQL store is a pair of tables (lists of rows) together with the errors the
  engine is going to report for the coming statements.
* The process state (`World`) holds the store, the dispatch queue `taskQueue`,
  the registry `chTaskResults` and the mutex `mu`.
* A goroutine that reaches a channel operation or a `Lock` that cannot proceed is
  parked while the other goroutines run (`Env.others`); when the operation is
  still impossible afterwards the run is `blocked`.
* Every run records the store calls and channel operations it performed, in
  order (`Event`).
* The handlers `GetTask`, `SendTaskResult` and `handleCalculate` are functions of
  the process state; the mutex discipline is read along the kinds of steps a
  handler performs (`Step`).
-/

namespace DistributedCalculations

/-! ## Values -/

/-- The part of Go `float64` the code uses: conversion from a small unsigned
integer, the four operations, and the comparison `x == 0`. -/
class Float64 (F : Type) where
  /-- Conversion `float64(n)` -/
  ofNat : Nat → F
  add : F → F → F
  sub : F → F → F
  mul : F → F → F
  div : F → F → F
  /-- Comparison `x == 0` -/
  eqZero : F → Bool
  /-- Converting an unsigned integer gives zero exactly for 0 -/
  eqZero_ofNat : ∀ n : Nat, eqZero (ofNat n) = decide (n = 0)

/-- Exact rational arithmetic as an instance of the value interface. -/
instance : Float64 ℚ where
  ofNat n := (n : ℚ)
  add a b := a + b
  sub a b := a - b
  mul a b := a * b
  div a b := a / b
  eqZero a := decide (a = 0)
  eqZero_ofNat n := by simp

/-- Conversion `int32(n)` of a Go `int`. -/
def int32 (n : Int) : Int := (n + 2147483648) % 4294967296 - 2147483648

/-! ## Go strings -/

/-- UTF-8 encoding of one code point. -/
def utf8Encode (c : Nat) : List Nat :=
  if c < 128 then [c]
  else if c < 2048 then [192 + c / 64, 128 + c % 64]
  else if c < 65536 then [224 + c / 4096, 128 + c / 64 % 64, 128 + c % 64]
  else [240 + c / 262144, 128 + c / 4096 % 64, 128 + c / 64 % 64, 128 + c % 64]

/-- The bytes of the Go string, a Lean string standing for the Go string that holds
its UTF-8 encoding: `expression[i]` is `(goBytes expression)[i]` and
`len(expression)` is its length. -/
def goBytes (expression : String) : List Nat :=
  expression.data.flatMap fun c => utf8Encode c.toNat

/-- The conversion `[]rune(expression)`. -/
def goRunes (expression : String) : List Char := expression.data

/-! ## The store (`internal/db/db.go`) -/

/-- A row of table `tasks`; `result` is NULL until the task is processed. -/
structure TaskRow (F : Type) where
  id : Int
  expression_id : Int
  arg1 : F
  arg2 : F
  operation : String
  processed : Bool
  result : Option F

/-- A row of table `expressions`. -/
structure ExpressionRow (F : Type) where
  id : Int
  user_id : Int
  expression : String
  status : String
  result : F

/-- The database: both tables, and for the coming SQL statements whether the
engine reports an error (`true`); once the list is used up statements succeed. -/
structure Database (F : Type) where
  tasks : List (TaskRow F)
  expressions : List (ExpressionRow F)
  faults : List Bool

namespace Database

variable {F : Type}

/-- One SQL statement reaches the engine: its error flag, and the store with
that flag consumed. -/
def exec (d : Database F) : Bool × Database F :=
  (d.faults.headD false, { d with faults := d.faults.tail })

/-- The id `AUTOINCREMENT` gives the next row of `tasks`. -/
def nextTaskID (d : Database F) : Int :=
  (d.tasks.map (·.id)).foldl max 0 + 1

/-- Method `SaveTask`: `INSERT INTO tasks (expression_id, arg1, arg2, operation)`;
returns the new id, or `none` for `(0, err)`. -/
def SaveTask (d : Database F) (expressionID : Int) (arg1 arg2 : F) (operation : String) :
    Database F × Option Int :=
  if d.exec.1 then (d.exec.2, none)
  else
    ({ d.exec.2 with
        tasks := d.tasks ++
          [{ id := d.nextTaskID, expression_id := expressionID, arg1 := arg1, arg2 := arg2,
             operation := operation, processed := false, result := none }] },
      some d.nextTaskID)

/-- Method `UpdateTaskResult`: `UPDATE tasks SET processed = TRUE, result = ? WHERE id = ?`;
the flag is `err != nil`. -/
def UpdateTaskResult (d : Database F) (taskID : Int) (result : F) : Database F × Bool :=
  if d.exec.1 then (d.exec.2, true)
  else
    ({ d.exec.2 with
        tasks := d.tasks.map fun r =>
          if r.id = taskID then { r with processed := true, result := some result } else r },
      false)

/-- Method `GetTaskResult`: `SELECT result, processed FROM tasks WHERE id = ?`;
`none` is an error (engine error, no such row, or a NULL result). -/
def GetTaskResult (d : Database F) (taskID : Int) : Database F × Option (F × Bool) :=
  if d.exec.1 then (d.exec.2, none)
  else
    match d.tasks.find? (fun r => r.id = taskID) with
    | some r =>
      match r.result with
      | some v => (d.exec.2, some (v, r.processed))
      | none => (d.exec.2, none)
    | none => (d.exec.2, none)

/-- Method `GetUnprocessedTasks`: `SELECT ... FROM tasks WHERE processed = FALSE LIMIT ?`
(a negative limit is no limit); `none` is an error. -/
def GetUnprocessedTasks (d : Database F) (limit : Int) : Database F × Option (List (TaskRow F)) :=
  if d.exec.1 then (d.exec.2, none)
  else
    (d.exec.2,
      some (if limit < 0 then d.tasks.filter (fun r => r.processed = false)
            else (d.tasks.filter (fun r => r.processed = false)).take limit.toNat))

/-- Method `SaveExpression`: count the rows with this id, then `UPDATE` them or
`INSERT` a new row; the flag is `err != nil`. -/
def SaveExpression (d : Database F) (id userID : Int) (expression status : String)
    (result : F) : Database F × Bool :=
  if d.exec.1 then (d.exec.2, true)
  else if d.exec.2.exec.1 then (d.exec.2.exec.2, true)
  else if (d.expressions.filter (fun r => r.id = id)).length > 0 then
    ({ d.exec.2.exec.2 with
        expressions := d.expressions.map fun r =>
          if r.id = id then { r with expression := expression, status := status, result := result }
          else r },
      false)
  else
    ({ d.exec.2.exec.2 with
        expressions := d.expressions ++
          [{ id := id, user_id := userID, expression := expression, status := status,
             result := result }] },
      false)

end Database

/-! ## Process state (`internal/orch/orch.go`) -/

/-- Message `pb.Task`. -/
structure PbTask (F : Type) where
  Id : Int
  Arg1 : F
  Arg2 : F
  Operation : String
  OperationTime : Int
  HasTask : Bool

/-- Message `pb.TaskResult`; `Id` is an `int32`. -/
structure TaskResult (F : Type) where
  Id : Int
  Result : F

/-- Message `pb.TaskResponse`. -/
structure TaskResponse where
  Success : Bool
deriving DecidableEq

/-- The store singleton and the package variables `taskQueue` (a channel of
capacity 100, oldest first), `chTaskResults` (each registered channel with the
values it buffers; all are made with capacity 1) and `mu` (`true`: locked). -/
structure World (F : Type) where
  db : Database F
  taskQueue : List (PbTask F)
  chTaskResults : Int → Option (List F)
  mu : Bool

/-- What lies outside the goroutine being run: the configuration reader
`pkg.GetEnvInt`, and what the other goroutines do to the process state while
this one is parked. -/
structure Env (F : Type) where
  GetEnvInt : String → Int → Int
  others : World F → World F

/-- A store call or channel operation performed by the Reducer. -/
inductive Event (F : Type) where
  | SaveTask (expressionID : Int) (arg1 arg2 : F) (operation : String) (taskID : Option Int)
  | enqueue (task : PbTask F)
  | receive (expressionID : Int) (value : F)
  | SaveExpression (id userID : Int) (expression status : String) (result : F)

/-- How a call ends. -/
inductive Outcome (α : Type) where
  | returned (value : α)
  | blocked
  | panicked

/-- A run of a piece of code: how it ended, the state it left, the calls it made. -/
structure Exec (F α : Type) where
  outcome : Outcome α
  world : World F
  log : List (Event F)

variable {F : Type}

/-- A blocking operation. When it cannot proceed the goroutine is parked, the
others run, and it is attempted again; `none` when it still cannot proceed. -/
def await {α : Type} (env : Env F) (attempt : World F → Option (α × World F)) (w : World F) :
    Option α × World F :=
  match attempt w with
  | some (a, w1) => (some a, w1)
  | none =>
    match attempt (env.others w) with
    | some (a, w1) => (some a, w1)
    | none => (none, env.others w)

/-- Attempt of `mu.Lock()`. -/
def tryLock (w : World F) : Option (Unit × World F) :=
  if w.mu then none else some ((), { w with mu := true })

/-- Statement `mu.Unlock()`. -/
def unlock (w : World F) : World F := { w with mu := false }

/-- Attempt of `taskQueue <- task`. -/
def trySendTask (task : PbTask F) (w : World F) : Option (Unit × World F) :=
  if w.taskQueue.length < 100 then some ((), { w with taskQueue := w.taskQueue ++ [task] })
  else none

/-- Attempt of `ch <- value` on the channel registered under `key`. -/
def trySendResult (key : Int) (value : F) (w : World F) : Option (Unit × World F) :=
  match w.chTaskResults key with
  | some buf =>
    if buf.length < 1 then
      some ((), { w with chTaskResults := Function.update w.chTaskResults key (some (buf ++ [value])) })
    else none
  | none => none

/-- Attempt of `<-ch` on the channel registered under `key`. -/
def tryReceive (key : Int) (w : World F) : Option (F × World F) :=
  match w.chTaskResults key with
  | some (v :: rest) =>
    some (v, { w with chTaskResults := Function.update w.chTaskResults key (some rest) })
  | _ => none

/-- Function `getOperationTime`. -/
def getOperationTime (env : Env F) (op : String) : Int :=
  if op = "+" then env.GetEnvInt "TIME_ADDITION_MS" 100
  else if op = "-" then env.GetEnvInt "TIME_SUBTRACTION_MS" 100
  else if op = "*" then env.GetEnvInt "TIME_MULTIPLICATIONS_MS" 200
  else if op = "/" then env.GetEnvInt "TIME_DIVISIONS_MS" 300
  else 100

/-- Method `TaskServer.SendTaskResult`. -/
def SendTaskResult (env : Env F) (result : TaskResult F) (w : World F) :
    Outcome TaskResponse × World F :=
  if (w.db.UpdateTaskResult result.Id result.Result).2 then
    (.returned { Success := false },
      { w with db := (w.db.UpdateTaskResult result.Id result.Result).1 })
  else
    match await env tryLock { w with db := (w.db.UpdateTaskResult result.Id result.Result).1 } with
    | (none, w1) => (.blocked, w1)
    | (some _, w1) =>
      -- ch, exists := chTaskResults[int(result.Id)]
      if (w1.chTaskResults result.Id).isSome then
        match await env (trySendResult result.Id result.Result) (unlock w1) with
        | (none, w2) => (.blocked, w2)
        | (some _, w2) => (.returned { Success := true }, w2)
      else (.returned { Success := true }, unlock w1)

/-- Function `addTask`; the first component of the value is `-1` when the task
could not be saved. -/
def addTask [Float64 F] (env : Env F) (expressionID : Int) (op : String) (arg1 arg2 : F)
    (w : World F) : Exec F (Int × F) :=
  match w.db.SaveTask expressionID arg1 arg2 op with
  | (db1, none) =>
    ⟨.returned (-1, Float64.ofNat 0), { w with db := db1 },
      [.SaveTask expressionID arg1 arg2 op none]⟩
  | (db1, some taskID) =>
    let task : PbTask F :=
      { Id := int32 taskID, Arg1 := arg1, Arg2 := arg2, Operation := op,
        OperationTime := int32 (getOperationTime env op), HasTask := true }
    match await env (trySendTask task) { w with db := db1 } with
    | (none, w1) => ⟨.blocked, w1, [.SaveTask expressionID arg1 arg2 op (some taskID)]⟩
    | (some _, w1) =>
      match await env tryLock w1 with
      | (none, w2) =>
        ⟨.blocked, w2, [.SaveTask expressionID arg1 arg2 op (some taskID), .enqueue task]⟩
      | (some _, w2) =>
        -- ch := chTaskResults[expressionID]: a nil channel when the key is absent
        if (w2.chTaskResults expressionID).isSome then
          match await env (tryReceive expressionID) (unlock w2) with
          | (none, w3) =>
            ⟨.blocked, w3, [.SaveTask expressionID arg1 arg2 op (some taskID), .enqueue task]⟩
          | (some result, w3) =>
            ⟨.returned (taskID, result), w3,
              [.SaveTask expressionID arg1 arg2 op (some taskID), .enqueue task,
               .receive expressionID result]⟩
        else
          ⟨.blocked, unlock w2, [.SaveTask expressionID arg1 arg2 op (some taskID), .enqueue task]⟩

/-- Function `compute` of the worker (`internal/agent/agent.go`). -/
def compute [Float64 F] (arg1 arg2 : F) (op : String) : F :=
  if op = "+" then Float64.add arg1 arg2
  else if op = "-" then Float64.sub arg1 arg2
  else if op = "*" then Float64.mul arg1 arg2
  else if op = "/" then
    if !Float64.eqZero arg2 then Float64.div arg1 arg2 else Float64.ofNat 0
  else Float64.ofNat 0

/-! ## The Reducer: `parseExpression` -/

/-- The tokenizer loop of `parseExpression` from index `i` on, where `bytes` are
the bytes `expression[i:]`; `none` when `[]rune(expression)[i]` is out of range. -/
def tokenize [Float64 F] (runes : List Char) :
    List Nat → Nat → List Char → List F → Option (List Char × List F)
  | [], _, operations, numbers => some (operations, numbers)
  | b :: bytes, i, operations, numbers =>
    if b = 42 ∨ b = 47 ∨ b = 43 ∨ b = 45 then
      match runes[i]? with
      | some r => tokenize runes bytes (i + 1) (operations ++ [r]) numbers
      | none => none
    else if (b + 256 - 48) % 256 ≤ 9 then
      tokenize runes bytes (i + 1) operations (numbers ++ [Float64.ofNat ((b + 256 - 48) % 256)])
    else tokenize runes bytes (i + 1) operations numbers

/-- The exit `database.SaveExpression(id, userID, expression, "error", 0); return`. -/
def fail [Float64 F] {α : Type} (id userID : Int) (expression : String) (w : World F)
    (log : List (Event F)) : Exec F (Option α) :=
  ⟨.returned none,
    { w with db := (w.db.SaveExpression id userID expression "error" (Float64.ofNat 0)).1 },
    log ++ [.SaveExpression id userID expression "error" (Float64.ofNat 0)]⟩

/-- The head of a `case` body: `taskID, res := addTask(id, op, numbers[i], numbers[i+1])`
followed by the exit on `taskID == -1`. The value is `res` with the state and
log reached, or the run with which `parseExpression` ends here. -/
def reduce [Float64 F] {α : Type} (env : Env F) (id userID : Int) (expression : String)
    (op : String) (i : Nat) (numbers : List F) (w : World F) (log : List (Event F)) :
    Except (Exec F (Option α)) (F × World F × List (Event F)) :=
  match numbers[i]?, numbers[i + 1]? with
  | some a, some b =>
    match (addTask env id op a b w).outcome with
    | .returned (taskID, res) =>
      if taskID = -1 then
        .error (fail id userID expression (addTask env id op a b w).world
          (log ++ (addTask env id op a b w).log))
      else .ok (res, (addTask env id op a b w).world, log ++ (addTask env id op a b w).log)
    | .blocked =>
      .error ⟨.blocked, (addTask env id op a b w).world, log ++ (addTask env id op a b w).log⟩
    | .panicked =>
      .error ⟨.panicked, (addTask env id op a b w).world, log ++ (addTask env id op a b w).log⟩
  | _, _ => .error ⟨.panicked, w, log⟩

/-- The first loop of `parseExpression` (`*` and `/`) from index `i` on. The value
`some (numbers, operations)` is the state at the end of the loop, `none` means
that `parseExpression` returned inside the loop. -/
def firstPass [Float64 F] (env : Env F) (id userID : Int) (expression : String) (i : Nat)
    (numbers : List F) (operations : List Char) (w : World F) (log : List (Event F)) :
    Exec F (Option (List F × List Char)) :=
  if h : i < operations.length then
    if operations[i] = '*' then
      match reduce env id userID expression "*" i numbers w log with
      | .ok (res, w1, log1) =>
        firstPass env id userID expression i
          (numbers.take i ++ [res] ++ numbers.drop (i + 2))
          (operations.take i ++ operations.drop (i + 1)) w1 log1
      | .error e => e
    else if operations[i] = '/' then
      match numbers[i + 1]? with
      | some b =>
        if Float64.eqZero b then fail id userID expression w log
        else
          match reduce env id userID expression "/" i numbers w log with
          | .ok (res, w1, log1) =>
            firstPass env id userID expression i
              (numbers.take i ++ [res] ++ numbers.drop (i + 2))
              (operations.take i ++ operations.drop (i + 1)) w1 log1
          | .error e => e
      | none => ⟨.panicked, w, log⟩
    else firstPass env id userID expression (i + 1) numbers operations w log
  else ⟨.returned (some (numbers, operations)), w, log⟩
termination_by operations.length - i
decreasing_by
  all_goals try simp only [List.length_append, List.length_take, List.length_drop]
  all_goals omega

/-- The second loop of `parseExpression` (`+` and `-`) from index `i` on. -/
def secondPass [Float64 F] (env : Env F) (id userID : Int) (expression : String) (i : Nat)
    (numbers : List F) (operations : List Char) (w : World F) (log : List (Event F)) :
    Exec F (Option (List F × List Char)) :=
  if h : i < operations.length then
    if operations[i] = '+' then
      match reduce env id userID expression "+" i numbers w log with
      | .ok (res, w1, log1) =>
        secondPass env id userID expression i
          (numbers.take i ++ [res] ++ numbers.drop (i + 2))
          (operations.take i ++ operations.drop (i + 1)) w1 log1
      | .error e => e
    else if operations[i] = '-' then
      match reduce env id userID expression "-" i numbers w log with
      | .ok (res, w1, log1) =>
        secondPass env id userID expression i
          (numbers.take i ++ [res] ++ numbers.drop (i + 2))
          (operations.take i ++ operations.drop (i + 1)) w1 log1
      | .error e => e
    else secondPass env id userID expression (i + 1) numbers operations w log
  else ⟨.returned (some (numbers, operations)), w, log⟩
termination_by operations.length - i
decreasing_by
  all_goals try simp only [List.length_append, List.length_take, List.length_drop]
  all_goals omega

/-- The end of `parseExpression`, after the loops:
`database.SaveExpression(id, userID, expression, "completed", numbers[0])`. -/
def complete (id userID : Int) (expression : String) (numbers : List F) (w : World F)
    (log : List (Event F)) : Exec F Unit :=
  match numbers[0]? with
  | some v =>
    ⟨.returned (),
      { w with db := (w.db.SaveExpression id userID expression "completed" v).1 },
      log ++ [.SaveExpression id userID expression "completed" v]⟩
  | none => ⟨.panicked, w, log⟩

/-- Function `parseExpression`. -/
def parseExpression [Float64 F] (env : Env F) (id userID : Int) (expression : String)
    (w : World F) : Exec F Unit :=
  match tokenize (goRunes expression) (goBytes expression) 0 [] [] with
  | none => ⟨.panicked, w, []⟩
  | some (operations, numbers) =>
    if numbers.length ≠ operations.length + 1 then
      ⟨.returned (),
        { w with db := (w.db.SaveExpression id userID expression "error" (Float64.ofNat 0)).1 },
        [.SaveExpression id userID expression "error" (Float64.ofNat 0)]⟩
    else
      match firstPass env id userID expression 0 numbers operations w [] with
      | ⟨.returned (some (numbers1, operations1)), w1, log1⟩ =>
        match secondPass env id userID expression 0 numbers1 operations1 w1 log1 with
        | ⟨.returned (some (numbers2, _)), w2, log2⟩ =>
          complete id userID expression numbers2 w2 log2
        | ⟨.returned none, w2, log2⟩ => ⟨.returned (), w2, log2⟩
        | ⟨.blocked, w2, log2⟩ => ⟨.blocked, w2, log2⟩
        | ⟨.panicked, w2, log2⟩ => ⟨.panicked, w2, log2⟩
      | ⟨.returned none, w1, log1⟩ => ⟨.returned (), w1, log1⟩
      | ⟨.blocked, w1, log1⟩ => ⟨.blocked, w1, log1⟩
      | ⟨.panicked, w1, log1⟩ => ⟨.panicked, w1, log1⟩

/-! ## Vocabulary of the specification -/

/-- An operator character. -/
def isOperator (c : Char) : Bool := c = '*' || c = '/' || c = '+' || c = '-'

/-- A digit character. -/
def isDigit (c : Char) : Bool := decide (48 ≤ c.toNat) && decide (c.toNat ≤ 57)

/-- The operator characters of the text, in order. -/
def operators (expression : String) : List Char := expression.data.filter isOperator

/-- The values of the digit characters of the text, in order. -/
def digits (expression : String) : List Nat :=
  (expression.data.filter isDigit).map fun c => c.toNat - 48

/-- The text is ASCII. -/
def IsASCII (expression : String) : Prop := ∀ c ∈ expression.data, c.toNat < 128

/-- The operators of the text, each with its right operand. -/
def rightOperands (expression : String) : List (Char × Nat) :=
  (operators expression).zip (digits expression).tail

/-- No `/` of the text has 0 as its right operand. -/
def NoZeroDivisor (expression : String) : Prop :=
  ∀ p ∈ rightOperands expression, p.1 = '/' → p.2 ≠ 0

/-- Some `/` of the text has 0 as its right operand. -/
def HasZeroDivisor (expression : String) : Prop :=
  ∃ p ∈ rightOperands expression, p.1 = '/' ∧ p.2 = 0

/-- Specification: the terms of `t o1 d1 o2 d2 ...`, every maximal run of `*` and
`/` replaced by its value computed from left to right; the value of the leading
term, then the other terms with the `+` or `-` in front of each. -/
def evalTerms [Float64 F] (t : F) : List (Char × F) → F × List (Char × F)
  | [] => (t, [])
  | (o, d) :: r =>
    if o = '*' then evalTerms (Float64.mul t d) r
    else if o = '/' then evalTerms (Float64.div t d) r
    else (t, (o, (evalTerms d r).1) :: (evalTerms d r).2)

/-- Specification: the terms added and subtracted from left to right. -/
def evalSum [Float64 F] (s : F) : List (Char × F) → F
  | [] => s
  | (o, v) :: r => if o = '+' then evalSum (Float64.add s v) r else evalSum (Float64.sub s v) r

/-- The first operand of the text and its operators, each with its right operand,
as values. -/
def chainOf [Float64 F] (expression : String) : F × List (Char × F) :=
  (Float64.ofNat ((digits expression).headD 0),
    (rightOperands expression).map fun p => (p.1, Float64.ofNat p.2))

/-- Specification: the value of `d0 o1 d1 ... on dn` with `*` and `/` binding
tighter than `+` and `-`, operators of equal precedence associating to the left. -/
def value [Float64 F] (expression : String) : F :=
  evalSum (evalTerms (chainOf expression).1 (chainOf expression).2).1
    (evalTerms (chainOf expression).1 (chainOf expression).2).2

/-! ## Conditions on the state and on the other goroutines -/

/-- The Reducer of expression `id` does not have to wait for the mutex or for
room in the queue, and the future of `id` is registered and empty. -/
def Ready (id : Int) (w : World F) : Prop :=
  w.mu = false ∧ w.taskQueue.length < 100 ∧ w.chTaskResults id = some []

/-- While the Reducer of `id` waits on its empty future with `t` the task last
enqueued, the other goroutines write `ans t.Arg1 t.Arg2 t.Operation` into that
future, and leave the mutex free and room in the queue. -/
def Answers (env : Env F) (id : Int) (ans : F → F → String → F) : Prop :=
  ∀ (w : World F) (t : PbTask F), w.mu = false → w.taskQueue.getLast? = some t →
    w.chTaskResults id = some [] →
    (env.others w).chTaskResults id = some [ans t.Arg1 t.Arg2 t.Operation] ∧
      (env.others w).mu = false ∧ (env.others w).taskQueue.length < 100

/-- The other goroutines do not make the store fail. -/
def KeepsStore (env : Env F) : Prop :=
  ∀ w : World F, w.db.faults = [] → (env.others w).db.faults = []

/-! ## The runs of the Reducer, described on the token sequences -/

/-- The task `addTask` builds. -/
def newTask (env : Env F) (taskID : Int) (a b : F) (op : String) : PbTask F :=
  { Id := int32 taskID, Arg1 := a, Arg2 := b, Operation := op,
    OperationTime := int32 (getOperationTime env op), HasTask := true }

/-- The events of one reduction step that is answered. -/
def stepEvents (env : Env F) (id : Int) (ans : F → F → String → F) (taskID : Int)
    (a b : F) (op : String) : List (Event F) :=
  [.SaveTask id a b op (some taskID), .enqueue (newTask env taskID a b op),
   .receive id (ans a b op)]

/-- The state in which `addTask` waits for the result. -/
def parkedAt (env : Env F) (id : Int) (op : String) (a b : F) (w : World F) : World F :=
  { db := (w.db.SaveTask id a b op).1,
    taskQueue := w.taskQueue ++ [newTask env w.db.nextTaskID a b op],
    chTaskResults := w.chTaskResults, mu := false }

/-- The first loop seen on the chain of (operator, right operand) pairs: the
value of the leading term and the remaining terms with their `+`/`-`. -/
def termsA (ans : F → F → String → F) (t : F) : List (Char × F) → F × List (Char × F)
  | [] => (t, [])
  | (o, d) :: r =>
    if o = '*' then termsA ans (ans t d "*") r
    else if o = '/' then termsA ans (ans t d "/") r
    else (t, (o, (termsA ans d r).1) :: (termsA ans d r).2)

/-- The tasks of the first loop. -/
def mulTasks (ans : F → F → String → F) (t : F) : List (Char × F) → List (F × F × String)
  | [] => []
  | (o, d) :: r =>
    if o = '*' then (t, d, "*") :: mulTasks ans (ans t d "*") r
    else if o = '/' then (t, d, "/") :: mulTasks ans (ans t d "/") r
    else mulTasks ans d r

/-- The tasks of the second loop, on the terms. -/
def sumTasks (ans : F → F → String → F) (s : F) : List (Char × F) → List (F × F × String)
  | [] => []
  | (o, v) :: r =>
    if o = '+' then (s, v, "+") :: sumTasks ans (ans s v "+") r
    else (s, v, "-") :: sumTasks ans (ans s v "-") r

/-- The value the second loop ends with. -/
def sumA (ans : F → F → String → F) (s : F) : List (Char × F) → F
  | [] => s
  | (o, v) :: r => if o = '+' then sumA ans (ans s v "+") r else sumA ans (ans s v "-") r

/-- The events of a sequence of reduction steps with the given task ids. -/
def runEvents (env : Env F) (id : Int) (ans : F → F → String → F) :
    List Int → List (F × F × String) → List (Event F)
  | tid :: tids, (a, b, op) :: ts => stepEvents env id ans tid a b op ++ runEvents env id ans tids ts
  | _, _ => []


/-- The tasks a run dispatches when every step is answered by `ans`. -/
def tasksOf [Float64 F] (ans : F → F → String → F) (expression : String) : List (F × F × String) :=
  mulTasks ans (chainOf expression).1 (chainOf expression).2 ++
    sumTasks ans (termsA ans (chainOf expression).1 (chainOf expression).2).1
      (termsA ans (chainOf expression).1 (chainOf expression).2).2

/-- The value a run ends with when every step is answered by `ans`. -/
def resultOf [Float64 F] (ans : F → F → String → F) (expression : String) : F :=
  sumA ans (termsA ans (chainOf expression).1 (chainOf expression).2).1
    (termsA ans (chainOf expression).1 (chainOf expression).2).2

/-- Other goroutines that take the queued tasks and answer the last one through
the future of `id`. -/
def answering (id : Int) (ans : F → F → String → F) : Env F where
  GetEnvInt := fun _ d => d
  others := fun w =>
    match w.taskQueue.getLast? with
    | some t =>
      { w with
          taskQueue := []
          chTaskResults :=
            Function.update w.chTaskResults id (some [ans t.Arg1 t.Arg2 t.Operation]) }
    | none => w

/-- An empty store, an empty queue, a free mutex and one registered future. -/
def freshWorld (id : Int) : World F :=
  { db := { tasks := [], expressions := [], faults := [] }, taskQueue := [],
    chTaskResults := fun k => if k = id then some [] else none, mu := false }

/-- Other goroutines that do nothing. -/
def idle : Env F where
  GetEnvInt := fun _ d => d
  others := fun w => w

/-- Two expressions in progress: task 2 belongs to expression 1; the futures of
expressions 1 and 2 are registered and empty. -/
def twoExpressions : World ℚ :=
  { db :=
      { tasks :=
          [{ id := 1, expression_id := 1, arg1 := 2, arg2 := 3, operation := "*",
             processed := true, result := some 6 },
           { id := 2, expression_id := 1, arg1 := 6, arg2 := 1, operation := "+",
             processed := false, result := none }]
        expressions :=
          [{ id := 1, user_id := 1, expression := "2*3+1", status := "processing", result := 0 },
           { id := 2, user_id := 1, expression := "4-1", status := "processing", result := 0 }]
        faults := [] }
    taskQueue := []
    chTaskResults := fun k => if k = 1 ∨ k = 2 then some [] else none
    mu := false }

/-- A registry in which the future of expression 7 already holds the value 99. -/
def waitingValue : World ℚ :=
  { db := { tasks := [], expressions := [], faults := [] }, taskQueue := [],
    chTaskResults := fun k => if k = 7 then some [99] else none, mu := false }

/-- A store in which task 1 is processed with result 5. -/
def processedTask : World ℚ :=
  { db :=
      { tasks :=
          [{ id := 1, expression_id := 1, arg1 := 2, arg2 := 3, operation := "+",
             processed := true, result := some 5 }]
        expressions :=
          [{ id := 1, user_id := 1, expression := "2+3", status := "completed", result := 5 }]
        faults := [] }
    taskQueue := []
    chTaskResults := fun _ => none
    mu := false }

/-- Task 3 is unprocessed and the future registered under 3 holds an unread value. -/
def occupiedFuture : World ℚ :=
  { db :=
      { tasks :=
          [{ id := 3, expression_id := 3, arg1 := 4, arg2 := 4, operation := "+",
             processed := false, result := none }]
        expressions :=
          [{ id := 3, user_id := 1, expression := "4+4", status := "processing", result := 0 }]
        faults := [] }
    taskQueue := []
    chTaskResults := fun k => if k = 3 then some [1] else none
    mu := false }

/-- Task 5 is processed with result 20, and that value is still unread in the
future registered under 5. -/
def unreadResult : World ℚ :=
  { db :=
      { tasks :=
          [{ id := 5, expression_id := 5, arg1 := 4, arg2 := 5, operation := "*",
             processed := true, result := some 20 }]
        expressions :=
          [{ id := 5, user_id := 1, expression := "4*5", status := "processing", result := 0 }]
        faults := [] }
    taskQueue := []
    chTaskResults := fun k => if k = 5 then some [20] else none
    mu := false }

/-- The event creates or enqueues a task that divides by zero. -/
def dividesByZero [Float64 F] : Event F → Bool
  | .SaveTask _ _ b op _ => decide (op = "/") && Float64.eqZero b
  | .enqueue t => decide (t.Operation = "/") && Float64.eqZero t.Arg2
  | _ => false

/-- The event is a write of the expression record. -/
def isSaveExpression : Event F → Bool
  | .SaveExpression _ _ _ _ _ => true
  | _ => false

/-- The operator is `*` or `/`. -/
def isMulDiv (c : Char) : Bool := c = '*' || c = '/'

/-- The operator is `+` or `-`. -/
def isAddSub (c : Char) : Bool := c = '+' || c = '-'

/-- The tasks sent to the dispatch queue, in order, as (left operand, right
operand, operator). -/
def dispatched (log : List (Event F)) : List (F × F × String) :=
  log.filterMap fun ev =>
    match ev with
    | .enqueue t => some (t.Arg1, t.Arg2, t.Operation)
    | _ => none

/-- The left operand the first loop has reached after the chain. -/
def accA (ans : F → F → String → F) (t : F) : List (Char × F) → F
  | [] => t
  | (o, d) :: r =>
    if o = '*' then accA ans (ans t d "*") r
    else if o = '/' then accA ans (ans t d "/") r
    else accA ans d r

/-- The reply `&pb.Task{HasTask: false}`. -/
def noTask [Float64 F] : PbTask F :=
  { Id := 0, Arg1 := Float64.ofNat 0, Arg2 := Float64.ofNat 0, Operation := "",
    OperationTime := 0, HasTask := false }

/-- Method `TaskServer.GetTask`: the task replied, the flag `err != nil` of the
call, and the state left. -/
def GetTask [Float64 F] (env : Env F) (w : World F) : (PbTask F × Bool) × World F :=
  match w.taskQueue with
  | task :: rest => ((task, false), { w with taskQueue := rest })
  | [] =>
    match (w.db.GetUnprocessedTasks 1).2 with
    | none => ((noTask, false), { w with db := (w.db.GetUnprocessedTasks 1).1 })
    | some [] => ((noTask, false), { w with db := (w.db.GetUnprocessedTasks 1).1 })
    | some (task :: _) =>
      (({ Id := int32 task.id, Arg1 := task.arg1, Arg2 := task.arg2, Operation := task.operation,
          OperationTime := int32 (getOperationTime env task.operation), HasTask := true }, false),
        { w with db := (w.db.GetUnprocessedTasks 1).1 })

/-- The replies of `n` successive calls of `GetTask`, and the state left. -/
def GetTasks [Float64 F] (env : Env F) : Nat → World F → List (PbTask F) × World F
  | 0, w => ([], w)
  | n + 1, w =>
    ((GetTask env w).1.1 :: (GetTasks env n (GetTask env w).2).1,
      (GetTasks env n (GetTask env w).2).2)

/-- The value fits in an `int32`. -/
def FitsInt32 (n : Int) : Prop := -2147483648 ≤ n ∧ n < 2147483648

/-- A store whose only unprocessed task has the id 2147483648, and a configured
addition time of 3000000000 ms. -/
def largeValues : Env ℚ × World ℚ :=
  ({ GetEnvInt := fun key d => if key = "TIME_ADDITION_MS" then 3000000000 else d,
     others := fun w => w },
   { db :=
      { tasks :=
          [{ id := 2147483648, expression_id := 1, arg1 := 5, arg2 := 5, operation := "+",
             processed := false, result := none }]
        expressions :=
          [{ id := 1, user_id := 1, expression := "5+5", status := "processing", result := 0 }]
        faults := [] }
     taskQueue := []
     chTaskResults := fun _ => none
     mu := false })

/-- The state of `TestGetTask`: an empty queue and the stored unprocessed task
(5,5,+) of id 1. -/
def storedTask : World ℚ :=
  { db :=
      { tasks :=
          [{ id := 1, expression_id := 1, arg1 := 5, arg2 := 5, operation := "+",
             processed := false, result := none }]
        expressions :=
          [{ id := 1, user_id := 1, expression := "5+5", status := "processing", result := 0 }]
        faults := [] }
    taskQueue := []
    chTaskResults := fun _ => none
    mu := false }

/-- The protocol of the reduction steps, read along a log; the state tells
whether a created task still awaits its result. A task may be created only when
none is outstanding; it is enqueued and its result read only while it is
outstanding. `none` when the log breaks the protocol. -/
def alternates : Bool → List (Event F) → Option Bool
  | s, [] => some s
  | false, .SaveTask _ _ _ _ (some _) :: r => alternates true r
  | false, .SaveTask _ _ _ _ none :: r => alternates false r
  | true, .enqueue _ :: r => alternates true r
  | true, .receive _ _ :: r => alternates false r
  | s, .SaveExpression _ _ _ _ _ :: r => alternates s r
  | _, _ => none

/-- The log holds no write of the expression record. -/
def NoWrite (log : List (Event F)) : Prop := ∀ ev ∈ log, isSaveExpression ev = false

/-- A stretch of a run without a write of the expression record that keeps the
protocol; when `closed`, it leaves no task outstanding. -/
def Quiet (closed : Bool) (log : List (Event F)) : Prop :=
  NoWrite log ∧
    if closed then alternates false log = some false else (alternates false log).isSome = true

/-- The three ways a stretch of `parseExpression` behaves, whatever the text `e`
it is run for, starting from the log `log`: it goes on with a value, it leaves
through the exit that saves "error", or it does not return. -/
def StretchForm [Float64 F] {α : Type} (id userID : Int)
    (run : String → Exec F (Option α)) (log : List (Event F)) : Prop :=
  (∃ a w1 L, Quiet true L ∧ ∀ e, run e = ⟨.returned (some a), w1, log ++ L⟩) ∨
  (∃ w1 L, Quiet true L ∧ ∀ e, run e = fail id userID e w1 (log ++ L)) ∨
  (∃ o w1 L, (o = .blocked ∨ o = .panicked) ∧ Quiet false L ∧ ∀ e, run e = ⟨o, w1, log ++ L⟩)

/-- The two ways `parseExpression` behaves on a text with the given tokens,
whatever the text: it returns after one last call that writes the expression
record, or it does not return and writes nothing. -/
def RunForm [Float64 F] (env : Env F) (id userID : Int) (w : World F)
    (operations : List Char) (numbers : List F) : Prop :=
  (∃ (w1 : World F) (L : List (Event F)) (status : String) (result : F), Quiet true L ∧
    (status = "completed" ∨ (status = "error" ∧ result = Float64.ofNat 0)) ∧
    ∀ e, tokenize (goRunes e) (goBytes e) 0 [] [] = some (operations, numbers) →
      parseExpression env id userID e w =
        ⟨.returned (),
          { w1 with db := (w1.db.SaveExpression id userID e status result).1 },
          L ++ [.SaveExpression id userID e status result]⟩) ∨
  (∃ (o : Outcome Unit) (w1 : World F) (L : List (Event F)),
    (o = .blocked ∨ o = .panicked) ∧ Quiet false L ∧
    ∀ e, tokenize (goRunes e) (goBytes e) 0 [] [] = some (operations, numbers) →
      parseExpression env id userID e w = ⟨o, w1, L⟩)

/-- The value of `SELECT COALESCE(MAX(id), 0) FROM expressions`. -/
def Database.maxExpressionID (d : Database F) : Int :=
  match d.expressions.map (·.id) with
  | [] => 0
  | x :: xs => xs.foldl max x

/-- Method `GetLastExpressionID`; `none` for `(0, err)`. -/
def Database.GetLastExpressionID (d : Database F) : Database F × Option Int :=
  if d.exec.1 then (d.exec.2, none) else (d.exec.2, some d.maxExpressionID)

/-- What `handleCalculate` reads of the request: the `expression` field when the
body decodes (`none` when `Decode` fails), and the user id the authentication
middleware put into the context (`none` when there is none). -/
structure CalcRequest where
  body : Option String
  userID : Option Int

/-- The answer of `handleCalculate`: the status code, and the `id` of the JSON
body when there is one. -/
structure CalcResponse where
  status : Nat
  id : Option Int
deriving DecidableEq

/-- A step of a handler, by kind: a call of a store method, a channel send or
receive, `mu.Lock()`, an access to the map `chTaskResults`, `mu.Unlock()`. -/
inductive Step where
  | store
  | send
  | receive
  | lock
  | registry
  | unlock
deriving DecidableEq

/-- A run of `handleCalculate`: how it ended, the state it left, the goroutine
`go parseExpression(expressionID, userID, req.Expr)` it started, its steps. -/
structure Handled (F : Type) where
  outcome : Outcome CalcResponse
  world : World F
  spawned : Option (Int × Int × String)
  steps : List Step

/-- Function `handleCalculate`. -/
def handleCalculate [Float64 F] (env : Env F) (req : CalcRequest) (w : World F) : Handled F :=
  match req.body with
  | none => ⟨.returned { status := 400, id := none }, w, none, []⟩
  | some expr =>
    match req.userID with
    | none => ⟨.returned { status := 401, id := none }, w, none, []⟩
    | some userID =>
      match w.db.GetLastExpressionID with
      | (db1, none) => ⟨.returned { status := 500, id := none }, { w with db := db1 }, none, [.store]⟩
      | (db1, some lastID) =>
        match await env tryLock { w with db := db1 } with
        | (none, w1) => ⟨.blocked, w1, none, [.store]⟩
        | (some _, w1) =>
          if (w1.db.SaveExpression (lastID + 1) userID expr "processing" (Float64.ofNat 0)).2 then
            ⟨.returned { status := 500, id := none },
              { w1 with
                  db := (w1.db.SaveExpression (lastID + 1) userID expr "processing"
                    (Float64.ofNat 0)).1 },
              none, [.store, .lock, .store]⟩
          else
            ⟨.returned { status := 201, id := some (lastID + 1) },
              unlock
                { w1 with
                    db := (w1.db.SaveExpression (lastID + 1) userID expr "processing"
                      (Float64.ofNat 0)).1
                    chTaskResults := Function.update w1.chTaskResults (lastID + 1) (some []) },
              some (lastID + 1, userID, expr),
              [.store, .lock, .store, .registry, .unlock]⟩

/-- The steps of `addTask`, by kind. -/
def addTaskSteps [Float64 F] (env : Env F) (expressionID : Int) (op : String) (arg1 arg2 : F)
    (w : World F) : List Step :=
  match w.db.SaveTask expressionID arg1 arg2 op with
  | (_, none) => [.store]
  | (db1, some taskID) =>
    match await env (trySendTask (newTask env taskID arg1 arg2 op)) { w with db := db1 } with
    | (none, _) => [.store]
    | (some _, w1) =>
      match await env tryLock w1 with
      | (none, _) => [.store, .send]
      | (some _, w2) =>
        if (w2.chTaskResults expressionID).isSome then
          match await env (tryReceive expressionID) (unlock w2) with
          | (none, _) => [.store, .send, .lock, .registry, .unlock]
          | (some _, _) => [.store, .send, .lock, .registry, .unlock, .receive]
        else [.store, .send, .lock, .registry, .unlock]

/-- The steps of `SendTaskResult`, by kind. -/
def SendTaskResultSteps (env : Env F) (result : TaskResult F) (w : World F) : List Step :=
  if (w.db.UpdateTaskResult result.Id result.Result).2 then [.store]
  else
    match await env tryLock { w with db := (w.db.UpdateTaskResult result.Id result.Result).1 } with
    | (none, _) => [.store]
    | (some _, w1) =>
      if (w1.chTaskResults result.Id).isSome then
        match await env (trySendResult result.Id result.Result) (unlock w1) with
        | (none, _) => [.store, .lock, .registry, .unlock]
        | (some _, _) => [.store, .lock, .registry, .unlock, .send]
      else [.store, .lock, .registry, .unlock]

/-- The mutex discipline read along the steps of one goroutine; the state tells
whether it holds the mutex. While it holds the mutex only accesses to the
registry and the unlock are allowed. `none` when the steps break the discipline. -/
def narrow : Bool → List Step → Option Bool
  | h, [] => some h
  | false, .lock :: r => narrow true r
  | true, .registry :: r => narrow true r
  | true, .unlock :: r => narrow false r
  | false, .store :: r => narrow false r
  | false, .send :: r => narrow false r
  | false, .receive :: r => narrow false r
  | _, _ => none

/-- The kind of step an event of the Reducer is. -/
def Event.kind : Event F → Step
  | .SaveTask _ _ _ _ _ => .store
  | .enqueue _ => .send
  | .receive _ _ => .receive
  | .SaveExpression _ _ _ _ _ => .store

/-- The step is a store call or a channel operation. -/
def Step.isEffect : Step → Bool
  | .store => true
  | .send => true
  | .receive => true
  | _ => false

/-- Three tasks waiting in the dispatch queue. -/
def threeQueued : World ℚ :=
  { db := { tasks := [], expressions := [], faults := [true] }
    taskQueue :=
      [{ Id := 1, Arg1 := 2, Arg2 := 3, Operation := "*", OperationTime := 200, HasTask := true },
       { Id := 2, Arg1 := 8, Arg2 := 2, Operation := "/", OperationTime := 300, HasTask := true },
       { Id := 3, Arg1 := 6, Arg2 := 1, Operation := "+", OperationTime := 100, HasTask := true }]
    chTaskResults := fun _ => none
    mu := false }

/-- The number of tasks the log creates (`SaveTask` calls that returned an id). -/
def created : List (Event F) → Nat
  | [] => 0
  | .SaveTask _ _ _ _ (some _) :: r => created r + 1
  | _ :: r => created r

/-- The number of reads of the future in the log. -/
def awaited : List (Event F) → Nat
  | [] => 0
  | .receive _ _ :: r => awaited r + 1
  | _ :: r => awaited r

/-- The event creates a task. -/
def isCreation : Event F → Bool
  | .SaveTask _ _ _ _ (some _) => true
  | _ => false

/-- The event sends a task to the dispatch queue. -/
def isEnqueue : Event F → Bool
  | .enqueue _ => true
  | _ => false

/-- The (status, result) pairs the log writes to the expression record. -/
def persisted (log : List (Event F)) : List (String × F) :=
  log.filterMap fun ev =>
    match ev with
    | .SaveExpression _ _ _ status result => some (status, result)
    | _ => none

/-- An expression row without its source text: id, owner, status, result. -/
def ExpressionRow.withoutText (r : ExpressionRow F) : Int × Int × String × F :=
  (r.id, r.user_id, r.status, r.result)

/-- The event is no write of the expression record. -/
def isStep (ev : Event F) : Bool := !isSaveExpression ev

/-- An empty store in which the statement after the next one fails: the read of
the last expression id succeeds and the save of the new expression fails. -/
def failingSave : World ℚ :=
  { db := { tasks := [], expressions := [], faults := [false, true] }, taskQueue := [],
    chTaskResults := fun _ => none, mu := false }

/-- The step traces `handleCalculate` can leave. -/
def calculateTraces : List (List Step) :=
  [[], [.store], [.store, .lock, .store], [.store, .lock, .store, .registry, .unlock]]

/-- The row `SaveTask` inserts for a new task. -/
def newRow (expressionID taskID : Int) (a b : F) (op : String) : TaskRow F :=
  { id := taskID, expression_id := expressionID, arg1 := a, arg2 := b, operation := op,
    processed := false, result := none }

/-- The state in which an answered step of `addTask` returns: what the other
goroutines left while it waited, with the value taken out of the future. -/
def resumedAt (env : Env F) (id : Int) (op : String) (a b : F) (w : World F) : World F :=
  { env.others (parkedAt env id op a b w) with
      chTaskResults :=
        Function.update (env.others (parkedAt env id op a b w)).chTaskResults id (some []) }

/-- The row `r2` is the task of the row `r1`: they agree on all but `processed`
and `result`. -/
def sameTask (r1 r2 : TaskRow F) : Prop :=
  r2.id = r1.id ∧ r2.expression_id = r1.expression_id ∧ r2.arg1 = r1.arg1 ∧
    r2.arg2 = r1.arg2 ∧ r2.operation = r1.operation

/-- The expressions 1 and 2 are stored and the registry mutex is held by another
request, of user 2 for the text "1+1", that has read the last id 2. -/
def heldByOther : World ℚ := { twoExpressions with mu := true }

/-- Other goroutines: the request that holds the mutex goes through the rest of
`handleCalculate` with the id 3: it saves its expression, registers its future
and unlocks. -/
def finishing : Env ℚ where
  GetEnvInt := fun _ d => d
  others := fun w =>
    unlock
      { w with
          db := (w.db.SaveExpression 3 2 "1+1" "processing" 0).1
          chTaskResults := Function.update w.chTaskResults 3 (some []) }

/-! ## Lemmas -/

theorem char_eq_of_toNat (c : Char) (n : Nat) (h : c.toNat = n) : c = Char.ofNat n := by
  rw [← h, Char.ofNat_toNat]

theorem tokenize_ascii [Float64 F] (cs : List Char) (hcs : ∀ c ∈ cs, c.toNat < 128) :
    ∀ (pre : List Char) (ops : List Char) (nums : List F),
      tokenize (pre ++ cs) (cs.flatMap fun c => utf8Encode c.toNat) pre.length ops nums =
        some (ops ++ cs.filter isOperator,
          nums ++ (cs.filter isDigit).map fun c => Float64.ofNat (c.toNat - 48)) := by
  induction cs with
  | nil => intro pre ops nums; simp [tokenize]
  | cons c cs ih =>
    intro pre ops nums
    have hc : c.toNat < 128 := hcs c (List.mem_cons_self _ _)
    have hcs' : ∀ c ∈ cs, c.toNat < 128 := fun x hx => hcs x (List.mem_cons_of_mem _ hx)
    have hb : utf8Encode c.toNat = [c.toNat] := by simp [utf8Encode, hc]
    have hr : (pre ++ c :: cs)[pre.length]? = some c := by
      rw [List.getElem?_append_right (le_refl _)]; simp
    have ih' := ih hcs' (pre ++ [c])
    simp only [List.append_assoc, List.singleton_append, List.length_append,
      List.length_singleton] at ih'
    simp only [List.flatMap_cons, hb, List.singleton_append, tokenize, hr]
    by_cases h1 : c.toNat = 42 ∨ c.toNat = 47 ∨ c.toNat = 43 ∨ c.toNat = 45
    · have hop : isOperator c = true := by
        rcases h1 with h | h | h | h <;>
          · have := char_eq_of_toNat c _ h
            subst this
            decide
      have hnd : isDigit c = false := by
        simp only [isDigit, Bool.and_eq_false_imp, decide_eq_true_eq, decide_eq_false_iff_not]
        omega
      simp [h1, ih', hop, hnd]
    · have hop : isOperator c = false := by
        simp only [isOperator, Bool.or_eq_false_iff, decide_eq_false_iff_not]
        refine ⟨⟨⟨?_, ?_⟩, ?_⟩, ?_⟩ <;>
          · intro h
            subst h
            exact h1 (by decide)
      by_cases h2 : (c.toNat + 256 - 48) % 256 ≤ 9
      · have hd : isDigit c = true := by
          simp only [isDigit, Bool.and_eq_true, decide_eq_true_eq]
          omega
        have h2' : (c.toNat + 208) % 256 ≤ 9 := by omega
        have hv : (c.toNat + 208) % 256 = c.toNat - 48 := by omega
        simp [h1, ih', hop, hd, hv]
        omega
      · have hd : isDigit c = false := by
          simp only [isDigit, Bool.and_eq_false_imp, decide_eq_true_eq, decide_eq_false_iff_not]
          omega
        have h2' : ¬ (c.toNat + 208) % 256 ≤ 9 := by omega
        simp [h1, h2', ih', hop, hd]

theorem tokenize_of_ascii [Float64 F] (expression : String) (h : IsASCII expression) :
    tokenize (goRunes expression) (goBytes expression) 0 [] [] =
      some (operators expression, (digits expression).map (Float64.ofNat : Nat → F)) := by
  have := tokenize_ascii (F := F) expression.data h [] [] []
  simpa [goRunes, goBytes, operators, digits] using this

theorem await_ok {α : Type} (env : Env F) (attempt : World F → Option (α × World F))
    (w w1 : World F) (a : α) (h : attempt w = some (a, w1)) :
    await env attempt w = (some a, w1) := by
  simp [await, h]

theorem await_parked {α : Type} (env : Env F) (attempt : World F → Option (α × World F))
    (w w1 : World F) (a : α) (h0 : attempt w = none) (h : attempt (env.others w) = some (a, w1)) :
    await env attempt w = (some a, w1) := by
  simp [await, h0, h]

theorem foldl_max_nonneg (l : List Int) (a : Int) (ha : 0 ≤ a) : 0 ≤ l.foldl max a := by
  induction l generalizing a with
  | nil => simpa using ha
  | cons x xs ih => exact ih _ (le_max_of_le_left ha)

theorem nextTaskID_pos (d : Database F) : 0 < d.nextTaskID := by
  have := foldl_max_nonneg (d.tasks.map (·.id)) 0 le_rfl
  unfold Database.nextTaskID
  omega

theorem addTask_spec [Float64 F] (env : Env F) (id : Int) (ans : F → F → String → F)
    (op : String) (a b : F) (w : World F) (hr : Ready id w) (ha : Answers env id ans) :
    (∃ w3, addTask env id op a b w = ⟨.returned (-1, Float64.ofNat 0), w3,
        [.SaveTask id a b op none]⟩ ∧ Ready id w3 ∧ w.db.exec.1 = true) ∨
    (∃ w3 tid, addTask env id op a b w = ⟨.returned (tid, ans a b op), w3,
        stepEvents env id ans tid a b op⟩ ∧ tid ≠ -1 ∧ Ready id w3 ∧ w.db.exec.1 = false ∧
        (KeepsStore env → w.db.faults = [] → w3.db.faults = [])) := by
  obtain ⟨hmu, hq, hch⟩ := hr
  by_cases hx : w.db.exec.1 = true
  · left
    exact ⟨{ w with db := w.db.exec.2 }, by simp [addTask, Database.SaveTask, hx],
      ⟨hmu, hq, hch⟩, hx⟩
  · right
    have hx0 : w.db.exec.1 = false := by simpa using hx
    obtain ⟨v1, v2, v3⟩ := ha (parkedAt env id op a b w) (newTask env w.db.nextTaskID a b op)
      rfl (by simp [parkedAt]) hch
    refine ⟨{ env.others (parkedAt env id op a b w) with
              chTaskResults := Function.update
                (env.others (parkedAt env id op a b w)).chTaskResults id (some []) },
      w.db.nextTaskID, ?_, ?_, ⟨v2, v3, by simp⟩, hx0, ?_⟩
    · simp [addTask, Database.SaveTask, hx0, await, trySendTask, hq, tryLock, hmu, unlock, hch,
        tryReceive, stepEvents, parkedAt, newTask] at v1 ⊢
      simp [v1]
    · have := nextTaskID_pos w.db
      omega
    · intro hk hf
      apply hk
      simp [parkedAt, Database.SaveTask, hx0, Database.exec, hf]


theorem getElem?_at {α : Type} (T : List α) (t : α) (D : List α) (n : Nat) (h : T.length = n) :
    (T ++ t :: D)[n]? = some t := by
  subst h
  rw [List.getElem?_append_right (le_refl _)]
  simp

theorem getElem_at {α : Type} (T : List α) (t : α) (D : List α) (n : Nat) (h : T.length = n)
    (hn : n < (T ++ t :: D).length) : (T ++ t :: D)[n] = t := by
  have := getElem?_at T t D n h
  rw [List.getElem?_eq_getElem hn] at this
  exact Option.some.inj this

theorem getElem?_next {α : Type} (T : List α) (t d : α) (D : List α) (n : Nat)
    (h : T.length = n) : (T ++ t :: d :: D)[n + 1]? = some d := by
  subst h
  rw [List.getElem?_append_right (by omega)]
  simp

theorem splice_eq {α : Type} (T : List α) (t d r : α) (D : List α) (n : Nat)
    (h : T.length = n) :
    (T ++ t :: d :: D).take n ++ [r] ++ (T ++ t :: d :: D).drop (n + 2) = T ++ r :: D := by
  subst h
  rw [List.take_left, List.drop_append]
  simp

theorem remove_eq {α : Type} (P : List α) (o : α) (O : List α) :
    (P ++ o :: O).take P.length ++ (P ++ o :: O).drop (P.length + 1) = P ++ O := by
  rw [List.take_left, List.drop_append]
  simp

theorem reduce_spec [Float64 F] {α : Type} (env : Env F) (id userID : Int) (expression : String)
    (ans : F → F → String → F) (op : String) (i : Nat) (numbers : List F) (a b : F)
    (w : World F) (log : List (Event F)) (hr : Ready id w) (ha : Answers env id ans)
    (h0 : numbers[i]? = some a) (h1 : numbers[i + 1]? = some b) :
    (∃ w3, (reduce env id userID expression op i numbers w log :
          Except (Exec F (Option α)) (F × World F × List (Event F))) =
        .error (fail id userID expression w3 (log ++ [.SaveTask id a b op none])) ∧
        Ready id w3 ∧ w.db.exec.1 = true) ∨
    (∃ w3 tid, (reduce env id userID expression op i numbers w log :
          Except (Exec F (Option α)) (F × World F × List (Event F))) =
        .ok (ans a b op, w3, log ++ stepEvents env id ans tid a b op) ∧ Ready id w3 ∧
        (KeepsStore env → w.db.faults = [] → w3.db.faults = [])) := by
  rcases addTask_spec env id ans op a b w hr ha with
    ⟨w3, h, hr3, hf⟩ | ⟨w3, tid, h, ht, hr3, _, hf⟩
  · left
    exact ⟨w3, by simp [reduce, h0, h1, h], hr3, hf⟩
  · right
    exact ⟨w3, tid, by simp [reduce, h0, h1, h, ht], hr3, hf⟩

theorem firstPass_run [Float64 F] (env : Env F) (id userID : Int) (expression : String)
    (ans : F → F → String → F) (ha : Answers env id ans) (hk : KeepsStore env)
    (R : List (Char × F)) (hz : ∀ p ∈ R, p.1 = '/' → Float64.eqZero p.2 = false) :
    ∀ (T : List F) (P : List Char) (t : F) (w : World F) (log : List (Event F)),
      T.length = P.length → Ready id w → w.db.faults = [] →
      ∃ w1 tids, tids.length = (mulTasks ans t R).length ∧
        firstPass env id userID expression P.length (T ++ t :: R.map (·.2)) (P ++ R.map (·.1)) w log
          = ⟨.returned (some (T ++ (termsA ans t R).1 :: (termsA ans t R).2.map (·.2),
                P ++ (termsA ans t R).2.map (·.1))), w1,
              log ++ runEvents env id ans tids (mulTasks ans t R)⟩ ∧
        Ready id w1 ∧ w1.db.faults = [] := by
  induction R with
  | nil =>
    intro T P t w log hTP hr hf
    refine ⟨w, [], rfl, ?_, hr, hf⟩
    rw [firstPass]
    simp [termsA, mulTasks, runEvents]
  | cons p R ih =>
    obtain ⟨o, d⟩ := p
    intro T P t w log hTP hr hf
    have hz' : ∀ p ∈ R, p.1 = '/' → Float64.eqZero p.2 = false :=
      fun p hp => hz p (List.mem_cons_of_mem _ hp)
    have hlt : P.length < (P ++ List.map (·.1) ((o, d) :: R)).length := by simp
    have hop : (P ++ List.map (·.1) ((o, d) :: R))[P.length] = o :=
      getElem_at _ _ _ _ rfl hlt
    have hn0 : (T ++ t :: List.map (·.2) ((o, d) :: R))[P.length]? = some t :=
      getElem?_at _ _ _ _ hTP
    have hn1 : (T ++ t :: List.map (·.2) ((o, d) :: R))[P.length + 1]? = some d :=
      getElem?_next _ _ _ _ _ hTP
    rw [firstPass]
    simp only [hlt, dite_true, hop]
    by_cases h1 : o = '*'
    · subst h1
      rcases reduce_spec (α := List F × List Char) env id userID expression ans "*" _ _ t d w log hr ha hn0 hn1 with
        ⟨w3, _, _, hne⟩ | ⟨w3, tid, h, hr3, hf3⟩
      · simp [Database.exec, hf] at hne
      · obtain ⟨w1, tids, hl, hrun, hr1, hf1⟩ :=
          ih hz' T P (ans t d "*") w3 (log ++ stepEvents env id ans tid t d "*") hTP hr3 (hf3 hk hf)
        refine ⟨w1, tid :: tids, by simp [mulTasks, hl], ?_, hr1, hf1⟩
        simp only [if_true, h]
        have e1 := splice_eq T t d (ans t d "*") (R.map (·.2)) P.length hTP
        have e2 := remove_eq P '*' (R.map (·.1))
        simp only [List.map_cons] at e1 e2 ⊢
        rw [e1, e2, hrun]
        simp [termsA, mulTasks, runEvents]
    · by_cases h2 : o = '/'
      · subst h2
        have hzd : Float64.eqZero d = false := hz ('/', d) (List.mem_cons_self _ _) rfl
        rcases reduce_spec (α := List F × List Char) env id userID expression ans "/" _ _ t d w
            log hr ha hn0 hn1 with ⟨w3, _, _, hne⟩ | ⟨w3, tid, h, hr3, hf3⟩
        · simp [Database.exec, hf] at hne
        · obtain ⟨w1, tids, hl, hrun, hr1, hf1⟩ :=
            ih hz' T P (ans t d "/") w3 (log ++ stepEvents env id ans tid t d "/") hTP hr3
              (hf3 hk hf)
          refine ⟨w1, tid :: tids, by simp [mulTasks, hl], ?_, hr1, hf1⟩
          simp only [h1, if_false, if_true, hn1, hzd, h]
          have e1 := splice_eq T t d (ans t d "/") (R.map (·.2)) P.length hTP
          have e2 := remove_eq P '/' (R.map (·.1))
          simp only [List.map_cons] at e1 e2 ⊢
          rw [e1, e2, hrun]
          simp [termsA, mulTasks, runEvents]
      · obtain ⟨w1, tids, hl, hrun, hr1, hf1⟩ :=
          ih hz' (T ++ [t]) (P ++ [o]) d w log (by simp [hTP]) hr hf
        refine ⟨w1, tids, by simp [mulTasks, h1, h2, hl], ?_, hr1, hf1⟩
        simp only [h1, h2, if_false]
        simp only [List.length_append, List.length_singleton, List.append_assoc,
          List.singleton_append] at hrun
        simp only [List.map_cons]
        rw [hrun]
        simp [termsA, mulTasks, h1, h2]

theorem secondPass_run [Float64 F] (env : Env F) (id userID : Int) (expression : String)
    (ans : F → F → String → F) (ha : Answers env id ans) (hk : KeepsStore env)
    (R : List (Char × F)) (hop : ∀ p ∈ R, p.1 = '+' ∨ p.1 = '-') :
    ∀ (s : F) (w : World F) (log : List (Event F)), Ready id w → w.db.faults = [] →
      ∃ w1 tids, tids.length = (sumTasks ans s R).length ∧
        secondPass env id userID expression 0 (s :: R.map (·.2)) (R.map (·.1)) w log
          = ⟨.returned (some ([sumA ans s R], [])), w1,
              log ++ runEvents env id ans tids (sumTasks ans s R)⟩ ∧
        Ready id w1 ∧ w1.db.faults = [] := by
  induction R with
  | nil =>
    intro s w log hr hf
    refine ⟨w, [], rfl, ?_, hr, hf⟩
    rw [secondPass]
    simp [sumA, sumTasks, runEvents]
  | cons p R ih =>
    obtain ⟨o, v⟩ := p
    intro s w log hr hf
    have hop' : ∀ p ∈ R, p.1 = '+' ∨ p.1 = '-' := fun p hp => hop p (List.mem_cons_of_mem _ hp)
    have hn0 : (s :: List.map (·.2) ((o, v) :: R))[0]? = some s := rfl
    have hn1 : (s :: List.map (·.2) ((o, v) :: R))[0 + 1]? = some v := by simp
    rw [secondPass]
    simp only [List.map_cons, List.length_cons, Nat.zero_lt_succ, dite_true,
      List.getElem_cons_zero]
    by_cases h1 : o = '+'
    · subst h1
      rcases reduce_spec (α := List F × List Char) env id userID expression ans "+" _ _ s v w
          log hr ha hn0 hn1 with ⟨w3, _, _, hne⟩ | ⟨w3, tid, h, hr3, hf3⟩
      · simp [Database.exec, hf] at hne
      · obtain ⟨w1, tids, hl, hrun, hr1, hf1⟩ :=
          ih hop' (ans s v "+") w3 (log ++ stepEvents env id ans tid s v "+") hr3 (hf3 hk hf)
        refine ⟨w1, tid :: tids, by simp [sumTasks, hl], ?_, hr1, hf1⟩
        simp only [List.map_cons] at h
        simp only [if_true, h]
        simp only [List.take_zero, List.nil_append, List.drop_succ_cons, List.drop_zero,
          List.singleton_append]
        rw [hrun]
        simp [sumA, sumTasks, runEvents]
    · have h2 : o = '-' := by
        rcases hop (o, v) (List.mem_cons_self _ _) with h | h
        · exact absurd h h1
        · exact h
      subst h2
      rcases reduce_spec (α := List F × List Char) env id userID expression ans "-" _ _ s v w
          log hr ha hn0 hn1 with ⟨w3, _, _, hne⟩ | ⟨w3, tid, h, hr3, hf3⟩
      · simp [Database.exec, hf] at hne
      · obtain ⟨w1, tids, hl, hrun, hr1, hf1⟩ :=
          ih hop' (ans s v "-") w3 (log ++ stepEvents env id ans tid s v "-") hr3 (hf3 hk hf)
        refine ⟨w1, tid :: tids, by simp [sumTasks, hl], ?_, hr1, hf1⟩
        simp only [List.map_cons] at h
        simp only [h1, if_false, if_true, h]
        simp only [List.take_zero, List.nil_append, List.drop_succ_cons, List.drop_zero,
          List.singleton_append]
        rw [hrun]
        simp [sumA, sumTasks, runEvents]


theorem runEvents_append (env : Env F) (id : Int) (ans : F → F → String → F) :
    ∀ (tids1 : List Int) (ts1 : List (F × F × String)) (tids2 : List Int)
      (ts2 : List (F × F × String)), tids1.length = ts1.length →
      runEvents env id ans (tids1 ++ tids2) (ts1 ++ ts2) =
        runEvents env id ans tids1 ts1 ++ runEvents env id ans tids2 ts2
  | [], [], _, _, _ => by simp [runEvents]
  | [], _ :: _, _, _, h => by simp at h
  | _ :: _, [], _, _, h => by simp at h
  | tid :: tids1, (a, b, op) :: ts1, tids2, ts2, h => by
    have := runEvents_append env id ans tids1 ts1 tids2 ts2 (by simpa using h)
    simp [runEvents, this]

theorem termsA_ops (ans : F → F → String → F) (R : List (Char × F))
    (hR : ∀ p ∈ R, isOperator p.1 = true) :
    ∀ t : F, ∀ q ∈ (termsA ans t R).2, q.1 = '+' ∨ q.1 = '-' := by
  induction R with
  | nil => intro t q hq; simp [termsA] at hq
  | cons p R ih =>
    obtain ⟨o, d⟩ := p
    have hR' : ∀ p ∈ R, isOperator p.1 = true := fun p hp => hR p (List.mem_cons_of_mem _ hp)
    intro t q hq
    by_cases h1 : o = '*'
    · simp only [termsA, h1, if_true] at hq
      exact ih hR' _ q hq
    · by_cases h2 : o = '/'
      · simp only [termsA, h1, h2, if_true, if_false] at hq
        exact ih hR' _ q hq
      · simp only [termsA, h1, h2, if_false, List.mem_cons] at hq
        rcases hq with rfl | hq
        · have := hR (o, d) (List.mem_cons_self _ _)
          simp only [isOperator, Bool.or_eq_true, decide_eq_true_eq] at this
          rcases this with ((h | h) | h) | h
          · exact absurd h h1
          · exact absurd h h2
          · exact Or.inl h
          · exact Or.inr h
        · exact ih hR' _ q hq

theorem tokens_chain [Float64 F] (expression : String)
    (hcount : (digits expression).length = (operators expression).length + 1) :
    (digits expression).map (Float64.ofNat : Nat → F) =
        (chainOf expression).1 :: ((chainOf expression).2 : List (Char × F)).map (·.2) ∧
      operators expression = ((chainOf expression).2 : List (Char × F)).map (·.1) := by
  unfold chainOf rightOperands
  cases hd : digits expression with
  | nil => rw [hd] at hcount; simp at hcount
  | cons n tl =>
    rw [hd] at hcount
    have hl : (operators expression).length = tl.length := by simpa using hcount.symm
    have h1 : ((operators expression).zip tl).map Prod.snd = tl :=
      List.map_snd_zip _ _ (le_of_eq hl.symm)
    have h2 : ((operators expression).zip tl).map Prod.fst = operators expression :=
      List.map_fst_zip _ _ (le_of_eq hl)
    constructor
    · simp only [List.map_cons, List.headD_cons, List.tail_cons, List.map_map]
      congr 1
      conv_lhs => rw [← h1]
      simp [List.map_map, Function.comp_def]
    · simp only [List.tail_cons, List.map_map]
      conv_lhs => rw [← h2]
      simp [Function.comp_def]

theorem chain_operators [Float64 F] (expression : String) :
    ∀ p ∈ ((chainOf expression).2 : List (Char × F)), isOperator p.1 = true := by
  intro p hp
  simp only [chainOf, rightOperands, List.mem_map] at hp
  obtain ⟨q, hq, rfl⟩ := hp
  have := (List.of_mem_zip hq).1
  simp only [operators, List.mem_filter] at this
  exact this.2

theorem chain_nonzero [Float64 F] (expression : String) (hz : NoZeroDivisor expression) :
    ∀ p ∈ ((chainOf expression).2 : List (Char × F)), p.1 = '/' → Float64.eqZero p.2 = false := by
  intro p hp hdiv
  simp only [chainOf, List.mem_map] at hp
  obtain ⟨q, hq, rfl⟩ := hp
  have := hz q hq hdiv
  simp [Float64.eqZero_ofNat, this]

theorem parseExpression_run [Float64 F] (env : Env F) (id userID : Int) (expression : String)
    (ans : F → F → String → F) (w : World F) (hascii : IsASCII expression)
    (hcount : (digits expression).length = (operators expression).length + 1)
    (hz : NoZeroDivisor expression) (hr : Ready id w) (hf : w.db.faults = [])
    (ha : Answers env id ans) (hk : KeepsStore env) :
    ∃ w2 tids, tids.length = (tasksOf ans expression).length ∧ w2.db.faults = [] ∧ Ready id w2 ∧
      parseExpression env id userID expression w =
        ⟨.returned (),
          { w2 with db := (w2.db.SaveExpression id userID expression "completed"
              (resultOf ans expression)).1 },
          runEvents env id ans tids (tasksOf ans expression) ++
            [.SaveExpression id userID expression "completed" (resultOf ans expression)]⟩ := by
  obtain ⟨hn, ho⟩ := tokens_chain (F := F) expression hcount
  have hlen : ((digits expression).map (Float64.ofNat : Nat → F)).length =
      (operators expression).length + 1 := by simpa using hcount
  obtain ⟨w1, tids1, hl1, h1, hr1, hf1⟩ :=
    firstPass_run env id userID expression ans ha hk (chainOf expression).2
      (chain_nonzero expression hz) [] [] (chainOf expression).1 w [] rfl hr hf
  obtain ⟨w2, tids2, hl2, h2, hr2, hf2⟩ :=
    secondPass_run env id userID expression ans ha hk
      (termsA ans (chainOf expression).1 (chainOf expression).2).2
      (termsA_ops ans _ (chain_operators expression) _)
      (termsA ans (chainOf expression).1 (chainOf expression).2).1 w1
      ([] ++ runEvents env id ans tids1 (mulTasks ans (chainOf expression).1 (chainOf expression).2))
      hr1 hf1
  refine ⟨w2, tids1 ++ tids2, by simp [tasksOf, hl1, hl2], hf2, hr2, ?_⟩
  simp only [List.nil_append, List.length_nil] at h1 h2
  unfold parseExpression
  rw [tokenize_of_ascii expression hascii]
  simp only [hlen, ne_eq, not_true_eq_false, if_false]
  rw [hn, ho, h1]
  simp only [h2, complete, List.getElem?_cons_zero, tasksOf, resultOf]
  rw [runEvents_append _ _ _ _ _ _ _ hl1]


theorem compute_add [Float64 F] (a b : F) : compute a b "+" = Float64.add a b := by
  simp [compute]

theorem compute_sub [Float64 F] (a b : F) : compute a b "-" = Float64.sub a b := by
  simp [compute]

theorem compute_mul [Float64 F] (a b : F) : compute a b "*" = Float64.mul a b := by
  simp [compute]

theorem compute_div [Float64 F] (a b : F) (h : Float64.eqZero b = false) :
    compute a b "/" = Float64.div a b := by
  simp [compute, h]

theorem termsA_compute [Float64 F] (R : List (Char × F))
    (hz : ∀ p ∈ R, p.1 = '/' → Float64.eqZero p.2 = false) :
    ∀ t : F, termsA compute t R = evalTerms t R := by
  induction R with
  | nil => intro t; rfl
  | cons p R ih =>
    obtain ⟨o, d⟩ := p
    have hz' : ∀ p ∈ R, p.1 = '/' → Float64.eqZero p.2 = false :=
      fun p hp => hz p (List.mem_cons_of_mem _ hp)
    intro t
    by_cases h1 : o = '*'
    · simp [termsA, evalTerms, h1, compute_mul, ih hz']
    · by_cases h2 : o = '/'
      · have := hz (o, d) (List.mem_cons_self _ _) h2
        simp [termsA, evalTerms, h1, h2, compute_div _ _ this, ih hz']
      · simp [termsA, evalTerms, h1, h2, ih hz']

theorem sumA_compute [Float64 F] (R : List (Char × F)) :
    ∀ s : F, sumA compute s R = evalSum s R := by
  induction R with
  | nil => intro s; rfl
  | cons p R ih =>
    obtain ⟨o, v⟩ := p
    intro s
    by_cases h1 : o = '+'
    · simp [sumA, evalSum, h1, compute_add, ih]
    · simp [sumA, evalSum, h1, compute_sub, ih]

theorem resultOf_compute [Float64 F] (expression : String) (hz : NoZeroDivisor expression) :
    resultOf compute expression = (value expression : F) := by
  unfold resultOf value
  rw [termsA_compute _ (chain_nonzero expression hz), sumA_compute]

theorem SaveExpression_stored (d : Database F) (id userID : Int) (expression status : String)
    (result : F) (hf : d.faults = []) :
    (∃ r ∈ (d.SaveExpression id userID expression status result).1.expressions, r.id = id) ∧
    (∀ r ∈ (d.SaveExpression id userID expression status result).1.expressions, r.id = id →
      r.expression = expression ∧ r.status = status ∧ r.result = result) ∧
    (d.SaveExpression id userID expression status result).1.faults = [] := by
  by_cases hc : (d.expressions.filter (fun r => r.id = id)).length > 0
  · have hex : ∃ r ∈ d.expressions, r.id = id := by
      obtain ⟨r, hr⟩ := List.exists_mem_of_length_pos hc
      rw [List.mem_filter] at hr
      exact ⟨r, hr.1, by simpa using hr.2⟩
    simp only [Database.SaveExpression, Database.exec, hf, List.headD_nil, List.tail_nil, hc,
      if_true, Bool.false_eq_true, if_false]
    refine ⟨?_, ?_, trivial⟩
    · obtain ⟨r, hr, hid⟩ := hex
      exact ⟨_, List.mem_map_of_mem _ hr, by simp [hid]⟩
    · intro r hr hid
      rw [List.mem_map] at hr
      obtain ⟨r0, _, rfl⟩ := hr
      by_cases h0 : r0.id = id
      · simp [h0]
      · simp [h0] at hid
  · simp only [Database.SaveExpression, Database.exec, hf, List.headD_nil, List.tail_nil, hc,
      if_true, Bool.false_eq_true, if_false]
    refine ⟨⟨_, List.mem_append_right _ (List.mem_singleton_self _), rfl⟩, ?_, trivial⟩
    intro r hr hid
    rw [List.mem_append, List.mem_singleton] at hr
    rcases hr with hr | rfl
    · exfalso
      apply hc
      apply List.length_pos_of_mem (a := r)
      rw [List.mem_filter]
      exact ⟨hr, by simpa using hid⟩
    · simp


theorem answering_answers (id : Int) (ans : F → F → String → F) :
    Answers (answering id ans) id ans := by
  intro w t hmu ht _
  simp [answering, ht, hmu]

theorem answering_keepsStore (id : Int) (ans : F → F → String → F) :
    KeepsStore (answering id ans) := by
  intro w hw
  simp only [answering]
  cases w.taskQueue.getLast? <;> simpa using hw

theorem freshWorld_ready (id : Int) : Ready id (freshWorld id : World F) := by
  simp [Ready, freshWorld]


theorem find?_UpdateTaskResult (d : Database F) (taskID : Int) (v : F) (row : TaskRow F)
    (hs : d.exec.1 = false) (hrow : d.tasks.find? (fun r => r.id = taskID) = some row) :
    (d.UpdateTaskResult taskID v).1.tasks.find? (fun r => r.id = taskID) =
      some { row with processed := true, result := some v } := by
  have hid : row.id = taskID := by simpa using List.find?_some hrow
  simp only [Database.UpdateTaskResult, hs, Bool.false_eq_true, if_false, List.find?_map]
  have : ((fun r : TaskRow F => decide (r.id = taskID)) ∘ fun r : TaskRow F =>
      if r.id = taskID then { r with processed := true, result := some v } else r) =
      fun r => decide (r.id = taskID) := by
    funext r
    by_cases h : r.id = taskID <;> simp [h]
  rw [this, hrow]
  simp [hid]

theorem SendTaskResult_db (env : Env F) (result : TaskResult F) (w : World F)
    (hmu : w.mu = false)
    (hch : w.chTaskResults result.Id = none ∨ w.chTaskResults result.Id = some []) :
    SendTaskResult env result w =
      (.returned { Success := !(w.db.UpdateTaskResult result.Id result.Result).2 },
        { db := (w.db.UpdateTaskResult result.Id result.Result).1
          taskQueue := w.taskQueue
          chTaskResults :=
            if (w.db.UpdateTaskResult result.Id result.Result).2 = false ∧
                (w.chTaskResults result.Id).isSome = true then
              Function.update w.chTaskResults result.Id (some [result.Result])
            else w.chTaskResults
          mu := false }) := by
  by_cases hu : (w.db.UpdateTaskResult result.Id result.Result).2 = true
  · simp [SendTaskResult, hu, hmu]
  · have hu' : (w.db.UpdateTaskResult result.Id result.Result).2 = false := by simpa using hu
    rcases hch with hch | hch
    · simp [SendTaskResult, hu', await, tryLock, hmu, unlock, hch]
    · simp [SendTaskResult, hu', await, tryLock, hmu, unlock, hch, trySendResult]


theorem SaveExpression_tasks (d : Database F) (id userID : Int) (expression status : String)
    (result : F) : (d.SaveExpression id userID expression status result).1.tasks = d.tasks := by
  unfold Database.SaveExpression
  split
  · rfl
  · split
    · rfl
    · split <;> rfl

theorem stepEvents_clean [Float64 F] (env : Env F) (id : Int) (ans : F → F → String → F)
    (tid : Int) (a b : F) (op : String) (h : op = "/" → Float64.eqZero b = false) :
    ∀ ev ∈ stepEvents env id ans tid a b op,
      dividesByZero ev = false ∧ isSaveExpression ev = false := by
  intro ev hev
  simp only [stepEvents, List.mem_cons, List.mem_singleton, List.not_mem_nil, or_false] at hev
  rcases hev with rfl | rfl | rfl
  · by_cases ho : op = "/"
    · simp [dividesByZero, isSaveExpression, h ho]
    · simp [dividesByZero, isSaveExpression, ho]
  · by_cases ho : op = "/"
    · simp [dividesByZero, isSaveExpression, newTask, h ho]
    · simp [dividesByZero, isSaveExpression, newTask, ho]
  · simp [dividesByZero, isSaveExpression]

theorem firstPass_zero [Float64 F] (env : Env F) (id userID : Int) (expression : String)
    (ans : F → F → String → F) (ha : Answers env id ans)
    (R : List (Char × F)) (hz : ∃ p ∈ R, p.1 = '/' ∧ Float64.eqZero p.2 = true) :
    ∀ (T : List F) (P : List Char) (t : F) (w : World F) (log : List (Event F)),
      T.length = P.length → Ready id w →
      ∃ (w0 : World F) (log1 : List (Event F)),
        firstPass env id userID expression P.length (T ++ t :: R.map (·.2)) (P ++ R.map (·.1)) w log
          = ⟨.returned none,
              { w0 with
                  db := (w0.db.SaveExpression id userID expression "error" (Float64.ofNat 0)).1 },
              log ++ log1 ++ [.SaveExpression id userID expression "error" (Float64.ofNat 0)]⟩ ∧
        (∀ ev ∈ log1, dividesByZero ev = false ∧ isSaveExpression ev = false) ∧
        (KeepsStore env → w.db.faults = [] → w0.db.faults = []) := by
  induction R with
  | nil => obtain ⟨p, hp, _⟩ := hz; simp at hp
  | cons p R ih =>
    obtain ⟨o, d⟩ := p
    intro T P t w log hTP hr
    have hlt : P.length < (P ++ List.map (·.1) ((o, d) :: R)).length := by simp
    have hop : (P ++ List.map (·.1) ((o, d) :: R))[P.length] = o :=
      getElem_at _ _ _ _ rfl hlt
    have hn0 : (T ++ t :: List.map (·.2) ((o, d) :: R))[P.length]? = some t :=
      getElem?_at _ _ _ _ hTP
    have hn1 : (T ++ t :: List.map (·.2) ((o, d) :: R))[P.length + 1]? = some d :=
      getElem?_next _ _ _ _ _ hTP
    rw [firstPass]
    simp only [hlt, dite_true, hop]
    by_cases h1 : o = '*'
    · subst h1
      have hz' : ∃ p ∈ R, p.1 = '/' ∧ Float64.eqZero p.2 = true := by
        obtain ⟨p, hp, hp1, hp2⟩ := hz
        rcases List.mem_cons.1 hp with rfl | hp
        · simp at hp1
        · exact ⟨p, hp, hp1, hp2⟩
      rcases reduce_spec (α := List F × List Char) env id userID expression ans "*" _ _ t d w
          log hr ha hn0 hn1 with ⟨w3, h, _, hx⟩ | ⟨w3, tid, h, hr3, hf3⟩
      · refine ⟨w3, [.SaveTask id t d "*" none], ?_, ?_, ?_⟩
        · simp only [if_true, h]
          simp [fail]
        · intro ev hev
          rw [List.mem_singleton] at hev
          subst hev
          simp [dividesByZero, isSaveExpression]
        · intro _ hf
          simp [Database.exec, hf] at hx
      · obtain ⟨w1, log1, hrun, hclean, hf1⟩ :=
          ih hz' T P (ans t d "*") w3 (log ++ stepEvents env id ans tid t d "*") hTP hr3
        refine ⟨w1, stepEvents env id ans tid t d "*" ++ log1, ?_, ?_,
          fun hk hf => hf1 hk (hf3 hk hf)⟩
        · simp only [if_true, h]
          have e1 := splice_eq T t d (ans t d "*") (R.map (·.2)) P.length hTP
          have e2 := remove_eq P '*' (R.map (·.1))
          simp only [List.map_cons] at e1 e2 ⊢
          rw [e1, e2, hrun]
          simp
        · intro ev hev
          rcases List.mem_append.1 hev with hev | hev
          · exact stepEvents_clean env id ans tid t d "*" (by simp) ev hev
          · exact hclean ev hev
    · by_cases h2 : o = '/'
      · subst h2
        by_cases hzd : Float64.eqZero d = true
        · refine ⟨w, [], ?_, ?_, fun _ hf => hf⟩
          · simp only [h1, if_false, if_true, hn1, hzd]
            simp [fail]
          · intro ev hev
            simp at hev
        · have hzd' : Float64.eqZero d = false := by simpa using hzd
          have hz' : ∃ p ∈ R, p.1 = '/' ∧ Float64.eqZero p.2 = true := by
            obtain ⟨p, hp, hp1, hp2⟩ := hz
            rcases List.mem_cons.1 hp with rfl | hp
            · exact absurd hp2 hzd
            · exact ⟨p, hp, hp1, hp2⟩
          rcases reduce_spec (α := List F × List Char) env id userID expression ans "/" _ _ t d w
              log hr ha hn0 hn1 with ⟨w3, h, _, hx⟩ | ⟨w3, tid, h, hr3, hf3⟩
          · refine ⟨w3, [.SaveTask id t d "/" none], ?_, ?_, ?_⟩
            · simp only [h1, if_false, if_true, hn1, hzd', h, Bool.false_eq_true]
              simp [fail]
            · intro ev hev
              rw [List.mem_singleton] at hev
              subst hev
              simp [dividesByZero, isSaveExpression, hzd']
            · intro _ hf
              simp [Database.exec, hf] at hx
          · obtain ⟨w1, log1, hrun, hclean, hf1⟩ :=
              ih hz' T P (ans t d "/") w3 (log ++ stepEvents env id ans tid t d "/") hTP hr3
            refine ⟨w1, stepEvents env id ans tid t d "/" ++ log1, ?_, ?_,
              fun hk hf => hf1 hk (hf3 hk hf)⟩
            · simp only [h1, if_false, if_true, hn1, hzd', h, Bool.false_eq_true]
              have e1 := splice_eq T t d (ans t d "/") (R.map (·.2)) P.length hTP
              have e2 := remove_eq P '/' (R.map (·.1))
              simp only [List.map_cons] at e1 e2 ⊢
              rw [e1, e2, hrun]
              simp
            · intro ev hev
              rcases List.mem_append.1 hev with hev | hev
              · exact stepEvents_clean env id ans tid t d "/" (fun _ => hzd') ev hev
              · exact hclean ev hev
      · have hz' : ∃ p ∈ R, p.1 = '/' ∧ Float64.eqZero p.2 = true := by
          obtain ⟨p, hp, hp1, hp2⟩ := hz
          rcases List.mem_cons.1 hp with rfl | hp
          · exact absurd hp1 h2
          · exact ⟨p, hp, hp1, hp2⟩
        obtain ⟨w1, log1, hrun, hclean, hf1⟩ :=
          ih hz' (T ++ [t]) (P ++ [o]) d w log (by simp [hTP]) hr
        refine ⟨w1, log1, ?_, hclean, hf1⟩
        simp only [h1, h2, if_false]
        simp only [List.length_append, List.length_singleton, List.append_assoc,
          List.singleton_append] at hrun
        simp only [List.map_cons]
        rw [hrun]
        simp

theorem chain_zero [Float64 F] (expression : String) (hz : HasZeroDivisor expression) :
    ∃ p ∈ ((chainOf expression).2 : List (Char × F)), p.1 = '/' ∧ Float64.eqZero p.2 = true := by
  obtain ⟨q, hq, hq1, hq2⟩ := hz
  refine ⟨(q.1, Float64.ofNat q.2), ?_, hq1, ?_⟩
  · simp only [chainOf, List.mem_map]
    exact ⟨q, hq, rfl⟩
  · simp [Float64.eqZero_ofNat, hq2]

theorem single_chain [Float64 F] (expression : String) (a b : Nat) (op : Char)
    (hd : digits expression = [a, b]) (ho : operators expression = [op]) :
    (chainOf expression : F × List (Char × F)) = (Float64.ofNat a, [(op, Float64.ofNat b)]) := by
  simp [chainOf, rightOperands, hd, ho]

theorem single_tasks [Float64 F] (ans : F → F → String → F) (expression : String) (a b : Nat)
    (op : Char) (hd : digits expression = [a, b]) (ho : operators expression = [op]) :
    tasksOf ans expression = [(Float64.ofNat a, Float64.ofNat b, String.singleton op)] ∧
    resultOf ans expression = ans (Float64.ofNat a) (Float64.ofNat b) (String.singleton op) := by
  have hop : isOperator op = true := by
    have : op ∈ operators expression := by rw [ho]; exact List.mem_singleton_self _
    simp only [operators, List.mem_filter] at this
    exact this.2
  simp only [isOperator, Bool.or_eq_true, decide_eq_true_eq] at hop
  simp only [tasksOf, resultOf, single_chain expression a b op hd ho]
  rcases hop with ((rfl | rfl) | rfl) | rfl <;>
    exact ⟨by simp [mulTasks, termsA, sumTasks]; rfl, by simp [termsA, sumA]; rfl⟩

theorem mulTasks_append (ans : F → F → String → F) (R2 : List (Char × F)) :
    ∀ (R1 : List (Char × F)) (t : F),
      mulTasks ans t (R1 ++ R2) = mulTasks ans t R1 ++ mulTasks ans (accA ans t R1) R2 := by
  intro R1
  induction R1 with
  | nil => intro t; rfl
  | cons p R1 ih =>
    obtain ⟨o, d⟩ := p
    intro t
    by_cases h1 : o = '*'
    · simp [mulTasks, accA, h1, ih]
    · by_cases h2 : o = '/'
      · simp [mulTasks, accA, h1, h2, ih]
      · simp [mulTasks, accA, h1, h2, ih]

theorem mulTasks_ops (ans : F → F → String → F) :
    ∀ (R : List (Char × F)) (t : F),
      (mulTasks ans t R).map (·.2.2) = ((R.map (·.1)).filter isMulDiv).map String.singleton := by
  intro R
  induction R with
  | nil => intro t; rfl
  | cons p R ih =>
    obtain ⟨o, d⟩ := p
    intro t
    by_cases h1 : o = '*'
    · subst h1
      simp only [mulTasks, if_true, List.map_cons, ih]
      rfl
    · by_cases h2 : o = '/'
      · subst h2
        simp only [mulTasks, h1, if_true, if_false, List.map_cons, ih]
        rfl
      · have : isMulDiv o = false := by simp [isMulDiv, h1, h2]
        simp [mulTasks, h1, h2, ih, this]

theorem termsA_append (ans : F → F → String → F) (o : Char) (d : F) (R' : List (Char × F))
    (ho : isMulDiv o = false) :
    ∀ (R1 : List (Char × F)) (t : F),
      termsA ans t (R1 ++ (o, d) :: R') =
        ((termsA ans t R1).1,
          (termsA ans t R1).2 ++ (o, (termsA ans d R').1) :: (termsA ans d R').2) := by
  have ho' : o ≠ '*' ∧ o ≠ '/' := by simpa [isMulDiv] using ho
  intro R1
  induction R1 with
  | nil => intro t; simp [termsA, ho'.1, ho'.2]
  | cons p R1 ih =>
    obtain ⟨o1, d1⟩ := p
    intro t
    by_cases h1 : o1 = '*'
    · simp [termsA, h1, ih]
    · by_cases h2 : o1 = '/'
      · simp [termsA, h1, h2, ih]
      · simp [termsA, h1, h2, ih]

theorem termsA_fst (ans : F → F → String → F) :
    ∀ (R : List (Char × F)) (t : F),
      (termsA ans t R).2.map (·.1) = (R.map (·.1)).filter fun c => !isMulDiv c := by
  intro R
  induction R with
  | nil => intro t; rfl
  | cons p R ih =>
    obtain ⟨o, d⟩ := p
    intro t
    by_cases h1 : o = '*'
    · simp [termsA, h1, ih, isMulDiv]
    · by_cases h2 : o = '/'
      · simp [termsA, h1, h2, ih, isMulDiv]
      · have : isMulDiv o = false := by simp [isMulDiv, h1, h2]
        simp [termsA, h1, h2, ih, this]

theorem sumTasks_append (ans : F → F → String → F) (B : List (Char × F)) :
    ∀ (A : List (Char × F)) (s : F),
      sumTasks ans s (A ++ B) = sumTasks ans s A ++ sumTasks ans (sumA ans s A) B := by
  intro A
  induction A with
  | nil => intro s; rfl
  | cons p A ih =>
    obtain ⟨o, v⟩ := p
    intro s
    by_cases h1 : o = '+'
    · simp [sumTasks, sumA, h1, ih]
    · simp [sumTasks, sumA, h1, ih]

theorem sumTasks_length (ans : F → F → String → F) :
    ∀ (A : List (Char × F)) (s : F), (sumTasks ans s A).length = A.length := by
  intro A
  induction A with
  | nil => intro s; rfl
  | cons p A ih =>
    obtain ⟨o, v⟩ := p
    intro s
    by_cases h1 : o = '+'
    · simp [sumTasks, h1, ih]
    · simp [sumTasks, h1, ih]

theorem sumTasks_ops (ans : F → F → String → F) :
    ∀ (A : List (Char × F)) (s : F), (∀ p ∈ A, p.1 = '+' ∨ p.1 = '-') →
      (sumTasks ans s A).map (·.2.2) = (A.map (·.1)).map String.singleton := by
  intro A
  induction A with
  | nil => intro s _; rfl
  | cons p A ih =>
    obtain ⟨o, v⟩ := p
    intro s hA
    have hA' : ∀ p ∈ A, p.1 = '+' ∨ p.1 = '-' := fun p hp => hA p (List.mem_cons_of_mem _ hp)
    rcases hA (o, v) (List.mem_cons_self _ _) with h | h
    · simp only at h
      subst h
      simp only [sumTasks, if_true, List.map_cons, ih _ hA']
      rfl
    · simp only at h
      subst h
      have hne : ¬ ('-' = '+') := by decide
      simp only [sumTasks, hne, if_false, List.map_cons, ih _ hA']
      rfl

theorem filter_addSub (ops : List Char) (h : ∀ c ∈ ops, isOperator c = true) :
    ops.filter (fun c => !isMulDiv c) = ops.filter isAddSub := by
  apply List.filter_congr
  intro c hc
  have := h c hc
  simp only [isOperator, Bool.or_eq_true, decide_eq_true_eq] at this
  rcases this with ((rfl | rfl) | rfl) | rfl <;> decide


theorem singleton_mul : String.singleton '*' = "*" := rfl
theorem singleton_div : String.singleton '/' = "/" := rfl
theorem singleton_add : String.singleton '+' = "+" := rfl
theorem singleton_sub : String.singleton '-' = "-" := rfl

theorem mulTasks_pair (ans : F → F → String → F) (R1 R3 : List (Char × F)) (o1 o2 : Char)
    (d1 d2 t : F) (h1 : isMulDiv o1 = true) (h2 : isMulDiv o2 = true) :
    mulTasks ans t (R1 ++ (o1, d1) :: (o2, d2) :: R3) =
      mulTasks ans t R1 ++
        (accA ans t R1, d1, String.singleton o1) ::
          (ans (accA ans t R1) d1 (String.singleton o1), d2, String.singleton o2) ::
            mulTasks ans (ans (ans (accA ans t R1) d1 (String.singleton o1)) d2
              (String.singleton o2)) R3 := by
  rw [mulTasks_append]
  simp only [isMulDiv, Bool.or_eq_true, decide_eq_true_eq] at h1 h2
  rcases h1 with rfl | rfl <;> rcases h2 with rfl | rfl <;>
    simp [mulTasks, singleton_mul, singleton_div]

theorem sumTasks_pair (ans : F → F → String → F) (A B : List (Char × F)) (o1 o2 : Char)
    (v1 v2 s : F) (h1 : isAddSub o1 = true) (h2 : isAddSub o2 = true) :
    sumTasks ans s (A ++ (o1, v1) :: (o2, v2) :: B) =
      sumTasks ans s A ++
        (sumA ans s A, v1, String.singleton o1) ::
          (ans (sumA ans s A) v1 (String.singleton o1), v2, String.singleton o2) ::
            sumTasks ans (ans (ans (sumA ans s A) v1 (String.singleton o1)) v2
              (String.singleton o2)) B := by
  rw [sumTasks_append]
  simp only [isAddSub, Bool.or_eq_true, decide_eq_true_eq] at h1 h2
  rcases h1 with rfl | rfl <;> rcases h2 with rfl | rfl <;>
    simp [sumTasks, singleton_add, singleton_sub]


theorem tasks_pair (ans : F → F → String → F) (R1 R3 : List (Char × F)) (o1 o2 : Char)
    (d1 d2 t : F)
    (hR : ∀ p ∈ R1 ++ (o1, d1) :: (o2, d2) :: R3, isOperator p.1 = true)
    (hp : isMulDiv o1 = isMulDiv o2) :
    ∃ pre a b c post,
      mulTasks ans t (R1 ++ (o1, d1) :: (o2, d2) :: R3) ++
          sumTasks ans (termsA ans t (R1 ++ (o1, d1) :: (o2, d2) :: R3)).1
            (termsA ans t (R1 ++ (o1, d1) :: (o2, d2) :: R3)).2 =
        pre ++ (a, b, String.singleton o1) ::
          (ans a b (String.singleton o1), c, String.singleton o2) :: post ∧
      pre.length =
        if isMulDiv o1 = true then ((R1.map (·.1)).filter isMulDiv).length
        else (((R1 ++ (o1, d1) :: (o2, d2) :: R3).map (·.1)).filter isMulDiv).length +
          ((R1.map (·.1)).filter isAddSub).length := by
  by_cases h1 : isMulDiv o1 = true
  · have h2 : isMulDiv o2 = true := by rw [← hp]; exact h1
    refine ⟨mulTasks ans t R1, accA ans t R1, d1, d2,
      mulTasks ans (ans (ans (accA ans t R1) d1 (String.singleton o1)) d2
          (String.singleton o2)) R3 ++
        sumTasks ans (termsA ans t (R1 ++ (o1, d1) :: (o2, d2) :: R3)).1
          (termsA ans t (R1 ++ (o1, d1) :: (o2, d2) :: R3)).2, ?_, ?_⟩
    · rw [mulTasks_pair ans R1 R3 o1 o2 d1 d2 t h1 h2]
      simp only [List.append_assoc, List.cons_append]
    · have := congrArg List.length (mulTasks_ops ans R1 t)
      simpa [h1] using this
  · have h1' : isMulDiv o1 = false := by simpa using h1
    have h2' : isMulDiv o2 = false := by rw [← hp]; exact h1'
    have ha1 : isAddSub o1 = true := by
      have := hR (o1, d1) (by simp)
      simp only [isOperator, Bool.or_eq_true, decide_eq_true_eq] at this
      simp only [isMulDiv, Bool.or_eq_false_iff, decide_eq_false_iff_not] at h1'
      rcases this with ((h | h) | h) | h
      · exact absurd h h1'.1
      · exact absurd h h1'.2
      · simp [isAddSub, h]
      · simp [isAddSub, h]
    have ha2 : isAddSub o2 = true := by
      have := hR (o2, d2) (by simp)
      simp only [isOperator, Bool.or_eq_true, decide_eq_true_eq] at this
      simp only [isMulDiv, Bool.or_eq_false_iff, decide_eq_false_iff_not] at h2'
      rcases this with ((h | h) | h) | h
      · exact absurd h h2'.1
      · exact absurd h h2'.2
      · simp [isAddSub, h]
      · simp [isAddSub, h]
    have hR1 : ∀ c ∈ R1.map (·.1), isOperator c = true := by
      intro c hc
      rw [List.mem_map] at hc
      obtain ⟨p, hp, rfl⟩ := hc
      exact hR p (List.mem_append_left _ hp)
    have e1 := termsA_append ans o1 d1 ((o2, d2) :: R3) h1' R1 t
    have e2 : termsA ans d1 ((o2, d2) :: R3) =
        (d1, (o2, (termsA ans d2 R3).1) :: (termsA ans d2 R3).2) := by
      have := termsA_append ans o2 d2 R3 h2' [] d1
      simpa [termsA] using this
    rw [e2] at e1
    refine ⟨mulTasks ans t (R1 ++ (o1, d1) :: (o2, d2) :: R3) ++
        sumTasks ans (termsA ans t R1).1 (termsA ans t R1).2,
      sumA ans (termsA ans t R1).1 (termsA ans t R1).2, d1, (termsA ans d2 R3).1,
      sumTasks ans
        (ans (ans (sumA ans (termsA ans t R1).1 (termsA ans t R1).2) d1 (String.singleton o1))
          (termsA ans d2 R3).1 (String.singleton o2)) (termsA ans d2 R3).2, ?_, ?_⟩
    · rw [e1]
      simp only
      rw [sumTasks_pair ans _ _ o1 o2 _ _ _ ha1 ha2]
      simp only [List.append_assoc]
    · have l1 := congrArg List.length (mulTasks_ops ans (R1 ++ (o1, d1) :: (o2, d2) :: R3) t)
      have l2 := congrArg List.length (termsA_fst ans R1 t)
      rw [filter_addSub _ hR1] at l2
      simp only [List.length_map] at l1 l2
      simp only [List.length_append, sumTasks_length, h1, l1, l2]
      simp

theorem dispatched_runEvents (env : Env F) (id : Int) (ans : F → F → String → F) :
    ∀ (tids : List Int) (ts : List (F × F × String)), tids.length = ts.length →
      dispatched (runEvents env id ans tids ts) = ts
  | [], [], _ => rfl
  | [], _ :: _, h => by simp at h
  | _ :: _, [], h => by simp at h
  | tid :: tids, (a, b, op) :: ts, h => by
    have := dispatched_runEvents env id ans tids ts (by simpa using h)
    simp only [dispatched] at this
    simp [runEvents, stepEvents, dispatched, newTask, this]

theorem runEvents_split (env : Env F) (id : Int) (ans : F → F → String → F)
    (pre post : List (F × F × String)) (x y : F × F × String) (tids : List Int)
    (h : tids.length = (pre ++ x :: y :: post).length) :
    ∃ tids1 tid1 tid2 tids2, tids1.length = pre.length ∧
      runEvents env id ans tids (pre ++ x :: y :: post) =
        runEvents env id ans tids1 pre ++ stepEvents env id ans tid1 x.1 x.2.1 x.2.2 ++
          stepEvents env id ans tid2 y.1 y.2.1 y.2.2 ++ runEvents env id ans tids2 post := by
  have hlen : pre.length + 2 ≤ tids.length := by
    rw [h]; simp
  have h1 : (tids.take pre.length).length = pre.length := by
    rw [List.length_take]; omega
  have hd : (tids.drop pre.length).length = tids.length - pre.length := List.length_drop _ _
  match hdrop : tids.drop pre.length, hd with
  | [], hd => simp at hd; omega
  | [_], hd => simp at hd; omega
  | tid1 :: tid2 :: tids2, _ =>
    refine ⟨tids.take pre.length, tid1, tid2, tids2, h1, ?_⟩
    have : tids = tids.take pre.length ++ tid1 :: tid2 :: tids2 := by
      rw [← hdrop, List.take_append_drop]
    conv_lhs => rw [this]
    rw [runEvents_append _ _ _ _ _ _ _ h1]
    obtain ⟨a, b, op⟩ := x
    obtain ⟨a', b', op'⟩ := y
    simp [runEvents]


theorem tasksOf_ops [Float64 F] (ans : F → F → String → F) (expression : String)
    (hcount : (digits expression).length = (operators expression).length + 1) :
    (tasksOf ans expression).map (·.2.2) =
      ((operators expression).filter isMulDiv ++ (operators expression).filter isAddSub).map
        String.singleton := by
  obtain ⟨_, ho⟩ := tokens_chain (F := F) expression hcount
  have hops : ∀ c ∈ operators expression, isOperator c = true := by
    intro c hc
    simp only [operators, List.mem_filter] at hc
    exact hc.2
  simp only [tasksOf, List.map_append, mulTasks_ops,
    sumTasks_ops ans _ _ (termsA_ops ans _ (chain_operators expression) _), termsA_fst]
  rw [← ho, filter_addSub _ hops]

theorem int32_of_fits (n : Int) (h : FitsInt32 n) : int32 n = n := by
  unfold int32 FitsInt32 at *
  omega

theorem alternates_append (L2 : List (Event F)) :
    ∀ (L1 : List (Event F)) (s : Bool),
      alternates s (L1 ++ L2) = (alternates s L1).bind fun s1 => alternates s1 L2 := by
  intro L1
  induction L1 with
  | nil => intro s; simp [alternates]
  | cons ev L1 ih =>
    intro s
    cases s <;> cases ev with
    | SaveTask e a b op t => cases t <;> simp [alternates, ih]
    | enqueue t => simp [alternates, ih]
    | receive k v => simp [alternates, ih]
    | SaveExpression i u e st r => simp [alternates, ih]

theorem Quiet_append (L1 L2 : List (Event F)) (c : Bool) (h1 : Quiet true L1)
    (h2 : Quiet c L2) : Quiet c (L1 ++ L2) := by
  obtain ⟨n1, a1⟩ := h1
  obtain ⟨n2, a2⟩ := h2
  refine ⟨?_, ?_⟩
  · intro ev hev
    rcases List.mem_append.1 hev with h | h
    · exact n1 ev h
    · exact n2 ev h
  · simp only [if_true] at a1
    rw [alternates_append, a1]
    exact a2

theorem Quiet_open (L : List (Event F)) (h : Quiet true L) : Quiet false L := by
  obtain ⟨n, a⟩ := h
  simp only [if_true] at a
  exact ⟨n, by simp [a]⟩

theorem Quiet_nil : Quiet true ([] : List (Event F)) :=
  ⟨by intro ev h; simp at h, by simp [alternates]⟩

theorem addTask_quiet [Float64 F] (env : Env F) (id : Int) (op : String) (a b : F)
    (w : World F) :
    Quiet false (addTask env id op a b w).log ∧
      (∀ v, (addTask env id op a b w).outcome = .returned v →
        Quiet true (addTask env id op a b w).log) ∧
      (addTask env id op a b w).outcome ≠ .panicked := by
  unfold addTask
  split
  · simp [Quiet, NoWrite, alternates, isSaveExpression]
  · dsimp only
    split
    · simp [Quiet, NoWrite, alternates, isSaveExpression]
    · split
      · simp [Quiet, NoWrite, alternates, isSaveExpression]
      · split
        · split
          · simp [Quiet, NoWrite, alternates, isSaveExpression]
          · simp [Quiet, NoWrite, alternates, isSaveExpression]
        · simp [Quiet, NoWrite, alternates, isSaveExpression]

theorem reduce_form [Float64 F] (env : Env F) (id userID : Int) (op : String) (i : Nat)
    (numbers : List F) (w : World F) (log : List (Event F)) :
    (∃ res w1 L, Quiet true L ∧ ∀ e,
      (reduce env id userID e op i numbers w log :
        Except (Exec F (Option (List F × List Char))) (F × World F × List (Event F))) =
        .ok (res, w1, log ++ L)) ∨
    (∃ w1 L, Quiet true L ∧ ∀ e,
      (reduce env id userID e op i numbers w log :
        Except (Exec F (Option (List F × List Char))) (F × World F × List (Event F))) =
        .error (fail id userID e w1 (log ++ L))) ∨
    (∃ o w1 L, (o = .blocked ∨ o = .panicked) ∧ Quiet false L ∧ ∀ e,
      (reduce env id userID e op i numbers w log :
        Except (Exec F (Option (List F × List Char))) (F × World F × List (Event F))) =
        .error ⟨o, w1, log ++ L⟩) := by
  rcases h0 : numbers[i]? with _ | a
  · right; right
    exact ⟨.panicked, w, [], Or.inr rfl, Quiet_open _ Quiet_nil, fun e => by simp [reduce, h0]⟩
  · rcases h1 : numbers[i + 1]? with _ | b
    · right; right
      exact ⟨.panicked, w, [], Or.inr rfl, Quiet_open _ Quiet_nil, fun e => by simp [reduce, h0, h1]⟩
    · obtain ⟨hq, hret, hnp⟩ := addTask_quiet env id op a b w
      rcases ho : (addTask env id op a b w).outcome with ⟨tid, res⟩ | _ | _
      · have hq' := hret _ ho
        by_cases ht : tid = -1
        · right; left
          exact ⟨(addTask env id op a b w).world, (addTask env id op a b w).log, hq',
            fun e => by simp [reduce, h0, h1, ho, ht]⟩
        · left
          exact ⟨res, (addTask env id op a b w).world, (addTask env id op a b w).log, hq',
            fun e => by simp [reduce, h0, h1, ho, ht]⟩
      · right; right
        exact ⟨.blocked, (addTask env id op a b w).world, (addTask env id op a b w).log,
          Or.inl rfl, hq, fun e => by simp [reduce, h0, h1, ho]⟩
      · exact absurd ho hnp

theorem StretchForm_extend [Float64 F] {α : Type} (id userID : Int)
    (run run1 : String → Exec F (Option α)) (log L : List (Event F)) (hL : Quiet true L)
    (heq : ∀ e, run e = run1 e) (h : StretchForm id userID run1 (log ++ L)) :
    StretchForm id userID run log := by
  rcases h with ⟨a, w1, L1, hq, h⟩ | ⟨w1, L1, hq, h⟩ | ⟨o, w1, L1, ho, hq, h⟩
  · left
    exact ⟨a, w1, L ++ L1, Quiet_append _ _ _ hL hq, fun e => by rw [heq, h, List.append_assoc]⟩
  · right; left
    exact ⟨w1, L ++ L1, Quiet_append _ _ _ hL hq, fun e => by rw [heq, h, List.append_assoc]⟩
  · right; right
    exact ⟨o, w1, L ++ L1, ho, Quiet_append _ _ _ hL hq,
      fun e => by rw [heq, h, List.append_assoc]⟩

theorem StretchForm_error [Float64 F] (env : Env F) (id userID : Int) (op : String) (i : Nat)
    (numbers : List F) (w : World F) (log : List (Event F)) (e0 : String)
    (x : Exec F (Option (List F × List Char)))
    (h0 : reduce env id userID e0 op i numbers w log = .error x)
    (run : String → Exec F (Option (List F × List Char)))
    (hrun : ∀ e y, reduce env id userID e op i numbers w log = .error y → run e = y) :
    StretchForm id userID run log := by
  rcases reduce_form env id userID op i numbers w log with
    ⟨res, w1, L, _, h⟩ | ⟨w1, L, hq, h⟩ | ⟨o, w1, L, ho, hq, h⟩
  · rw [h e0] at h0
    exact absurd h0 (by simp)
  · right; left
    exact ⟨w1, L, hq, fun e => hrun e _ (h e)⟩
  · right; right
    exact ⟨o, w1, L, ho, hq, fun e => hrun e _ (h e)⟩

theorem StretchForm_ok [Float64 F] (env : Env F) (id userID : Int) (op : String) (i : Nat)
    (numbers : List F) (w : World F) (log : List (Event F)) (e0 : String)
    (res : F) (w1 : World F) (log1 : List (Event F))
    (h0 : reduce env id userID e0 op i numbers w log =
      (.ok (res, w1, log1) :
        Except (Exec F (Option (List F × List Char))) (F × World F × List (Event F)))) :
    ∃ L, Quiet true L ∧ log1 = log ++ L ∧ ∀ e,
      (reduce env id userID e op i numbers w log :
        Except (Exec F (Option (List F × List Char))) (F × World F × List (Event F))) =
        .ok (res, w1, log1) := by
  rcases reduce_form env id userID op i numbers w log with
    ⟨res', w1', L, hq, h⟩ | ⟨w1', L, _, h⟩ | ⟨o, w1', L, _, _, h⟩
  · have := h e0
    rw [h0] at this
    simp only [Except.ok.injEq, Prod.mk.injEq] at this
    obtain ⟨rfl, rfl, rfl⟩ := this
    exact ⟨L, hq, rfl, h⟩
  · rw [h e0] at h0
    exact absurd h0 (by simp)
  · rw [h e0] at h0
    exact absurd h0 (by simp)

theorem firstPass_form [Float64 F] (env : Env F) (id userID : Int) :
    ∀ (i : Nat) (numbers : List F) (operations : List Char) (w : World F)
      (log : List (Event F)),
      StretchForm id userID
        (fun e => firstPass env id userID e i numbers operations w log) log := by
  apply firstPass.induct env id userID ""
    (motive := fun i numbers operations w log =>
      StretchForm id userID (fun e => firstPass env id userID e i numbers operations w log) log)
  · intro i numbers operations w log h hop res w1 log1 hred ih
    obtain ⟨L, hq, rfl, hall⟩ := StretchForm_ok env id userID "*" i numbers w log "" res w1 _ hred
    refine StretchForm_extend id userID _ _ log L hq (fun e => ?_) ih
    show firstPass env id userID e i numbers operations w log = _
    rw [firstPass]
    simp only [h, dite_true, hop, if_true, hall e]
  · intro i numbers operations w log h hop x hred
    refine StretchForm_error env id userID "*" i numbers w log "" x hred _ (fun e y hy => ?_)
    show firstPass env id userID e i numbers operations w log = _
    rw [firstPass]
    simp only [h, dite_true, hop, if_true, hy]
  · intro i numbers operations w log h hne hop v hv hz
    right; left
    refine ⟨w, [], Quiet_nil, fun e => ?_⟩
    show firstPass env id userID e i numbers operations w log = _
    rw [firstPass]
    rw [dif_pos h, if_neg hne, if_pos hop]
    simp only [hv, hz, if_true, List.append_nil]
  · intro i numbers operations w log h hne hop v hv hz res w1 log1 hred ih
    obtain ⟨L, hq, rfl, hall⟩ := StretchForm_ok env id userID "/" i numbers w log "" res w1 _ hred
    refine StretchForm_extend id userID _ _ log L hq (fun e => ?_) ih
    show firstPass env id userID e i numbers operations w log = _
    rw [firstPass]
    rw [dif_pos h, if_neg hne, if_pos hop]
    simp only [hv, hz, if_false, hall e, Bool.false_eq_true]
  · intro i numbers operations w log h hne hop v hv hz x hred
    refine StretchForm_error env id userID "/" i numbers w log "" x hred _ (fun e y hy => ?_)
    show firstPass env id userID e i numbers operations w log = _
    rw [firstPass]
    rw [dif_pos h, if_neg hne, if_pos hop]
    simp only [hv, hz, if_false, hy, Bool.false_eq_true]
  · intro i numbers operations w log h hne hop hv
    right; right
    refine ⟨.panicked, w, [], Or.inr rfl, Quiet_open _ Quiet_nil, fun e => ?_⟩
    show firstPass env id userID e i numbers operations w log = _
    rw [firstPass]
    rw [dif_pos h, if_neg hne, if_pos hop]
    simp only [hv, List.append_nil]
  · intro i numbers operations w log h hne1 hne2 ih
    refine StretchForm_extend id userID _ _ log [] Quiet_nil (fun e => ?_)
      (by rw [List.append_nil]; exact ih)
    show firstPass env id userID e i numbers operations w log = _
    rw [firstPass]
    simp only [h, dite_true, hne1, hne2, if_false]
  · intro i numbers operations w log h
    left
    refine ⟨(numbers, operations), w, [], Quiet_nil, fun e => ?_⟩
    show firstPass env id userID e i numbers operations w log = _
    rw [firstPass]
    simp only [h, dite_false, List.append_nil]

theorem secondPass_form [Float64 F] (env : Env F) (id userID : Int) :
    ∀ (i : Nat) (numbers : List F) (operations : List Char) (w : World F)
      (log : List (Event F)),
      StretchForm id userID
        (fun e => secondPass env id userID e i numbers operations w log) log := by
  apply secondPass.induct env id userID ""
    (motive := fun i numbers operations w log =>
      StretchForm id userID (fun e => secondPass env id userID e i numbers operations w log) log)
  · intro i numbers operations w log h hop res w1 log1 hred ih
    obtain ⟨L, hq, rfl, hall⟩ := StretchForm_ok env id userID "+" i numbers w log "" res w1 _ hred
    refine StretchForm_extend id userID _ _ log L hq (fun e => ?_) ih
    show secondPass env id userID e i numbers operations w log = _
    rw [secondPass]
    rw [dif_pos h, if_pos hop]
    simp only [hall e]
  · intro i numbers operations w log h hop x hred
    refine StretchForm_error env id userID "+" i numbers w log "" x hred _ (fun e y hy => ?_)
    show secondPass env id userID e i numbers operations w log = _
    rw [secondPass]
    rw [dif_pos h, if_pos hop]
    simp only [hy]
  · intro i numbers operations w log h hne hop res w1 log1 hred ih
    obtain ⟨L, hq, rfl, hall⟩ := StretchForm_ok env id userID "-" i numbers w log "" res w1 _ hred
    refine StretchForm_extend id userID _ _ log L hq (fun e => ?_) ih
    show secondPass env id userID e i numbers operations w log = _
    rw [secondPass]
    rw [dif_pos h, if_neg hne, if_pos hop]
    simp only [hall e]
  · intro i numbers operations w log h hne hop x hred
    refine StretchForm_error env id userID "-" i numbers w log "" x hred _ (fun e y hy => ?_)
    show secondPass env id userID e i numbers operations w log = _
    rw [secondPass]
    rw [dif_pos h, if_neg hne, if_pos hop]
    simp only [hy]
  · intro i numbers operations w log h hne1 hne2 ih
    refine StretchForm_extend id userID _ _ log [] Quiet_nil (fun e => ?_)
      (by rw [List.append_nil]; exact ih)
    show secondPass env id userID e i numbers operations w log = _
    rw [secondPass]
    rw [dif_pos h, if_neg hne1, if_neg hne2]
  · intro i numbers operations w log h
    left
    refine ⟨(numbers, operations), w, [], Quiet_nil, fun e => ?_⟩
    show secondPass env id userID e i numbers operations w log = _
    rw [secondPass]
    rw [dif_neg h, List.append_nil]

theorem parseExpression_form [Float64 F] (env : Env F) (id userID : Int) (w : World F)
    (operations : List Char) (numbers : List F) :
    RunForm env id userID w operations numbers := by
  unfold RunForm
  by_cases hc : numbers.length ≠ operations.length + 1
  · left
    refine ⟨w, [], "error", Float64.ofNat 0, Quiet_nil, Or.inr ⟨rfl, rfl⟩, fun e he => ?_⟩
    unfold parseExpression
    rw [he]
    simp only [List.nil_append]
    rw [if_pos hc]
  · rcases firstPass_form env id userID 0 numbers operations w [] with
      ⟨⟨n1, o1⟩, w1, L1, hq1, h1⟩ | ⟨w1, L1, hq1, h1⟩ | ⟨o, w1, L1, ho, hq1, h1⟩
    all_goals simp only [List.nil_append] at h1
    · rcases secondPass_form env id userID 0 n1 o1 w1 L1 with
        ⟨⟨n2, o2⟩, w2, L2, hq2, h2⟩ | ⟨w2, L2, hq2, h2⟩ | ⟨o, w2, L2, ho, hq2, h2⟩
      all_goals simp only at h2
      · rcases hn : n2[0]? with _ | v
        · right
          refine ⟨.panicked, w2, L1 ++ L2, Or.inr rfl,
            Quiet_open _ (Quiet_append _ _ _ hq1 hq2), fun e he => ?_⟩
          unfold parseExpression
          rw [he]
          simp only
          rw [if_neg hc, h1 e]
          simp only [h2 e, complete, hn]
        · left
          refine ⟨w2, L1 ++ L2, "completed", v, Quiet_append _ _ _ hq1 hq2, Or.inl rfl,
            fun e he => ?_⟩
          unfold parseExpression
          rw [he]
          simp only
          rw [if_neg hc, h1 e]
          simp only [h2 e, complete, hn]
      · left
        refine ⟨w2, L1 ++ L2, "error", Float64.ofNat 0, Quiet_append _ _ _ hq1 hq2,
          Or.inr ⟨rfl, rfl⟩, fun e he => ?_⟩
        unfold parseExpression
        rw [he]
        simp only
        rw [if_neg hc, h1 e]
        simp only [h2 e, fail]
      · rcases ho with rfl | rfl
        · right
          refine ⟨.blocked, w2, L1 ++ L2, Or.inl rfl, Quiet_append _ _ _ hq1 hq2,
            fun e he => ?_⟩
          unfold parseExpression
          rw [he]
          simp only
          rw [if_neg hc, h1 e]
          simp only [h2 e]
        · right
          refine ⟨.panicked, w2, L1 ++ L2, Or.inr rfl, Quiet_append _ _ _ hq1 hq2,
            fun e he => ?_⟩
          unfold parseExpression
          rw [he]
          simp only
          rw [if_neg hc, h1 e]
          simp only [h2 e]
    · left
      refine ⟨w1, L1, "error", Float64.ofNat 0, hq1, Or.inr ⟨rfl, rfl⟩, fun e he => ?_⟩
      unfold parseExpression
      rw [he]
      simp only
      rw [if_neg hc, h1 e]
      simp only [fail]
    · rcases ho with rfl | rfl
      · right
        refine ⟨.blocked, w1, L1, Or.inl rfl, hq1, fun e he => ?_⟩
        unfold parseExpression
        rw [he]
        simp only
        rw [if_neg hc, h1 e]
      · right
        refine ⟨.panicked, w1, L1, Or.inr rfl, hq1, fun e he => ?_⟩
        unfold parseExpression
        rw [he]
        simp only
        rw [if_neg hc, h1 e]

theorem addTaskSteps_spec [Float64 F] (env : Env F) (id : Int) (op : String) (a b : F)
    (w : World F) :
    (narrow false (addTaskSteps env id op a b w)).isSome = true ∧
    (∀ v, (addTask env id op a b w).outcome = .returned v →
      narrow false (addTaskSteps env id op a b w) = some false) ∧
    (addTaskSteps env id op a b w).filter Step.isEffect =
      (addTask env id op a b w).log.map Event.kind := by
  rcases h1 : w.db.SaveTask id a b op with ⟨db1, _ | tid⟩
  · simp [addTaskSteps, addTask, h1, narrow, Step.isEffect, Event.kind]
  · rcases h2 : await env (trySendTask (newTask env tid a b op)) { w with db := db1 } with
      ⟨_ | _, w1⟩
    · have h2' := h2
      simp only [newTask] at h2'
      simp [addTaskSteps, addTask, h1, h2, h2', narrow, Step.isEffect, Event.kind]
    · have h2' := h2
      simp only [newTask] at h2'
      rcases h3 : await env tryLock w1 with ⟨_ | _, w2⟩
      · simp [addTaskSteps, addTask, h1, h2, h2', h3, narrow, Step.isEffect, Event.kind]
      · by_cases h4 : (w2.chTaskResults id).isSome = true
        · rcases h5 : await env (tryReceive id) (unlock w2) with ⟨_ | _, w3⟩
          · simp [addTaskSteps, addTask, h1, h2, h2', h3, h4, h5, narrow, Step.isEffect,
              Event.kind]
          · simp [addTaskSteps, addTask, h1, h2, h2', h3, h4, h5, narrow, Step.isEffect,
              Event.kind]
        · simp [addTaskSteps, addTask, h1, h2, h2', h3, h4, narrow, Step.isEffect, Event.kind]

theorem SendTaskResultSteps_spec (env : Env F) (result : TaskResult F) (w : World F) :
    (narrow false (SendTaskResultSteps env result w)).isSome = true ∧
    (∀ v, (SendTaskResult env result w).1 = .returned v →
      narrow false (SendTaskResultSteps env result w) = some false) := by
  by_cases h1 : (w.db.UpdateTaskResult result.Id result.Result).2 = true
  · simp [SendTaskResultSteps, SendTaskResult, h1, narrow]
  · rcases h3 : await env tryLock
        { w with db := (w.db.UpdateTaskResult result.Id result.Result).1 } with ⟨_ | _, w1⟩
    · simp [SendTaskResultSteps, SendTaskResult, h1, h3, narrow]
    · by_cases h4 : (w1.chTaskResults result.Id).isSome = true
      · rcases h5 : await env (trySendResult result.Id result.Result) (unlock w1) with
          ⟨_ | _, w2⟩
        · simp [SendTaskResultSteps, SendTaskResult, h1, h3, h4, h5, narrow]
        · simp [SendTaskResultSteps, SendTaskResult, h1, h3, h4, h5, narrow]
      · simp [SendTaskResultSteps, SendTaskResult, h1, h3, h4, narrow]

theorem foldl_max_ge (l : List Int) :
    ∀ x : Int, x ≤ l.foldl max x ∧ ∀ y ∈ l, y ≤ l.foldl max x := by
  induction l with
  | nil => intro x; simp
  | cons a l ih =>
    intro x
    obtain ⟨h1, h2⟩ := ih (max x a)
    refine ⟨le_trans (le_max_left x a) h1, ?_⟩
    intro y hy
    rcases List.mem_cons.1 hy with rfl | hy
    · exact le_trans (le_max_right x y) h1
    · exact h2 y hy

theorem foldl_max_mem (l : List Int) : ∀ x : Int, l.foldl max x ∈ x :: l := by
  induction l with
  | nil => intro x; simp
  | cons a l ih =>
    intro x
    have := ih (max x a)
    rcases List.mem_cons.1 this with h | h
    · rcases max_choice x a with hm | hm
      · rw [List.foldl_cons, h, hm]; exact List.mem_cons_self _ _
      · rw [List.foldl_cons, h, hm]; exact List.mem_cons_of_mem _ (List.mem_cons_self _ _)
    · exact List.mem_cons_of_mem _ (List.mem_cons_of_mem _ h)

theorem maxExpressionID_ge (d : Database F) : ∀ r ∈ d.expressions, r.id ≤ d.maxExpressionID := by
  intro r hr
  have hm : r.id ∈ d.expressions.map (·.id) := List.mem_map_of_mem _ hr
  unfold Database.maxExpressionID
  cases h : d.expressions.map (·.id) with
  | nil => rw [h] at hm; simp at hm
  | cons x xs =>
    rw [h] at hm
    simp only
    rcases List.mem_cons.1 hm with h1 | h1
    · rw [h1]; exact (foldl_max_ge xs x).1
    · exact (foldl_max_ge xs x).2 _ h1

theorem maxExpressionID_mem (d : Database F) (h : d.expressions ≠ []) :
    ∃ r ∈ d.expressions, r.id = d.maxExpressionID := by
  unfold Database.maxExpressionID
  cases hm : d.expressions.map (·.id) with
  | nil => exact absurd (List.map_eq_nil_iff.1 hm) h
  | cons x xs =>
    simp only
    have := foldl_max_mem xs x
    rw [← hm, List.mem_map] at this
    obtain ⟨r, hr, hrid⟩ := this
    exact ⟨r, hr, hrid⟩

theorem GetTasks_take [Float64 F] (env : Env F) :
    ∀ (n : Nat) (w : World F), n ≤ w.taskQueue.length →
      GetTasks env n w = (w.taskQueue.take n, { w with taskQueue := w.taskQueue.drop n }) := by
  intro n
  induction n with
  | zero => intro w _; simp [GetTasks]
  | succ n ih =>
    intro w hn
    cases hq : w.taskQueue with
    | nil => rw [hq] at hn; simp at hn
    | cons t rest =>
      have hg : GetTask env w = ((t, false), { w with taskQueue := rest }) := by
        simp [GetTask, hq]
      have hn' : n ≤ ({ w with taskQueue := rest } : World F).taskQueue.length := by
        rw [hq] at hn
        simpa using hn
      simp [GetTasks, hg, ih _ hn']

theorem alternates_counts :
    ∀ (L : List (Event F)) (s t : Bool), alternates s L = some t →
      created L + (if s then 1 else 0) = awaited L + (if t then 1 else 0) := by
  intro L
  induction L with
  | nil =>
    intro s t h
    simp only [alternates, Option.some.injEq] at h
    subst h
    simp [created, awaited]
  | cons ev L ih =>
    intro s t h
    cases s <;> cases ev with
    | SaveTask e a b op tid =>
      cases tid <;> simp only [alternates, reduceCtorEq] at h
      all_goals have := ih _ _ h
      all_goals simp only [created, awaited] at *
      all_goals simp only [if_true, if_false, Bool.false_eq_true] at *
      all_goals omega
    | enqueue tk =>
      simp only [alternates, reduceCtorEq] at h
      all_goals have := ih _ _ h
      all_goals simp only [created, awaited] at *
      all_goals simp only [if_true, if_false, Bool.false_eq_true] at *
      all_goals omega
    | receive k v =>
      simp only [alternates, reduceCtorEq] at h
      all_goals have := ih _ _ h
      all_goals simp only [created, awaited] at *
      all_goals simp only [if_true, if_false, Bool.false_eq_true] at *
      all_goals omega
    | SaveExpression i u e st r =>
      simp only [alternates, reduceCtorEq] at h
      all_goals have := ih _ _ h
      all_goals simp only [created, awaited] at *
      all_goals simp only [if_true, if_false, Bool.false_eq_true] at *
      all_goals omega

theorem alternates_prefix (pre post : List (Event F)) (s : Bool)
    (h : (alternates s (pre ++ post)).isSome = true) :
    ∃ t, alternates s pre = some t ∧ (alternates t post).isSome = true := by
  rw [alternates_append] at h
  cases hp : alternates s pre with
  | none => rw [hp] at h; simp at h
  | some t => rw [hp] at h; exact ⟨t, rfl, by simpa using h⟩

theorem alternates_at (ev : Event F) (post : List (Event F)) (t : Bool)
    (h : (alternates t (ev :: post)).isSome = true) :
    (isCreation ev = true → t = false) ∧ (isEnqueue ev = true → t = true) := by
  cases t <;> cases ev with
  | SaveTask e a b op tid => cases tid <;> simp_all [alternates, isCreation, isEnqueue]
  | enqueue tk => simp_all [alternates, isCreation, isEnqueue]
  | receive k v => simp_all [alternates, isCreation, isEnqueue]
  | SaveExpression i u e st r => simp_all [alternates, isCreation, isEnqueue]

theorem alternates_write (id userID : Int) (e status : String) (result : F)
    (L : List (Event F)) (s : Bool) :
    alternates s (L ++ [.SaveExpression id userID e status result]) = alternates s L := by
  rw [alternates_append]
  cases alternates s L with
  | none => rfl
  | some t => cases t <;> simp [alternates]

theorem parseExpression_cases [Float64 F] (env : Env F) (id userID : Int) (e : String)
    (w : World F) :
    (∃ (w1 : World F) (L : List (Event F)) (status : String) (result : F), Quiet true L ∧
      (status = "completed" ∨ (status = "error" ∧ result = Float64.ofNat 0)) ∧
      parseExpression env id userID e w =
        ⟨.returned (),
          { w1 with db := (w1.db.SaveExpression id userID e status result).1 },
          L ++ [.SaveExpression id userID e status result]⟩) ∨
    (∃ (o : Outcome Unit) (w1 : World F) (L : List (Event F)),
      (o = .blocked ∨ o = .panicked) ∧ Quiet false L ∧
      parseExpression env id userID e w = ⟨o, w1, L⟩) := by
  rcases ht : tokenize (F := F) (goRunes e) (goBytes e) 0 [] [] with _ | ⟨ops, nums⟩
  · right
    refine ⟨.panicked, w, [], Or.inr rfl, Quiet_open _ Quiet_nil, ?_⟩
    unfold parseExpression
    rw [ht]
  · rcases parseExpression_form env id userID w ops nums with
      ⟨w1, L, status, result, hq, hs, h⟩ | ⟨o, w1, L, ho, hq, h⟩
    · exact Or.inl ⟨w1, L, status, result, hq, hs, h e ht⟩
    · exact Or.inr ⟨o, w1, L, ho, hq, h e ht⟩

theorem SaveExpression_text (d : Database F) (id userID : Int) (e1 e2 status : String)
    (result : F) :
    (d.SaveExpression id userID e1 status result).1.expressions.map ExpressionRow.withoutText =
      (d.SaveExpression id userID e2 status result).1.expressions.map ExpressionRow.withoutText ∧
    (d.SaveExpression id userID e1 status result).1.tasks =
      (d.SaveExpression id userID e2 status result).1.tasks ∧
    (d.SaveExpression id userID e1 status result).1.faults =
      (d.SaveExpression id userID e2 status result).1.faults := by
  unfold Database.SaveExpression
  by_cases h1 : d.exec.1 = true
  · simp [h1]
  · by_cases h2 : d.exec.2.exec.1 = true
    · simp [h1, h2]
    · by_cases h3 : (d.expressions.filter (fun r => r.id = id)).length > 0
      · simp only [h1, h2, h3, if_true, if_false, Bool.false_eq_true, List.map_map, and_self,
          and_true]
        apply List.map_congr_left
        intro r _
        by_cases hr : r.id = id <;> simp [hr, ExpressionRow.withoutText]
      · simp [h1, h2, h3, ExpressionRow.withoutText]

theorem dispatched_write (id userID : Int) (e status : String) (result : F)
    (L : List (Event F)) :
    dispatched (L ++ [Event.SaveExpression id userID e status result]) = dispatched L := by
  simp [dispatched, List.filterMap_append]

theorem persisted_write (id userID : Int) (e status : String) (result : F)
    (L : List (Event F)) :
    persisted (L ++ [Event.SaveExpression id userID e status result]) =
      persisted L ++ [(status, result)] := by
  simp [persisted, List.filterMap_append]

theorem isStep_write (id userID : Int) (e status : String) (result : F)
    (L : List (Event F)) :
    (L ++ [Event.SaveExpression id userID e status result]).filter isStep = L.filter isStep := by
  simp [List.filter_append, isStep, isSaveExpression]

theorem handleCalculate_steps [Float64 F] (env : Env F) (req : CalcRequest) (w : World F) :
    (handleCalculate env req w).steps ∈ calculateTraces ∧
    ∀ id, (handleCalculate env req w).outcome = .returned { status := 201, id := id } →
      (handleCalculate env req w).steps = [.store, .lock, .store, .registry, .unlock] ∧
        (handleCalculate env req w).world.mu = false := by
  rcases hb : req.body with _ | expr
  · simp [handleCalculate, hb, calculateTraces]
  · rcases hu : req.userID with _ | userID
    · simp [handleCalculate, hb, hu, calculateTraces]
    · rcases h1 : w.db.GetLastExpressionID with ⟨db1, _ | lastID⟩
      · simp [handleCalculate, hb, hu, h1, calculateTraces]
      · rcases h2 : await env tryLock { w with db := db1 } with ⟨_ | _, w1⟩
        · simp [handleCalculate, hb, hu, h1, h2, calculateTraces]
        · by_cases h3 : (w1.db.SaveExpression (lastID + 1) userID expr "processing"
              (Float64.ofNat 0)).2 = true
          · simp [handleCalculate, hb, hu, h1, h2, h3, calculateTraces]
          · simp [handleCalculate, hb, hu, h1, h2, h3, calculateTraces, unlock]

theorem parkedAt_tasks (env : Env F) (id : Int) (op : String) (a b : F) (w : World F)
    (hx : w.db.exec.1 = false) :
    (parkedAt env id op a b w).db.tasks = w.db.tasks ++ [newRow id w.db.nextTaskID a b op] ∧
    (parkedAt env id op a b w).db.faults = w.db.faults.tail := by
  unfold parkedAt Database.SaveTask
  rw [if_neg (by rw [hx]; simp)]
  exact ⟨rfl, rfl⟩

theorem addTask_answered [Float64 F] (env : Env F) (id : Int) (ans : F → F → String → F)
    (op : String) (a b : F) (w : World F) (hr : Ready id w) (ha : Answers env id ans)
    (hx : w.db.exec.1 = false) :
    addTask env id op a b w =
      ⟨.returned (w.db.nextTaskID, ans a b op), resumedAt env id op a b w,
        stepEvents env id ans w.db.nextTaskID a b op⟩ := by
  obtain ⟨hmu, hq, hch⟩ := hr
  obtain ⟨v1, v2, v3⟩ := ha (parkedAt env id op a b w) (newTask env w.db.nextTaskID a b op)
    rfl (by simp [parkedAt]) hch
  simp [addTask, Database.SaveTask, hx, await, trySendTask, hq, tryLock, hmu, unlock, hch,
    tryReceive, stepEvents, parkedAt, newTask, resumedAt] at v1 ⊢
  simp [v1]

theorem single_run [Float64 F] (env : Env F) (id userID : Int) (expression : String)
    (ans : F → F → String → F) (w : World F) (A B : F) (op : Char)
    (htok : tokenize (goRunes expression) (goBytes expression) 0 [] [] = some ([op], [A, B]))
    (hop : isOperator op = true) (hb : op = '/' → Float64.eqZero B = false)
    (hr : Ready id w) (ha : Answers env id ans) (hx : w.db.exec.1 = false) :
    parseExpression env id userID expression w =
      ⟨.returned (),
        { resumedAt env id (String.singleton op) A B w with
            db := ((resumedAt env id (String.singleton op) A B w).db.SaveExpression id userID
              expression "completed" (ans A B (String.singleton op))).1 },
        stepEvents env id ans w.db.nextTaskID A B (String.singleton op) ++
          [.SaveExpression id userID expression "completed" (ans A B (String.singleton op))]⟩ := by
  have hadd := fun o => addTask_answered env id ans o A B w hr ha hx
  have hne : w.db.nextTaskID ≠ -1 := by
    have := nextTaskID_pos w.db
    omega
  have e1 : ∀ (res : F) (w3 : World F) (L : List (Event F)),
      firstPass env id userID expression 0 [res] [] w3 L = ⟨.returned (some ([res], [])), w3, L⟩ := by
    intro res w3 L
    rw [firstPass]
    simp
  have e2 : ∀ (res : F) (w3 : World F) (L : List (Event F)),
      secondPass env id userID expression 0 [res] [] w3 L =
        ⟨.returned (some ([res], [])), w3, L⟩ := by
    intro res w3 L
    rw [secondPass]
    simp
  simp only [isOperator, Bool.or_eq_true, decide_eq_true_eq] at hop
  unfold parseExpression
  rw [htok]
  simp only [List.length_cons, List.length_nil, ne_eq, not_true_eq_false, if_false]
  rcases hop with ((rfl | rfl) | rfl) | rfl
  · rw [firstPass]
    simp [reduce, hadd, hne, e1, e2, complete, singleton_mul]
  · rw [firstPass]
    simp [reduce, hadd, hne, e1, e2, complete, singleton_div, hb rfl]
  · rw [firstPass]
    simp only [List.length_singleton, Nat.lt_one_iff, dite_true, List.getElem_cons_zero]
    rw [if_neg (by decide), if_neg (by decide), firstPass]
    simp only [List.length_singleton, Nat.lt_irrefl, dite_false, zero_add]
    rw [secondPass]
    simp [reduce, hadd, hne, e2, complete, singleton_add]
  · rw [firstPass]
    simp only [List.length_singleton, Nat.lt_one_iff, dite_true, List.getElem_cons_zero]
    rw [if_neg (by decide), if_neg (by decide), firstPass]
    simp only [List.length_singleton, Nat.lt_irrefl, dite_false, zero_add]
    rw [secondPass]
    simp [reduce, hadd, hne, e2, complete, singleton_sub]

theorem answering_keepsTasks (id : Int) (ans : F → F → String → F) (w : World F) :
    ((answering id ans).others w).db = w.db := by
  simp only [answering]
  cases w.taskQueue.getLast? <;> rfl

/-- A request that is not overlapped by another one: the body decodes (text
`expr`), the context carries the user id `userID`, the store works and the mutex
is free. `handleCalculate` answers 201 with the id m+1, where m is the largest
stored expression id (0 when none is stored): the id is above every stored id,
the row (m+1, userID, expr, "processing", 0) is added to the table and the other
rows are kept, an empty future is registered under m+1 and no other registry
entry changes, the mutex is free afterwards, and the Reducer is started on
(m+1, userID, expr). -/
theorem handleCalculate_created [Float64 F] (env : Env F) (req : CalcRequest) (w : World F)
    (expr : String) (userID : Int) (hbody : req.body = some expr)
    (huser : req.userID = some userID) (hstore : w.db.faults = []) (hmu : w.mu = false) :
    (handleCalculate env req w).outcome =
      .returned { status := 201, id := some (w.db.maxExpressionID + 1) } ∧
    (handleCalculate env req w).world.db.expressions =
      w.db.expressions ++
        [{ id := w.db.maxExpressionID + 1, user_id := userID, expression := expr,
           status := "processing", result := Float64.ofNat 0 }] ∧
    (∀ r ∈ w.db.expressions, r.id < w.db.maxExpressionID + 1) ∧
    (w.db.expressions ≠ [] → ∃ r ∈ w.db.expressions, w.db.maxExpressionID + 1 = r.id + 1) ∧
    (handleCalculate env req w).world.chTaskResults (w.db.maxExpressionID + 1) = some [] ∧
    (∀ k, k ≠ w.db.maxExpressionID + 1 →
      (handleCalculate env req w).world.chTaskResults k = w.chTaskResults k) ∧
    (handleCalculate env req w).world.mu = false ∧
    (handleCalculate env req w).spawned = some (w.db.maxExpressionID + 1, userID, expr) ∧
    (w.db.expressions = [] → w.db.maxExpressionID + 1 = 1) := by
  have hlt : ∀ r ∈ w.db.expressions, r.id < w.db.maxExpressionID + 1 := by
    intro r hr
    have := maxExpressionID_ge w.db r hr
    omega
  have hnone : (w.db.expressions.filter fun r => r.id = w.db.maxExpressionID + 1).length = 0 := by
    rw [List.length_eq_zero, List.filter_eq_nil_iff]
    intro r hr
    have := hlt r hr
    simp only [decide_eq_true_eq]
    omega
  have hget : w.db.GetLastExpressionID =
      ({ w.db with faults := [] }, some w.db.maxExpressionID) := by
    simp [Database.GetLastExpressionID, Database.exec, hstore]
  have hsave : ({ w.db with faults := [] } : Database F).SaveExpression
      (w.db.maxExpressionID + 1) userID expr "processing" (Float64.ofNat 0) =
      ({ w.db with
          faults := []
          expressions := w.db.expressions ++
            [{ id := w.db.maxExpressionID + 1, user_id := userID, expression := expr,
               status := "processing", result := Float64.ofNat 0 }] }, false) := by
    simp [Database.SaveExpression, Database.exec, hnone]
  have hrun : handleCalculate env req w =
      ⟨.returned { status := 201, id := some (w.db.maxExpressionID + 1) },
        { db := { w.db with
                    faults := []
                    expressions := w.db.expressions ++
                      [{ id := w.db.maxExpressionID + 1, user_id := userID, expression := expr,
                         status := "processing", result := Float64.ofNat 0 }] }
          taskQueue := w.taskQueue
          chTaskResults := Function.update w.chTaskResults (w.db.maxExpressionID + 1) (some [])
          mu := false },
        some (w.db.maxExpressionID + 1, userID, expr),
        [.store, .lock, .store, .registry, .unlock]⟩ := by
    simp [handleCalculate, hbody, huser, hget, await, tryLock, hmu, hsave, unlock]
  rw [hrun]
  refine ⟨rfl, rfl, hlt, ?_, by simp, ?_, rfl, rfl, ?_⟩
  · intro hne
    obtain ⟨r, hr, hrid⟩ := maxExpressionID_mem w.db hne
    exact ⟨r, hr, by rw [hrid]⟩
  · intro k hk
    simp [Function.update, hk]
  · intro he
    simp [Database.maxExpressionID, he]

/-! ## The claims -/

/-- C1. For an ASCII text with n+1 digits and n operators and no `/` with right
operand 0, when every awaited future delivers `compute a b op` for the task just
enqueued (and the store works and nothing else blocks), `parseExpression` returns
after a last store call that saves status "completed" with the value of the text
under the usual precedence and left association, and the expression row then
holds that status and result. -/
theorem parseExpression_completed_value [Float64 F] (env : Env F) (id userID : Int)
    (expression : String) (w : World F) (hascii : IsASCII expression)
    (hcount : (digits expression).length = (operators expression).length + 1)
    (hdiv : NoZeroDivisor expression) (hready : Ready id w) (hstore : w.db.faults = [])
    (hans : Answers env id compute) (hkeep : KeepsStore env) :
    ∃ w1 log,
      parseExpression env id userID expression w =
        ⟨.returned (), w1,
          log ++ [.SaveExpression id userID expression "completed" (value expression)]⟩ ∧
      (∃ r ∈ w1.db.expressions, r.id = id) ∧
      ∀ r ∈ w1.db.expressions, r.id = id →
        r.expression = expression ∧ r.status = "completed" ∧ r.result = value expression := by
  obtain ⟨w2, tids, _, hf2, _, h⟩ :=
    parseExpression_run env id userID expression compute w hascii hcount hdiv hready hstore
      hans hkeep
  rw [resultOf_compute expression hdiv] at h
  obtain ⟨h1, h2, _⟩ := SaveExpression_stored w2.db id userID expression "completed"
    (value expression) hf2
  exact ⟨_, _, h, h1, h2⟩

/-- C1 at "2*3+1": the run ends completed with 7. -/
theorem parseExpression_completed_value_witness :
    (IsASCII "2*3+1" ∧ NoZeroDivisor "2*3+1") ∧
    ∃ w1 log,
      parseExpression (answering 7 compute) 7 1 "2*3+1" (freshWorld 7 : World ℚ) =
        ⟨.returned (), w1, log ++ [.SaveExpression 7 1 "2*3+1" "completed" 7]⟩ ∧
      (∃ r ∈ w1.db.expressions, r.id = 7) ∧
      ∀ r ∈ w1.db.expressions, r.id = 7 →
        r.expression = "2*3+1" ∧ r.status = "completed" ∧ r.result = 7 := by
  have hv : (value "2*3+1" : ℚ) = 7 := by
    simp [value, chainOf, rightOperands, digits, operators, isDigit, isOperator, evalTerms,
      evalSum, Float64.mul, Float64.add, Float64.ofNat]
    norm_num
  have h := parseExpression_completed_value (answering 7 compute) 7 1 "2*3+1"
    (freshWorld 7 : World ℚ) (by unfold IsASCII; decide) (by decide)
    (by unfold NoZeroDivisor; decide) (freshWorld_ready 7) rfl (answering_answers 7 compute)
    (answering_keepsStore 7 compute)
  rw [hv] at h
  exact ⟨⟨by unfold IsASCII; decide, by unfold NoZeroDivisor; decide⟩, h⟩

/-- C2 (the code departs from it). Task 2 is stored with owning expression 1, and the
futures of expressions 1 and 2 are registered and empty: `SendTaskResult` for task 2
with value 7 looks the future up under the task id, so it leaves the future of the
owning expression 1 empty and writes 7 into the future of expression 2. -/
theorem SendTaskResult_wrong_future :
    ((twoExpressions.db.tasks.find? fun r => r.id = 2).map (·.expression_id)) = some 1 ∧
    (SendTaskResult idle ⟨2, 7⟩ twoExpressions).1 =
      .returned { Success := true } ∧
    (SendTaskResult idle ⟨2, 7⟩ twoExpressions).2.chTaskResults 1 = some [] ∧
    (SendTaskResult idle ⟨2, 7⟩ twoExpressions).2.chTaskResults 2 = some [7] := by
  refine ⟨by decide, ?_, ?_, ?_⟩ <;>
    simp [SendTaskResult, twoExpressions, Database.UpdateTaskResult, Database.exec, await, tryLock,
      unlock, trySendResult, Function.update]


/-- C3. For an ASCII text with n+1 digits and n operators and no `/` with right
operand 0, when every step is answered (store working, nothing else blocking), the
run completes and the operators of the tasks it dispatches are the `*` and `/` of
the text in source order followed by its `+` and `-` in source order; and for two
adjacent operators o1 o2 of equal precedence the log holds, one after the other,
the step of o1 on some (a, b) and the step of o2 whose left operand is the value
delivered for (a, b, o1), the first of them at the place of o1 in that order. -/
theorem parseExpression_dispatch_order [Float64 F] (env : Env F) (id userID : Int)
    (expression : String) (ans : F → F → String → F) (w : World F)
    (hascii : IsASCII expression)
    (hcount : (digits expression).length = (operators expression).length + 1)
    (hdiv : NoZeroDivisor expression) (hready : Ready id w) (hstore : w.db.faults = [])
    (hans : Answers env id ans) (hkeep : KeepsStore env) :
    ∃ w1 log,
      parseExpression env id userID expression w =
        ⟨.returned (), w1,
          log ++ [.SaveExpression id userID expression "completed" (resultOf ans expression)]⟩ ∧
      dispatched log = tasksOf ans expression ∧
      (dispatched log).map (·.2.2) =
        ((operators expression).filter isMulDiv ++ (operators expression).filter isAddSub).map
          String.singleton ∧
      ∀ pre o1 o2 post, operators expression = pre ++ o1 :: o2 :: post →
        isMulDiv o1 = isMulDiv o2 →
        ∃ before tid1 tid2 a b c after,
          log = before ++ stepEvents env id ans tid1 a b (String.singleton o1) ++
            stepEvents env id ans tid2 (ans a b (String.singleton o1)) c (String.singleton o2) ++
            after ∧
          (dispatched before).length =
            if isMulDiv o1 = true then (pre.filter isMulDiv).length
            else ((operators expression).filter isMulDiv).length +
              (pre.filter isAddSub).length := by
  obtain ⟨w2, tids, hl, _, _, h⟩ :=
    parseExpression_run env id userID expression ans w hascii hcount hdiv hready hstore
      hans hkeep
  have hdisp := dispatched_runEvents env id ans tids _ hl
  refine ⟨_, _, h, hdisp, ?_, ?_⟩
  · rw [hdisp]
    exact tasksOf_ops ans expression hcount
  · intro pre o1 o2 post hsplit hprec
    obtain ⟨_, ho⟩ := tokens_chain (F := F) expression hcount
    rw [ho] at hsplit
    obtain ⟨R1, R2, hR, hR1, hR2⟩ := List.map_eq_append_iff.1 hsplit
    obtain ⟨p1, R2', rfl, hp1, hR2'⟩ := List.map_eq_cons_iff.1 hR2
    obtain ⟨p2, R3, rfl, hp2, hR3⟩ := List.map_eq_cons_iff.1 hR2'
    obtain ⟨o1', d1⟩ := p1
    obtain ⟨o2', d2⟩ := p2
    simp only at hp1 hp2
    subst hp1 hp2
    have hops := chain_operators (F := F) expression
    rw [hR] at hops
    obtain ⟨tpre, a, b, c, tpost, htasks, hlen⟩ :=
      tasks_pair ans R1 R3 o1' o2' d1 d2 (chainOf expression).1 hops hprec
    have htasks' : tasksOf ans expression =
        tpre ++ (a, b, String.singleton o1') ::
          (ans a b (String.singleton o1'), c, String.singleton o2') :: tpost := by
      rw [← htasks, tasksOf, hR]
    rw [htasks'] at hl
    obtain ⟨tids1, tid1, tid2, tids2, hl1, hsplit'⟩ :=
      runEvents_split env id ans tpre tpost _ _ tids hl
    refine ⟨runEvents env id ans tids1 tpre, tid1, tid2, a, b, c,
      runEvents env id ans tids2 tpost, ?_, ?_⟩
    · rw [htasks', hsplit']
    · rw [dispatched_runEvents env id ans tids1 tpre hl1, hlen, ← hR1, ho, hR]


/-- C3 at "8/2/2" with exact answers: (8,2,/) then (4,2,/), completed with 2. -/
theorem parseExpression_dispatch_order_witness :
    ∃ w1 log,
      parseExpression (answering 7 compute) 7 1 "8/2/2" (freshWorld 7 : World ℚ) =
        ⟨.returned (), w1, log ++ [.SaveExpression 7 1 "8/2/2" "completed" 2]⟩ ∧
      dispatched log = [(8, 2, "/"), (4, 2, "/")] := by
  obtain ⟨w1, log, h1, h2, _⟩ := parseExpression_dispatch_order (answering 7 compute) 7 1
    "8/2/2" compute (freshWorld 7 : World ℚ) (by unfold IsASCII; decide) (by decide)
    (by unfold NoZeroDivisor; decide) (freshWorld_ready 7) rfl (answering_answers 7 compute)
    (answering_keepsStore 7 compute)
  have hv : resultOf compute "8/2/2" = (2 : ℚ) := by
    simp [resultOf, chainOf, rightOperands, digits, operators, isDigit, isOperator, termsA, sumA,
      compute, Float64.div, Float64.eqZero, Float64.ofNat]
    norm_num
  have ht : tasksOf compute "8/2/2" = [((8 : ℚ), (2 : ℚ), "/"), (4, 2, "/")] := by
    simp [tasksOf, chainOf, rightOperands, digits, operators, isDigit, isOperator, termsA,
      mulTasks, sumTasks, compute, Float64.div, Float64.eqZero, Float64.ofNat]
    norm_num
  rw [hv] at h1
  rw [ht] at h2
  exact ⟨w1, log, h1, h2⟩

/-- C4. For an ASCII text whose number of digits differs from its number of
operators plus one, `parseExpression` returns after the single store call that
saves status "error" with result 0; it makes no `SaveTask` call and no send, and
the task table and the dispatch queue are as before. When the store works, the
row of the expression then exists and holds the text, status "error" and
result 0. -/
theorem parseExpression_count_mismatch [Float64 F] (env : Env F) (id userID : Int)
    (expression : String) (w : World F) (hascii : IsASCII expression)
    (hcount : (digits expression).length ≠ (operators expression).length + 1) :
    parseExpression env id userID expression w =
      ⟨.returned (),
        { w with db := (w.db.SaveExpression id userID expression "error" (Float64.ofNat 0)).1 },
        [.SaveExpression id userID expression "error" (Float64.ofNat 0)]⟩ ∧
    (parseExpression env id userID expression w).world.db.tasks = w.db.tasks ∧
    (parseExpression env id userID expression w).world.taskQueue = w.taskQueue ∧
    (w.db.faults = [] →
      (∃ r ∈ (parseExpression env id userID expression w).world.db.expressions, r.id = id) ∧
      ∀ r ∈ (parseExpression env id userID expression w).world.db.expressions, r.id = id →
        r.expression = expression ∧ r.status = "error" ∧ r.result = Float64.ofNat 0) := by
  have h : parseExpression env id userID expression w =
      ⟨.returned (),
        { w with db := (w.db.SaveExpression id userID expression "error" (Float64.ofNat 0)).1 },
        [.SaveExpression id userID expression "error" (Float64.ofNat 0)]⟩ := by
    unfold parseExpression
    rw [tokenize_of_ascii expression hascii]
    simp [hcount]
  rw [h]
  refine ⟨rfl, SaveExpression_tasks _ _ _ _ _ _, rfl, fun hf => ?_⟩
  obtain ⟨h1, h2, _⟩ :=
    SaveExpression_stored w.db id userID expression "error" (Float64.ofNat 0) hf
  exact ⟨h1, h2⟩

/-- C4 at "2+" (one digit, one operator) on an empty working store: the only call
saves (error, 0) and the table then holds the row (1, 1, "2+", error, 0). -/
theorem parseExpression_count_mismatch_witness :
    (parseExpression idle 1 1 "2+" (freshWorld 1 : World ℚ)).log =
      [.SaveExpression 1 1 "2+" "error" 0] ∧
    (parseExpression idle 1 1 "2+" (freshWorld 1 : World ℚ)).world.db.tasks = [] ∧
    (∃ r ∈ (parseExpression idle 1 1 "2+" (freshWorld 1 : World ℚ)).world.db.expressions,
      r.id = 1) ∧
    ∀ r ∈ (parseExpression idle 1 1 "2+" (freshWorld 1 : World ℚ)).world.db.expressions,
      r.id = 1 → r.expression = "2+" ∧ r.status = "error" ∧ r.result = 0 := by
  have h := parseExpression_count_mismatch idle 1 1 "2+" (freshWorld 1 : World ℚ)
    (by unfold IsASCII; decide) (by decide)
  refine ⟨by rw [h.1]; rfl, h.2.1, (h.2.2.2 rfl).1, ?_⟩
  intro r hr hid
  simpa [Float64.ofNat] using (h.2.2.2 rfl).2 r hr hid

/-- C5. For an ASCII text with n+1 digits and n operators in which some `/` has
right operand 0, when every awaited future is answered (and nothing else blocks),
`parseExpression` returns after a last store call that saves status "error" with
result 0; before it there is no write of the expression record, and no `SaveTask`
call and no enqueued task has operator "/" with a zero second operand. When the
store works, the row of the expression then exists and holds the text, status
"error" and result 0. -/
theorem parseExpression_zero_divisor [Float64 F] (env : Env F) (id userID : Int)
    (expression : String) (ans : F → F → String → F) (w : World F)
    (hascii : IsASCII expression)
    (hcount : (digits expression).length = (operators expression).length + 1)
    (hzero : HasZeroDivisor expression) (hready : Ready id w) (hans : Answers env id ans) :
    ∃ w1 log,
      parseExpression env id userID expression w =
        ⟨.returned (), w1,
          log ++ [.SaveExpression id userID expression "error" (Float64.ofNat 0)]⟩ ∧
      (∀ ev ∈ log, dividesByZero ev = false ∧ isSaveExpression ev = false) ∧
      (w.db.faults = [] → KeepsStore env →
        (∃ r ∈ w1.db.expressions, r.id = id) ∧
        ∀ r ∈ w1.db.expressions, r.id = id →
          r.expression = expression ∧ r.status = "error" ∧ r.result = Float64.ofNat 0) := by
  obtain ⟨hn, ho⟩ := tokens_chain (F := F) expression hcount
  have hlen : ((digits expression).map (Float64.ofNat : Nat → F)).length =
      (operators expression).length + 1 := by simpa using hcount
  obtain ⟨w0, log1, h1, hclean, hf0⟩ :=
    firstPass_zero env id userID expression ans hans (chainOf expression).2
      (chain_zero expression hzero) [] [] (chainOf expression).1 w [] rfl hready
  refine ⟨{ w0 with
      db := (w0.db.SaveExpression id userID expression "error" (Float64.ofNat 0)).1 },
    log1, ?_, hclean, fun hf hk => ?_⟩
  · simp only [List.nil_append, List.length_nil] at h1
    unfold parseExpression
    rw [tokenize_of_ascii expression hascii]
    simp only [hlen, ne_eq, not_true_eq_false, if_false]
    rw [hn, ho, h1]
  · obtain ⟨h2, h3, _⟩ :=
      SaveExpression_stored w0.db id userID expression "error" (Float64.ofNat 0) (hf0 hk hf)
    exact ⟨h2, h3⟩


/-- C5 at "2*3/0" on an empty working store: the run saves (error, 0), no task
divides by zero, and the table then holds the row of expression 7 with status
"error" and result 0. -/
theorem parseExpression_zero_divisor_witness :
    HasZeroDivisor "2*3/0" ∧
    ∃ w1 log,
      parseExpression (answering 7 compute) 7 1 "2*3/0" (freshWorld 7 : World ℚ) =
        ⟨.returned (), w1, log ++ [.SaveExpression 7 1 "2*3/0" "error" 0]⟩ ∧
      (∀ ev ∈ log, dividesByZero ev = false ∧ isSaveExpression ev = false) ∧
      (∃ r ∈ w1.db.expressions, r.id = 7) ∧
      ∀ r ∈ w1.db.expressions, r.id = 7 →
        r.expression = "2*3/0" ∧ r.status = "error" ∧ r.result = 0 := by
  obtain ⟨w1, log, h1, h2, h3⟩ :=
    parseExpression_zero_divisor (answering 7 compute) 7 1 "2*3/0" compute
      (freshWorld 7 : World ℚ) (by unfold IsASCII; decide) (by decide)
      (by unfold HasZeroDivisor; decide) (freshWorld_ready 7) (answering_answers 7 compute)
  refine ⟨by unfold HasZeroDivisor; decide, w1, log, h1, h2,
    (h3 rfl (answering_keepsStore 7 compute)).1, ?_⟩
  intro r hr hid
  simpa [Float64.ofNat] using (h3 rfl (answering_keepsStore 7 compute)).2 r hr hid

/-- C6. For an ASCII text with the two digits a, b and the single operator op
(b not 0 when op is `/`), when the awaited future is answered (store working,
nothing else blocking), the calls of `parseExpression` are exactly: one `SaveTask`
for (a, b, op), one send of that task, one read of the future, and the write of
the expression as "completed" with the value that was read. The `SaveTask` call
appends the row of the new task, unprocessed, to the task table, and the table at
the end is the one the other goroutines left while the step waited for its
result: the old table with that one row added when they did not touch it, and a
table that still holds the task when they kept every task (changing at most
`processed` and `result`). The expression row then exists and holds the text, that status and that value. -/
theorem parseExpression_single_operator [Float64 F] (env : Env F) (id userID : Int)
    (expression : String) (ans : F → F → String → F) (w : World F) (a b : Nat) (op : Char)
    (hascii : IsASCII expression) (hd : digits expression = [a, b])
    (ho : operators expression = [op]) (hb : op = '/' → b ≠ 0)
    (hready : Ready id w) (hstore : w.db.faults = []) (hans : Answers env id ans)
    (hkeep : KeepsStore env) :
    ∃ w1 tid,
      parseExpression env id userID expression w =
        ⟨.returned (), w1,
          [.SaveTask id (Float64.ofNat a) (Float64.ofNat b) (String.singleton op) (some tid),
           .enqueue (newTask env tid (Float64.ofNat a) (Float64.ofNat b) (String.singleton op)),
           .receive id (ans (Float64.ofNat a) (Float64.ofNat b) (String.singleton op)),
           .SaveExpression id userID expression "completed"
             (ans (Float64.ofNat a) (Float64.ofNat b) (String.singleton op))]⟩ ∧
      (∀ r ∈ w1.db.expressions, r.id = id →
        r.status = "completed" ∧
          r.result = ans (Float64.ofNat a) (Float64.ofNat b) (String.singleton op)) ∧
      ((∃ r ∈ w1.db.expressions, r.id = id) ∧
        ∀ r ∈ w1.db.expressions, r.id = id → r.expression = expression) ∧
      (w.db.SaveTask id (Float64.ofNat a) (Float64.ofNat b) (String.singleton op)).1.tasks =
        w.db.tasks ++
          [newRow id tid (Float64.ofNat a) (Float64.ofNat b) (String.singleton op)] ∧
      w1.db.tasks =
        (env.others
          (parkedAt env id (String.singleton op) (Float64.ofNat a) (Float64.ofNat b) w)).db.tasks ∧
      ((env.others
          (parkedAt env id (String.singleton op) (Float64.ofNat a) (Float64.ofNat b) w)).db.tasks =
          (parkedAt env id (String.singleton op) (Float64.ofNat a) (Float64.ofNat b) w).db.tasks →
        w1.db.tasks = w.db.tasks ++
          [newRow id tid (Float64.ofNat a) (Float64.ofNat b) (String.singleton op)]) ∧
      ((∀ r ∈ (parkedAt env id (String.singleton op) (Float64.ofNat a) (Float64.ofNat b)
            w).db.tasks,
          ∃ r2 ∈ (env.others (parkedAt env id (String.singleton op) (Float64.ofNat a)
            (Float64.ofNat b) w)).db.tasks, sameTask r r2) →
        ∃ r2 ∈ w1.db.tasks,
          sameTask (newRow id tid (Float64.ofNat a) (Float64.ofNat b) (String.singleton op))
            r2) := by
  have hx : w.db.exec.1 = false := by simp [Database.exec, hstore]
  have hop : isOperator op = true := by
    have : op ∈ operators expression := by rw [ho]; exact List.mem_singleton_self _
    simp only [operators, List.mem_filter] at this
    exact this.2
  have htok : tokenize (F := F) (goRunes expression) (goBytes expression) 0 [] [] =
      some ([op], [Float64.ofNat a, Float64.ofNat b]) := by
    rw [tokenize_of_ascii expression hascii, hd, ho]
    rfl
  have hb' : op = '/' → Float64.eqZero (Float64.ofNat b : F) = false := by
    intro h
    simp [Float64.eqZero_ofNat, hb h]
  have hrun := single_run env id userID expression ans w (Float64.ofNat a) (Float64.ofNat b) op
    htok hop hb' hready hans hx
  obtain ⟨ht, hfp⟩ := parkedAt_tasks env id (String.singleton op) (Float64.ofNat a)
    (Float64.ofNat b) w hx
  have hf3 : (resumedAt env id (String.singleton op) (Float64.ofNat a) (Float64.ofNat b)
      w).db.faults = [] := by
    apply hkeep
    rw [hfp, hstore]
    rfl
  obtain ⟨h1, h2, _⟩ := SaveExpression_stored
    (resumedAt env id (String.singleton op) (Float64.ofNat a) (Float64.ofNat b) w).db id userID
    expression "completed" (ans (Float64.ofNat a) (Float64.ofNat b) (String.singleton op)) hf3
  have htasks : ((resumedAt env id (String.singleton op) (Float64.ofNat a) (Float64.ofNat b)
      w).db.SaveExpression id userID expression "completed"
        (ans (Float64.ofNat a) (Float64.ofNat b) (String.singleton op))).1.tasks =
      (env.others (parkedAt env id (String.singleton op) (Float64.ofNat a) (Float64.ofNat b)
        w)).db.tasks := by
    rw [SaveExpression_tasks]
    rfl
  refine ⟨{ resumedAt env id (String.singleton op) (Float64.ofNat a) (Float64.ofNat b) w with
      db := ((resumedAt env id (String.singleton op) (Float64.ofNat a) (Float64.ofNat b)
        w).db.SaveExpression id userID expression "completed"
          (ans (Float64.ofNat a) (Float64.ofNat b) (String.singleton op))).1 },
    w.db.nextTaskID, ?_, fun r hr hid => (h2 r hr hid).2,
    ⟨h1, fun r hr hid => (h2 r hr hid).1⟩, ht, htasks, fun hk => ?_, fun hk => ?_⟩
  · rw [hrun]
    simp [stepEvents]
  · rw [htasks, hk, ht]
  · rw [htasks]
    apply hk
    rw [ht]
    exact List.mem_append_right _ (List.mem_singleton_self _)

/-- C6 at "2+3" with the value 5 delivered, on an empty working store: one task
(2,3,+) with id 1, whose row is then the only row of the task table, and the
expression completed with 5. -/
theorem parseExpression_single_operator_witness :
    ∃ w1,
      parseExpression (answering 1000 fun _ _ _ => 5) 1000 1 "2+3" (freshWorld 1000 : World ℚ) =
        ⟨.returned (), w1,
          [.SaveTask 1000 2 3 "+" (some 1),
           .enqueue (newTask (answering 1000 fun _ _ _ => 5) 1 2 3 "+"),
           .receive 1000 5,
           .SaveExpression 1000 1 "2+3" "completed" 5]⟩ ∧
      (∀ r ∈ w1.db.expressions, r.id = 1000 → r.status = "completed" ∧ r.result = 5) ∧
      w1.db.tasks = [newRow 1000 1 2 3 "+"] := by
  obtain ⟨w1, tid, h1, h2, _, h4, _, h6, _⟩ :=
    parseExpression_single_operator (answering 1000 fun _ _ _ => (5 : ℚ)) 1000 1 "2+3"
      (fun _ _ _ => 5) (freshWorld 1000) 2 3 '+' (by unfold IsASCII; decide) (by decide)
      (by decide) (by decide) (freshWorld_ready 1000) rfl (answering_answers 1000 _)
      (answering_keepsStore 1000 _)
  have hk := h6 (by rw [answering_keepsTasks])
  have ht : tid = 1 := by
    have := h4
    simp [Database.SaveTask, Database.exec, freshWorld, newRow, Database.nextTaskID] at this
    exact this.symm
  subst ht
  refine ⟨w1, ?_, ?_, ?_⟩
  · simpa [Float64.ofNat] using h1
  · simpa [Float64.ofNat] using h2
  · simpa [Float64.ofNat, freshWorld] using hk

/-- C7 fails: the future of expression 7 holds 99 when the step begins, and
`addTask` returns 99 as the result of the new task. -/
theorem addTask_returns_waiting_value :
    waitingValue.chTaskResults 7 = some [99] ∧
    addTask idle 7 "+" 2 3 waitingValue =
      ⟨.returned (1, 99),
        { parkedAt idle 7 "+" 2 3 waitingValue with
            chTaskResults := Function.update waitingValue.chTaskResults 7 (some []) },
        [.SaveTask 7 2 3 "+" (some 1), .enqueue (newTask idle 1 2 3 "+"), .receive 7 99]⟩ := by
  refine ⟨by simp [waitingValue], ?_⟩
  simp [addTask, waitingValue, Database.SaveTask, Database.exec, Database.nextTaskID, await,
    trySendTask, tryLock, unlock, tryReceive, parkedAt, newTask]

/-- C7 as amended. `addTask` registers no future: with the mutex free, room in the
queue and the task saved, it enqueues the task and reads the future registered
under the expression id. A value that future already holds is returned as the
result of the step, and the registry only loses that value; when the future is
empty at the read, the value returned is the one written while the step waits,
after the task was enqueued. -/
theorem addTask_reads_registered_future [Float64 F] (env : Env F) (id : Int) (op : String)
    (a b : F) (w : World F) (hmu : w.mu = false) (hq : w.taskQueue.length < 100)
    (hs : w.db.exec.1 = false) :
    (∀ v rest, w.chTaskResults id = some (v :: rest) →
      addTask env id op a b w =
        ⟨.returned (w.db.nextTaskID, v),
          { parkedAt env id op a b w with
              chTaskResults := Function.update w.chTaskResults id (some rest) },
          [.SaveTask id a b op (some w.db.nextTaskID),
           .enqueue (newTask env w.db.nextTaskID a b op), .receive id v]⟩) ∧
    (∀ ans, w.chTaskResults id = some [] → Answers env id ans →
      ∃ w1 tid, addTask env id op a b w =
        ⟨.returned (tid, ans a b op), w1, stepEvents env id ans tid a b op⟩) := by
  constructor
  · intro v rest hch
    simp [addTask, Database.SaveTask, hs, await, trySendTask, hq, tryLock, hmu, unlock, hch,
      tryReceive, parkedAt, newTask]
  · intro ans hch ha
    rcases addTask_spec env id ans op a b w ⟨hmu, hq, hch⟩ ha with
      ⟨_, _, _, hx⟩ | ⟨w3, tid, h, _, _, _, _⟩
    · rw [hs] at hx
      exact absurd hx (by decide)
    · exact ⟨w3, tid, h⟩

/-- C7 as amended, at the future of expression 7 holding 99. -/
theorem addTask_reads_registered_future_witness :
    (∀ v rest, waitingValue.chTaskResults 7 = some (v :: rest) →
      addTask idle 7 "+" 2 3 waitingValue =
        ⟨.returned (waitingValue.db.nextTaskID, v),
          { parkedAt idle 7 "+" 2 3 waitingValue with
              chTaskResults := Function.update waitingValue.chTaskResults 7 (some rest) },
          [.SaveTask 7 2 3 "+" (some waitingValue.db.nextTaskID),
           .enqueue (newTask idle waitingValue.db.nextTaskID 2 3 "+"), .receive 7 v]⟩) ∧
    (∀ ans, waitingValue.chTaskResults 7 = some [] → Answers idle 7 ans →
      ∃ w1 tid, addTask idle 7 "+" 2 3 waitingValue =
        ⟨.returned (tid, ans 2 3 "+"), w1, stepEvents idle 7 ans tid 2 3 "+"⟩) :=
  addTask_reads_registered_future idle 7 "+" 2 3 waitingValue rfl (by decide) rfl

/-- C8 fails: task 1 is stored as processed with result 5; after
`UpdateTaskResult` or `SendTaskResult` for task 1 with value 7 it reads back with
result 7. -/
theorem SendTaskResult_overwrites_result :
    (processedTask.db.GetTaskResult 1).2 = some (5, true) ∧
    ((processedTask.db.UpdateTaskResult 1 7).1.GetTaskResult 1).2 = some (7, true) ∧
    (SendTaskResult idle ⟨1, 7⟩ processedTask).1 = .returned { Success := true } ∧
    ((SendTaskResult idle ⟨1, 7⟩ processedTask).2.db.GetTaskResult 1).2 = some (7, true) := by
  refine ⟨?_, ?_, ?_, ?_⟩ <;>
    simp [SendTaskResult, processedTask, Database.UpdateTaskResult, Database.GetTaskResult,
      Database.exec, await, tryLock, unlock, trySendResult]

/-- C8 as amended. For a task stored as processed, a later `SendTaskResult` (and the
underlying `UpdateTaskResult`) whose store write succeeds leaves processed true and
replaces the stored result by the new value; when the write fails the task table
is unchanged. -/
theorem SendTaskResult_last_write_wins (env : Env F) (w : World F) (taskID : Int) (v : F)
    (row : TaskRow F) (hrow : w.db.tasks.find? (fun r => r.id = taskID) = some row)
    (hp : row.processed = true) (hmu : w.mu = false)
    (hch : w.chTaskResults taskID = none ∨ w.chTaskResults taskID = some []) :
    ((w.db.UpdateTaskResult taskID v).2 = false →
      (w.db.UpdateTaskResult taskID v).1.tasks.find? (fun r => r.id = taskID) =
          some { row with result := some v } ∧
        (SendTaskResult env ⟨taskID, v⟩ w).2.db.tasks.find? (fun r => r.id = taskID) =
          some { row with result := some v }) ∧
    ((w.db.UpdateTaskResult taskID v).2 = true →
      (w.db.UpdateTaskResult taskID v).1.tasks = w.db.tasks ∧
        (SendTaskResult env ⟨taskID, v⟩ w).2.db.tasks = w.db.tasks) := by
  have hdb := SendTaskResult_db env ⟨taskID, v⟩ w hmu hch
  have hrow' : { row with processed := true, result := some v } = { row with result := some v } := by
    cases row; simp_all
  constructor
  · intro hu
    have hs : w.db.exec.1 = false := by
      by_cases h : w.db.exec.1 = true
      · simp [Database.UpdateTaskResult, h] at hu
      · simpa using h
    have := find?_UpdateTaskResult w.db taskID v row hs hrow
    rw [hrow'] at this
    exact ⟨this, by rw [hdb]; exact this⟩
  · intro hu
    have hs : w.db.exec.1 = true := by
      by_cases h : w.db.exec.1 = true
      · exact h
      · simp [Database.UpdateTaskResult, h] at hu
    have : (w.db.UpdateTaskResult taskID v).1.tasks = w.db.tasks := by
      simp only [Database.UpdateTaskResult, hs, if_true]
      rfl
    exact ⟨this, by rw [hdb]; exact this⟩

/-- C8 as amended, at task 1 processed with 5 and the new value 7. -/
theorem SendTaskResult_last_write_wins_witness :
    (processedTask.db.tasks.find? fun r => r.id = 1).map (fun r => (r.processed, r.result)) =
      some (true, some 5) ∧
    ((SendTaskResult idle ⟨1, 7⟩ processedTask).2.db.tasks.find? fun r => r.id = 1).map
      (fun r => (r.processed, r.result)) = some (true, some 7) := by
  have h := (SendTaskResult_last_write_wins idle processedTask 1 7
    { id := 1, expression_id := 1, arg1 := 2, arg2 := 3, operation := "+",
      processed := true, result := some 5 } rfl rfl rfl (Or.inl rfl)).1 rfl
  exact ⟨rfl, by rw [h.2]; rfl⟩

/-- C9 fails: the future registered under task id 3 holds an unread value; the
store write of `SendTaskResult` for task 3 succeeds and the task reads back as
processed with result 8, but the call is blocked at the send and returns no
response. -/
theorem SendTaskResult_written_without_response :
    (occupiedFuture.db.UpdateTaskResult 3 8).2 = false ∧
    (SendTaskResult idle ⟨3, 8⟩ occupiedFuture).1 = .blocked ∧
    (SendTaskResult idle ⟨3, 8⟩ occupiedFuture).1 ≠ .returned { Success := true } ∧
    ((SendTaskResult idle ⟨3, 8⟩ occupiedFuture).2.db.GetTaskResult 3).2 = some (8, true) := by
  refine ⟨?_, ?_, ?_, ?_⟩ <;>
    simp [SendTaskResult, occupiedFuture, Database.UpdateTaskResult, Database.GetTaskResult,
      Database.exec, await, tryLock, unlock, trySendResult, idle]

/-- C9 as amended. For a stored task id, `SendTaskResult` returns success=false if
and only if the store write fails. When the write succeeds, the mutex is free and
the future registered under the task id is absent or empty, it returns
success=true, the task reads back as processed with the submitted value, and the
unprocessed-task query no longer returns it. -/
theorem SendTaskResult_success_iff_written (env : Env F) (w : World F) (taskID : Int) (v : F)
    (row : TaskRow F) (hrow : w.db.tasks.find? (fun r => r.id = taskID) = some row) :
    ((SendTaskResult env ⟨taskID, v⟩ w).1 = .returned { Success := false } ↔
      (w.db.UpdateTaskResult taskID v).2 = true) ∧
    ((w.db.UpdateTaskResult taskID v).2 = false → w.mu = false →
      (w.chTaskResults taskID = none ∨ w.chTaskResults taskID = some []) →
      (SendTaskResult env ⟨taskID, v⟩ w).1 = .returned { Success := true } ∧
      ((SendTaskResult env ⟨taskID, v⟩ w).2.db.exec.1 = false →
        ((SendTaskResult env ⟨taskID, v⟩ w).2.db.GetTaskResult taskID).2 = some (v, true)) ∧
      ∀ limit rows, ((SendTaskResult env ⟨taskID, v⟩ w).2.db.GetUnprocessedTasks limit).2 = some rows →
        ∀ r ∈ rows, r.id ≠ taskID) := by
  constructor
  · constructor
    · intro h
      by_contra hu
      have hu' : (w.db.UpdateTaskResult taskID v).2 = false := by simpa using hu
      simp only [SendTaskResult, hu', Bool.false_eq_true, if_false] at h
      split at h
      · simp at h
      · split at h
        · split at h <;> simp at h
        · simp at h
    · intro hu
      simp [SendTaskResult, hu]
  · intro hu hmu hch
    have hdb := SendTaskResult_db env ⟨taskID, v⟩ w hmu hch
    have hs : w.db.exec.1 = false := by
      by_cases h : w.db.exec.1 = true
      · simp [Database.UpdateTaskResult, h] at hu
      · simpa using h
    have hfind := find?_UpdateTaskResult w.db taskID v row hs hrow
    rw [hdb]
    refine ⟨by simp [hu], ?_, ?_⟩
    · intro hx
      simp only at hx
      simp only [Database.GetTaskResult, hx, Bool.false_eq_true, if_false, hfind]
    · intro limit rows hrows r hr hid
      simp only [Database.GetUnprocessedTasks] at hrows
      split at hrows
      · simp at hrows
      · simp only [Option.some.injEq] at hrows
        have hmem : r ∈ (w.db.UpdateTaskResult taskID v).1.tasks.filter
            (fun r => r.processed = false) := by
          subst hrows
          split at hr
          · exact hr
          · exact List.mem_of_mem_take hr
        rw [List.mem_filter] at hmem
        obtain ⟨hin, hproc⟩ := hmem
        simp only [Database.UpdateTaskResult, hs, Bool.false_eq_true, if_false,
          List.mem_map] at hin
        obtain ⟨r0, _, rfl⟩ := hin
        by_cases h0 : r0.id = taskID
        · simp [h0] at hproc
        · simp [h0] at hid


/-- C9 as amended, at task 2 with an empty future registered under 2. -/
theorem SendTaskResult_success_iff_written_witness :
    (SendTaskResult idle ⟨2, 7⟩ twoExpressions).1 = .returned { Success := true } ∧
    ((SendTaskResult idle ⟨2, 7⟩ twoExpressions).2.db.GetTaskResult 2).2 = some (7, true) := by
  have h := (SendTaskResult_success_iff_written idle twoExpressions 2 7
    { id := 2, expression_id := 1, arg1 := 6, arg2 := 1, operation := "+",
      processed := false, result := none } rfl).2 rfl rfl (Or.inr rfl)
  exact ⟨h.1, h.2.1 (by simp [SendTaskResult, twoExpressions, Database.UpdateTaskResult, Database.exec, await, tryLock, unlock, trySendResult])⟩

/-- C10 fails: the future registered under id 5 holds an unread value and no
other goroutine reads it; `SendTaskResult` for id 5 is blocked at the send. -/
theorem SendTaskResult_blocks_on_unread_value :
    unreadResult.chTaskResults 5 = some [20] ∧
    (SendTaskResult idle ⟨5, 20⟩ unreadResult).1 = .blocked ∧
    ¬ ∃ resp, (SendTaskResult idle ⟨5, 20⟩ unreadResult).1 = .returned resp := by
  refine ⟨by simp [unreadResult], ?_, ?_⟩ <;>
    simp [SendTaskResult, unreadResult, Database.UpdateTaskResult, Database.exec, await, tryLock,
      unlock, trySendResult, idle]

/-- C10 as amended. `SendTaskResult` returns a response without waiting when the
store write fails, or when the mutex is free and the future registered under the
id is absent or empty; when that future already holds a value and no other
goroutine reads it, the call is blocked. -/
theorem SendTaskResult_returns_when_slot_free (env : Env F) (result : TaskResult F) (w : World F)
    (h : (w.db.UpdateTaskResult result.Id result.Result).2 = true ∨
      (w.mu = false ∧
        (w.chTaskResults result.Id = none ∨ w.chTaskResults result.Id = some []))) :
    (∃ resp w1, SendTaskResult env result w = (.returned resp, w1)) ∧
    ∀ (w0 : World F) (x : F) (xs : List F),
      (w0.db.UpdateTaskResult result.Id result.Result).2 = false → w0.mu = false →
      w0.chTaskResults result.Id = some (x :: xs) →
      (SendTaskResult idle result w0).1 = .blocked := by
  constructor
  · rcases h with h | ⟨hmu, hch⟩
    · refine ⟨{ Success := false },
        { w with db := (w.db.UpdateTaskResult result.Id result.Result).1 }, ?_⟩
      simp [SendTaskResult, h]
    · exact ⟨_, _, SendTaskResult_db env result w hmu hch⟩
  · intro w0 x xs hu hmu hch
    simp [SendTaskResult, hu, await, tryLock, hmu, unlock, hch, trySendResult, idle]

/-- C10 as amended, at an empty future registered under id 2. -/
theorem SendTaskResult_returns_when_slot_free_witness :
    ∃ resp w1, SendTaskResult idle ⟨2, 7⟩ twoExpressions = (.returned resp, w1) :=
  (SendTaskResult_returns_when_slot_free idle ⟨2, 7⟩ twoExpressions
    (Or.inr ⟨rfl, Or.inr rfl⟩)).1

/-- C11 fails: the only unprocessed task has the id 2147483648 and the configured
addition time is 3000000000; with the queue empty `GetTask` replies has_task=true
with the id -2147483648 and the operation time -1294967296. -/
theorem GetTask_wraps_id_and_time :
    ((largeValues.2.db.GetUnprocessedTasks 1).2.map fun rows => rows.map (·.id)) =
      some [2147483648] ∧
    getOperationTime largeValues.1 "+" = 3000000000 ∧
    (GetTask largeValues.1 largeValues.2).1.1.HasTask = true ∧
    (GetTask largeValues.1 largeValues.2).1.1.Id = -2147483648 ∧
    (GetTask largeValues.1 largeValues.2).1.1.OperationTime = -1294967296 := by
  refine ⟨?_, ?_, ?_, ?_, ?_⟩ <;>
    simp [GetTask, largeValues, Database.GetUnprocessedTasks, Database.exec, getOperationTime, int32]

/-- C11 as amended. With the dispatch queue empty, `GetTask` never reports an error;
it replies has_task=false exactly when the unprocessed-task query (limit 1) fails
or returns no task; otherwise it replies has_task=true with both operands and the
operator of the first task of the query, with the `int32` conversion of its id and
of `getOperationTime` of its operator, which are the id and the time themselves
when they fit in 32 bits. -/
theorem GetTask_empty_queue [Float64 F] (env : Env F) (w : World F) (hq : w.taskQueue = []) :
    (GetTask env w).1.2 = false ∧
    ((GetTask env w).1.1.HasTask = false ↔
      ((w.db.GetUnprocessedTasks 1).2 = none ∨ (w.db.GetUnprocessedTasks 1).2 = some [])) ∧
    ∀ task rest, (w.db.GetUnprocessedTasks 1).2 = some (task :: rest) →
      (GetTask env w).1.1 =
          { Id := int32 task.id, Arg1 := task.arg1, Arg2 := task.arg2,
            Operation := task.operation,
            OperationTime := int32 (getOperationTime env task.operation), HasTask := true } ∧
        (FitsInt32 task.id → (GetTask env w).1.1.Id = task.id) ∧
        (FitsInt32 (getOperationTime env task.operation) →
          (GetTask env w).1.1.OperationTime = getOperationTime env task.operation) := by
  unfold GetTask
  rw [hq]
  rcases h : (w.db.GetUnprocessedTasks 1).2 with _ | rows
  · simp [noTask]
  · cases rows with
    | nil => simp [noTask]
    | cons t r =>
      simp only [false_or, Option.some.injEq, List.cons.injEq, and_imp, reduceCtorEq]
      refine ⟨trivial, by simp, ?_⟩
      intro task rest h1 _
      subst h1
      exact ⟨rfl, fun hf => int32_of_fits _ hf, fun hf => int32_of_fits _ hf⟩

/-- C11 as amended, at an empty queue and the stored unprocessed task (5,5,+) of id 1. -/
theorem GetTask_empty_queue_witness :
    (GetTask idle (storedTask : World ℚ)).1.2 = false ∧
    (GetTask idle (storedTask : World ℚ)).1.1 =
      { Id := 1, Arg1 := 5, Arg2 := 5, Operation := "+", OperationTime := 100,
        HasTask := true } := by
  have h := GetTask_empty_queue idle (storedTask : World ℚ) rfl
  refine ⟨h.1, ?_⟩
  have h1 := (h.2.2
    { id := 1, expression_id := 1, arg1 := 5, arg2 := 5, operation := "+",
      processed := false, result := none } [] rfl).1
  rw [h1]
  simp [int32, getOperationTime, idle]

/-- C12. When the dispatch queue is not empty `GetTask` replies its oldest task as
it is, without error, and leaves the state as it was but for that task removed
from the queue: the store is not consulted. So `n` successive calls reply the
first `n` queued tasks in queue order, and `addTask` sends each new task to the
back of the queue. -/
theorem GetTask_fifo [Float64 F] (env : Env F) (w : World F) (task : PbTask F)
    (rest : List (PbTask F)) (hq : w.taskQueue = task :: rest) :
    GetTask env w = ((task, false), { w with taskQueue := rest }) ∧
    (∀ n, n ≤ w.taskQueue.length →
      GetTasks env n w = (w.taskQueue.take n, { w with taskQueue := w.taskQueue.drop n })) ∧
    ∀ t, w.taskQueue.length < 100 →
      trySendTask t w = some ((), { w with taskQueue := w.taskQueue ++ [t] }) := by
  refine ⟨by simp [GetTask, hq], fun n hn => GetTasks_take env n w hn, fun t ht => ?_⟩
  simp [trySendTask, ht]

/-- C12 at a queue of three tasks and a store that would fail: three calls reply
the three tasks in order and leave the store untouched. -/
theorem GetTask_fifo_witness :
    (GetTasks idle 3 threeQueued).1 = threeQueued.taskQueue ∧
    (GetTasks idle 3 threeQueued).2.taskQueue = [] ∧
    (GetTasks idle 3 threeQueued).2.db.faults = [true] := by
  have h := (GetTask_fifo idle threeQueued _ _ rfl).2.1 3 (by decide)
  rw [h]
  exact ⟨rfl, rfl, rfl⟩

/-- C13. `compute` adds, subtracts and multiplies; it divides when the divisor
is not zero; it gives 0 for a division by zero and for every other operator. -/
theorem compute_cases [Float64 F] (a b : F) (op : String) :
    compute a b "+" = Float64.add a b ∧
    compute a b "-" = Float64.sub a b ∧
    compute a b "*" = Float64.mul a b ∧
    (Float64.eqZero b = false → compute a b "/" = Float64.div a b) ∧
    (Float64.eqZero b = true → compute a b "/" = Float64.ofNat 0) ∧
    (op ≠ "+" → op ≠ "-" → op ≠ "*" → op ≠ "/" → compute a b op = Float64.ofNat 0) := by
  refine ⟨by simp [compute], by simp [compute], by simp [compute], ?_, ?_, ?_⟩
  · intro h; simp [compute, h]
  · intro h; simp [compute, h]
  · intro h1 h2 h3 h4; simp [compute, h1, h2, h3, h4]

/-- C13 on the cases of `TestCompute`. -/
theorem compute_cases_witness :
    compute (5 : ℚ) 3 "+" = 8 ∧ compute (5 : ℚ) 3 "-" = 2 ∧ compute (5 : ℚ) 3 "*" = 15 ∧
    compute (15 : ℚ) 3 "/" = 5 ∧ compute (5 : ℚ) 0 "/" = 0 ∧ compute (5 : ℚ) 3 "?" = 0 := by
  have h1 := compute_cases (5 : ℚ) 3 "?"
  have h2 := compute_cases (15 : ℚ) 3 "?"
  have h3 := compute_cases (5 : ℚ) 0 "?"
  refine ⟨?_, ?_, ?_, ?_, ?_, ?_⟩
  · rw [h1.1]; simp [Float64.add]; norm_num
  · rw [h1.2.1]; simp [Float64.sub]; norm_num
  · rw [h1.2.2.1]; simp [Float64.mul]; norm_num
  · rw [h2.2.2.2.1 (by simp [Float64.eqZero])]; simp [Float64.div]; norm_num
  · rw [h3.2.2.2.2.1 (by simp [Float64.eqZero])]; simp [Float64.ofNat]
  · rw [h1.2.2.2.2.2 (by decide) (by decide) (by decide) (by decide)]; simp [Float64.ofNat]

/-- C15 (the code departs from it). The last id is read before the mutex is
taken. The expressions 1 and 2 are stored and another request holds the mutex
after reading the last id 2; the request of user 1 for "3+4" reads the same last
id and waits; the other request saves its expression under the id 3, registers
its future and unlocks. The store calls all succeed, and the request is answered
201 with the id 3: no row is added, and the row 3 of user 2, which held "1+1",
now holds the text "3+4". -/
theorem handleCalculate_reuses_id :
    heldByOther.db.maxExpressionID = 2 ∧
    (finishing.others heldByOther).db.expressions =
      twoExpressions.db.expressions ++
        [{ id := 3, user_id := 2, expression := "1+1", status := "processing", result := 0 }] ∧
    (handleCalculate finishing ⟨some "3+4", some 1⟩ heldByOther).outcome =
      .returned { status := 201, id := some 3 } ∧
    (handleCalculate finishing ⟨some "3+4", some 1⟩ heldByOther).world.db.expressions =
      twoExpressions.db.expressions ++
        [{ id := 3, user_id := 2, expression := "3+4", status := "processing", result := 0 }] ∧
    (handleCalculate finishing ⟨some "3+4", some 1⟩ heldByOther).world.db.faults = [] := by
  refine ⟨?_, ?_, ?_, ?_, ?_⟩ <;>
    simp [handleCalculate, heldByOther, finishing, twoExpressions, Database.GetLastExpressionID,
      Database.exec, Database.maxExpressionID, await, tryLock, unlock, Database.SaveExpression,
      Float64.ofNat]

/-- C16. In every run of `parseExpression`, whatever the text, the state and the
other goroutines, the creations of tasks and the reads of the future alternate:
a task is created only when no created task is outstanding, it is enqueued only
while it is outstanding, and at every point of the run the tasks created exceed
the values read by at most one. A run that returns leaves no task outstanding. -/
theorem parseExpression_one_outstanding [Float64 F] (env : Env F) (id userID : Int)
    (expression : String) (w : World F) :
    (alternates false (parseExpression env id userID expression w).log).isSome = true ∧
    ((parseExpression env id userID expression w).outcome = .returned () →
      alternates false (parseExpression env id userID expression w).log = some false) ∧
    ∀ pre post, (parseExpression env id userID expression w).log = pre ++ post →
      awaited pre ≤ created pre ∧ created pre ≤ awaited pre + 1 ∧
      ∀ ev rest, post = ev :: rest →
        (isCreation ev = true → created pre = awaited pre) ∧
        (isEnqueue ev = true → created pre = awaited pre + 1) := by
  have hsome : (alternates false (parseExpression env id userID expression w).log).isSome = true ∧
      ((parseExpression env id userID expression w).outcome = .returned () →
        alternates false (parseExpression env id userID expression w).log = some false) := by
    rcases parseExpression_cases env id userID expression w with
      ⟨w1, L, status, result, hq, _, h⟩ | ⟨o, w1, L, ho, hq, h⟩
    · have ha : alternates false L = some false := by simpa using hq.2
      rw [h]
      simp only [alternates_write, ha, Option.isSome_some, implies_true, and_self]
    · have ha : (alternates false L).isSome = true := by simpa using hq.2
      rw [h]
      refine ⟨ha, fun hret => ?_⟩
      rcases ho with rfl | rfl <;> cases hret
  refine ⟨hsome.1, hsome.2, ?_⟩
  intro pre post hlog
  have hs := hsome.1
  rw [hlog] at hs
  obtain ⟨t, hpre, hpost⟩ := alternates_prefix pre post false hs
  have hc := alternates_counts pre false t hpre
  simp only [Bool.false_eq_true, if_false, Nat.add_zero] at hc
  refine ⟨?_, ?_, ?_⟩
  · cases t <;> simp at hc <;> omega
  · cases t <;> simp at hc <;> omega
  · intro ev rest hev
    rw [hev] at hpost
    obtain ⟨h1, h2⟩ := alternates_at ev rest t hpost
    refine ⟨fun he => ?_, fun he => ?_⟩
    · rw [h1 he] at hc
      simpa using hc
    · rw [h2 he] at hc
      simpa using hc

/-- C16 at "2*3+1" with every step answered: the run returns and leaves no task
outstanding. -/
theorem parseExpression_one_outstanding_witness :
    alternates false
      (parseExpression (answering 7 compute) 7 1 "2*3+1" (freshWorld 7 : World ℚ)).log =
        some false := by
  have hret : (parseExpression (answering 7 compute) 7 1 "2*3+1"
      (freshWorld 7 : World ℚ)).outcome = .returned () := by
    obtain ⟨_, _, _, _, _, h⟩ := parseExpression_run (answering 7 compute) 7 1 "2*3+1" compute
      (freshWorld 7 : World ℚ) (by unfold IsASCII; decide) (by decide)
      (by unfold NoZeroDivisor; decide) (freshWorld_ready 7) rfl (answering_answers 7 compute)
      (answering_keepsStore 7 compute)
    rw [h]
  exact (parseExpression_one_outstanding (answering 7 compute) 7 1 "2*3+1" (freshWorld 7)).2.1 hret

/-- C17 fails: a request that is served (201) saves the new expression while it
holds the registry mutex, so its steps break the discipline "only registry
accesses between lock and unlock"; and when that save fails, the request is
answered 500 and the mutex is still locked. -/
theorem handleCalculate_saves_under_lock :
    (handleCalculate idle ⟨some "3+4", some 1⟩ twoExpressions).outcome =
      .returned { status := 201, id := some 3 } ∧
    (handleCalculate idle ⟨some "3+4", some 1⟩ twoExpressions).steps =
      [.store, .lock, .store, .registry, .unlock] ∧
    narrow false (handleCalculate idle ⟨some "3+4", some 1⟩ twoExpressions).steps = none ∧
    (handleCalculate idle ⟨some "3+4", some 1⟩ failingSave).outcome =
      .returned { status := 500, id := none } ∧
    (handleCalculate idle ⟨some "3+4", some 1⟩ failingSave).world.mu = true := by
  refine ⟨?_, ?_, ?_, ?_, ?_⟩ <;>
    simp [handleCalculate, twoExpressions, failingSave, Database.GetLastExpressionID,
      Database.exec, Database.maxExpressionID, await, tryLock, idle, Database.SaveExpression,
      narrow]

/-- C17 as amended. `addTask` and `SendTaskResult` hold the registry mutex only for
the map lookup: between their lock and unlock there is no store call and no
channel send or receive, and every run of them that returns has released it.
`handleCalculate` makes no channel send or receive at all; it locks after reading
the last id, saves the new expression and inserts the future while holding the
mutex, and a request answered 201 has released it. -/
theorem mutex_held_for_registry_access [Float64 F] (env : Env F) (w : World F) :
    (∀ id op a b,
      (narrow false (addTaskSteps env id op a b w)).isSome = true ∧
      (∀ v, (addTask env id op a b w).outcome = .returned v →
        narrow false (addTaskSteps env id op a b w) = some false) ∧
      (addTaskSteps env id op a b w).filter Step.isEffect =
        (addTask env id op a b w).log.map Event.kind) ∧
    (∀ result,
      (narrow false (SendTaskResultSteps env result w)).isSome = true ∧
      (∀ v, (SendTaskResult env result w).1 = .returned v →
        narrow false (SendTaskResultSteps env result w) = some false)) ∧
    ∀ req,
      (handleCalculate env req w).steps ∈ calculateTraces ∧
      ∀ id, (handleCalculate env req w).outcome = .returned { status := 201, id := id } →
        (handleCalculate env req w).steps = [.store, .lock, .store, .registry, .unlock] ∧
          (handleCalculate env req w).world.mu = false :=
  ⟨fun id op a b => addTaskSteps_spec env id op a b w,
    fun result => SendTaskResultSteps_spec env result w,
    fun req => handleCalculate_steps env req w⟩

/-- C17 as amended, at a served request: its steps are store, lock, store,
registry, unlock, and the mutex is free afterwards. -/
theorem mutex_held_for_registry_access_witness :
    (handleCalculate idle ⟨some "3+4", some 1⟩ twoExpressions).steps =
      [.store, .lock, .store, .registry, .unlock] ∧
    (handleCalculate idle ⟨some "3+4", some 1⟩ twoExpressions).world.mu = false :=
  ((mutex_held_for_registry_access idle twoExpressions).2.2 ⟨some "3+4", some 1⟩).2 (some 3)
    (by simp [handleCalculate, twoExpressions, Database.GetLastExpressionID, Database.exec,
      Database.maxExpressionID, await, tryLock, idle, Database.SaveExpression])

/-- C18. Two ASCII texts with the same digit characters in the same order and the
same operator characters in the same order, run from the same state against the
same other goroutines (so with the same values delivered by the futures): both
runs end the same way, make the same store calls for tasks, sends and reads of
the future (so dispatch the same tasks in the same order), write the same status
and result, and leave states that differ at most in the text of the expression
rows. -/
theorem parseExpression_token_determined [Float64 F] (env : Env F) (id userID : Int)
    (e1 e2 : String) (w : World F) (h1 : IsASCII e1) (h2 : IsASCII e2)
    (hd : digits e1 = digits e2) (ho : operators e1 = operators e2) :
    (parseExpression env id userID e1 w).outcome = (parseExpression env id userID e2 w).outcome ∧
    (parseExpression env id userID e1 w).log.filter isStep =
      (parseExpression env id userID e2 w).log.filter isStep ∧
    dispatched (parseExpression env id userID e1 w).log =
      dispatched (parseExpression env id userID e2 w).log ∧
    persisted (parseExpression env id userID e1 w).log =
      persisted (parseExpression env id userID e2 w).log ∧
    (parseExpression env id userID e1 w).world.db.expressions.map ExpressionRow.withoutText =
      (parseExpression env id userID e2 w).world.db.expressions.map ExpressionRow.withoutText ∧
    (parseExpression env id userID e1 w).world.db.tasks =
      (parseExpression env id userID e2 w).world.db.tasks ∧
    (parseExpression env id userID e1 w).world.taskQueue =
      (parseExpression env id userID e2 w).world.taskQueue ∧
    (parseExpression env id userID e1 w).world.chTaskResults =
      (parseExpression env id userID e2 w).world.chTaskResults := by
  have t1 := tokenize_of_ascii (F := F) e1 h1
  have t2 := tokenize_of_ascii (F := F) e2 h2
  rw [← hd, ← ho] at t2
  rcases parseExpression_form env id userID w (operators e1)
      ((digits e1).map (Float64.ofNat : Nat → F)) with
    ⟨w1, L, status, result, _, _, h⟩ | ⟨o, w1, L, _, _, h⟩
  · rw [h e1 t1, h e2 t2]
    obtain ⟨hx, hy, _⟩ := SaveExpression_text w1.db id userID e1 e2 status result
    refine ⟨rfl, ?_, ?_, ?_, hx, hy, rfl, rfl⟩
    · rw [isStep_write, isStep_write]
    · rw [dispatched_write, dispatched_write]
    · rw [persisted_write, persisted_write]
  · rw [h e1 t1, h e2 t2]
    exact ⟨rfl, rfl, rfl, rfl, rfl, rfl, rfl, rfl⟩

/-- C18 at the texts "2+3" and "23+" with the value 5 delivered: the same task
(2,3,+) is dispatched and the same status and result are written. -/
theorem parseExpression_token_determined_witness :
    (IsASCII "2+3" ∧ IsASCII "23+" ∧ digits "2+3" = digits "23+" ∧
      operators "2+3" = operators "23+") ∧
    dispatched (parseExpression (answering 7 fun _ _ _ => 5) 7 1 "2+3"
        (freshWorld 7 : World ℚ)).log =
      dispatched (parseExpression (answering 7 fun _ _ _ => 5) 7 1 "23+"
        (freshWorld 7 : World ℚ)).log ∧
    persisted (parseExpression (answering 7 fun _ _ _ => 5) 7 1 "2+3"
        (freshWorld 7 : World ℚ)).log =
      persisted (parseExpression (answering 7 fun _ _ _ => 5) 7 1 "23+"
        (freshWorld 7 : World ℚ)).log := by
  have h := parseExpression_token_determined (answering 7 fun _ _ _ => (5 : ℚ)) 7 1 "2+3" "23+"
    (freshWorld 7 : World ℚ) (by unfold IsASCII; decide) (by unfold IsASCII; decide)
    (by decide) (by decide)
  exact ⟨⟨by unfold IsASCII; decide, by unfold IsASCII; decide, by decide, by decide⟩,
    h.2.2.1, h.2.2.2.1⟩

/-- C19 (the code departs from it). The tokenizer takes the rune at the byte index.
In "éé1+1" the `+` is byte 5 and the text has 5 runes, so the index is out of range
and the run panics. In "é1+2" the `+` is byte 3 and rune 3 is `2`: the operator
recorded is `2`, the counts are valid (two operands, one operator), no task is
dispatched and the run ends completed with the result 1, the first of two
operands, the recorded operator never consumed. -/
theorem tokenize_indexes_runes_by_byte :
    ((goBytes "éé1+1")[5]? = some 43 ∧ (goRunes "éé1+1").length = 5) ∧
    tokenize (F := ℚ) (goRunes "éé1+1") (goBytes "éé1+1") 0 [] [] = none ∧
    parseExpression idle 1 1 "éé1+1" (freshWorld 1 : World ℚ) =
      ⟨.panicked, freshWorld 1, []⟩ ∧
    ((goBytes "é1+2")[3]? = some 43 ∧ (goRunes "é1+2")[3]? = some '2') ∧
    tokenize (F := ℚ) (goRunes "é1+2") (goBytes "é1+2") 0 [] [] = some (['2'], [1, 2]) ∧
    firstPass idle 1 1 "é1+2" 0 [1, 2] ['2'] (freshWorld 1 : World ℚ) [] =
      ⟨.returned (some ([1, 2], ['2'])), freshWorld 1, []⟩ ∧
    secondPass idle 1 1 "é1+2" 0 [1, 2] ['2'] (freshWorld 1 : World ℚ) [] =
      ⟨.returned (some ([1, 2], ['2'])), freshWorld 1, []⟩ ∧
    (parseExpression idle 1 1 "é1+2" (freshWorld 1 : World ℚ)).outcome = .returned () ∧
    (parseExpression idle 1 1 "é1+2" (freshWorld 1 : World ℚ)).log =
      [.SaveExpression 1 1 "é1+2" "completed" 1] := by
  have t1 : tokenize (F := ℚ) (goRunes "éé1+1") (goBytes "éé1+1") 0 [] [] = none := rfl
  have t2 : tokenize (F := ℚ) (goRunes "é1+2") (goBytes "é1+2") 0 [] [] =
      some (['2'], [1, 2]) := by
    simp [tokenize, goRunes, goBytes, utf8Encode, Float64.ofNat]
  have f1 : firstPass idle 1 1 "é1+2" 0 [1, 2] ['2'] (freshWorld 1 : World ℚ) [] =
      ⟨.returned (some ([1, 2], ['2'])), freshWorld 1, []⟩ := by
    rw [firstPass]
    simp only [List.length_singleton, Nat.lt_one_iff, dite_true, List.getElem_cons_zero]
    rw [if_neg (by decide), if_neg (by decide), firstPass]
    simp
  have f2 : secondPass idle 1 1 "é1+2" 0 [1, 2] ['2'] (freshWorld 1 : World ℚ) [] =
      ⟨.returned (some ([1, 2], ['2'])), freshWorld 1, []⟩ := by
    rw [secondPass]
    simp only [List.length_singleton, Nat.lt_one_iff, dite_true, List.getElem_cons_zero]
    rw [if_neg (by decide), if_neg (by decide), secondPass]
    simp
  have p1 : parseExpression idle 1 1 "éé1+1" (freshWorld 1 : World ℚ) =
      ⟨.panicked, freshWorld 1, []⟩ := by
    unfold parseExpression
    rw [t1]
  have p2 : parseExpression idle 1 1 "é1+2" (freshWorld 1 : World ℚ) =
      ⟨.returned (),
        { (freshWorld 1 : World ℚ) with
            db := ((freshWorld 1 : World ℚ).db.SaveExpression 1 1 "é1+2" "completed" 1).1 },
        [.SaveExpression 1 1 "é1+2" "completed" 1]⟩ := by
    unfold parseExpression
    rw [t2]
    simp only [List.length_cons, List.length_nil, ne_eq, not_true_eq_false, if_false]
    rw [f1]
    simp only [f2, complete, List.getElem?_cons_zero, List.nil_append]
  refine ⟨by decide, t1, p1, by decide, t2, f1, f2, ?_, ?_⟩
  · rw [p2]
  · rw [p2]

end DistributedCalculations
